import Mathlib

/-!
OptBaQNewton: barrier quasi-Newton iteration (src/Newton/OptBaQNewton.C)

A shallow embedding of the member functions of `OptBaQNewton`.

Conventions of the embedding.

* A C++ `double` is a rational number and arithmetic is exact: rounding and
  overflow are outside the model.  Division keeps the convention `x / 0 = 0`.
* `ColumnVector` is a function on indices; NEWMAT's `v(i)`, `i = 1..n`, is
  `v i`, `i = 0..n-1`.  A `for (i=1; i<=n; i++)` loop is `forLoop`.
* The C library `log` is a parameter `log : ℚ → Option ℚ`; `none` stands for
  a result that is not a finite number (`log` of a negative number is NaN and
  `log 0` is `-inf`).  `sqrt` is a parameter `sqrt : ℚ → ℚ`.
* The object's fields (`mu`, `fvalue_barrier`, ...) are the fields of the
  structure `OptBaQNewton`; a member function that writes a field returns the
  new structure.
* A loop without a bound on its number of passes takes a fuel argument and
  returns `none` when the fuel is used up.
-/

namespace OPTPP

/-- NEWMAT column vector: entry `i` of an `n`-vector is `v i` for `i < n`. -/
abbrev ColumnVector := Nat → ℚ

/-- NEWMAT square matrix, entry `(i, j)`. -/
abbrev SymmetricMatrix := Nat → Nat → ℚ

/-- The constant `FLT_MAX` of `<cfloat>`: `(2^24 - 1) * 2^104`. -/
def FLT_MAX : ℚ := 340282346638528859811704183484516925440

/-- The loop `for (i = 1; i <= n; i++) body`, acting on the loop-carried
variables `s`; the passes use the indices `0, 1, ..., n-1` in this order. -/
def forLoop {σ : Type} (body : Nat → σ → σ) : Nat → σ → σ
  | 0, s => s
  | i + 1, s => body i (forLoop body i s)

/-- Modelled from the spec: the ProblemAdapter (class `NLP1`, declared outside
`OptBaQNewton.C`): dimension, current point, current value and gradient, the
bound vectors of its constraint object, and the objective with its gradient
(`evalF(x)`, `evalG(x)`), which evaluate without committing.  The evaluation
counters are bookkeeping only and are left out. -/
structure NLP1 where
  dim : Nat := 0
  xc : ColumnVector := fun _ => 0
  fvalue : ℚ := 0
  grad : ColumnVector := fun _ => 0
  lower : ColumnVector := fun _ => -FLT_MAX
  upper : ColumnVector := fun _ => FLT_MAX
  objF : ColumnVector → ℚ := fun _ => 0
  objG : ColumnVector → ColumnVector := fun _ _ => 0

/-- The fields of an `OptBaQNewton` object that the member functions of
`OptBaQNewton.C` read or write.  `fvalue_barrier` and `fprev_barrier` hold a
barrier value, which is `none` when a logarithm in it was not finite. -/
structure OptBaQNewton where
  nlp : NLP1 := {}
  mu : ℚ := 1 / 10
  fvalue_barrier : Option ℚ := some 0
  grad_barrier : ColumnVector := fun _ => 0
  fprev_outer : ℚ := 0
  fprev : ℚ := 0
  xprev : ColumnVector := fun _ => 0
  gprev : ColumnVector := fun _ => 0
  fprev_barrier : Option ℚ := some 0
  gprev_barrier : ColumnVector := fun _ => 0
  Hessian : SymmetricMatrix := fun _ _ => 0
  sx : ColumnVector := fun _ => 1
  ftol : ℚ := 0
  step_length : ℚ := 0
  iter_taken : Nat := 0

/-- Modelled from the spec: NEWMAT `Dot(a, b)` on `n`-vectors, the dot
product of the LinearAlgebraKernel. -/
def Dot (n : Nat) (a b : ColumnVector) : ℚ :=
  ∑ i ∈ Finset.range n, a i * b i

/-- Modelled from the spec: NEWMAT `Norm2(a)`, the vector 2-norm of the
LinearAlgebraKernel, computed with the library square root. -/
def Norm2 (sqrt : ℚ → ℚ) (n : Nat) (a : ColumnVector) : ℚ :=
  sqrt (Dot n a a)

/-- Modelled from the spec: NEWMAT `NormInfinity()`, the largest absolute
value of an entry. -/
def NormInfinity (n : Nat) (a : ColumnVector) : ℚ :=
  forLoop (fun i m => max m |a i|) n 0

/-- The strict-feasibility predicate of the spec: every finite bound (one
that is not the `FLT_MAX` sentinel) is strictly respected. -/
def StrictlyInterior (nlp : NLP1) (x : ColumnVector) : Prop :=
  ∀ i, i < nlp.dim →
    (nlp.lower i ≠ -FLT_MAX → nlp.lower i < x i) ∧
    (nlp.upper i ≠ FLT_MAX → x i < nlp.upper i)

/-- Feasibility in the weak sense: every finite bound is respected, possibly
with equality. -/
def Feasible (nlp : NLP1) (x : ColumnVector) : Prop :=
  ∀ i, i < nlp.dim →
    (nlp.lower i ≠ -FLT_MAX → nlp.lower i ≤ x i) ∧
    (nlp.upper i ≠ FLT_MAX → x i ≤ nlp.upper i)

/-- The first loop of `updateBarrierMultiplier` (lower bounds), acting on
`maxmu`. -/
def updateBarrierMultiplier_lower (s : OptBaQNewton) (maxmu : ℚ) : ℚ :=
  forLoop (fun i maxmu =>
    if s.nlp.lower i ≠ -FLT_MAX then
      let dtmp := (s.nlp.xc i - s.nlp.lower i) / s.mu
      if dtmp < 0 then min maxmu (1 / dtmp) else maxmu
    else maxmu) s.nlp.dim maxmu

/-- The second loop of `updateBarrierMultiplier` (upper bounds), acting on
`maxmu`. -/
def updateBarrierMultiplier_upper (s : OptBaQNewton) (maxmu : ℚ) : ℚ :=
  forLoop (fun i maxmu =>
    if s.nlp.upper i ≠ FLT_MAX then
      let dtmp := (s.nlp.upper i - s.nlp.xc i) / s.mu
      if dtmp < 0 then min maxmu (1 / dtmp) else maxmu
    else maxmu) s.nlp.dim maxmu

/-- `OptBaQNewton::updateBarrierMultiplier`: `maxmu` starts at 10, runs
through the two loops, and `mu` becomes `mu / min(maxmu, 10)`. -/
def updateBarrierMultiplier (s : OptBaQNewton) : OptBaQNewton :=
  let maxmu := updateBarrierMultiplier_upper s (updateBarrierMultiplier_lower s 10)
  { s with mu := s.mu / min maxmu 10 }

/-- `OptBaQNewton::compute_Barrier_Fvalue`.  The loop-carried value `fval` is
`none` from the first pass in which a logarithm is not a finite number. -/
def compute_Barrier_Fvalue (log : ℚ → Option ℚ) (s : OptBaQNewton)
    (fcurrent : ℚ) (xc : ColumnVector) : Option ℚ :=
  forLoop (fun i fval => do
    let fv ← fval
    let dtmp1 ← if s.nlp.lower i ≠ -FLT_MAX then log (xc i - s.nlp.lower i) else some 0
    let dtmp2 ← if s.nlp.upper i ≠ FLT_MAX then log (s.nlp.upper i - xc i) else some 0
    pure (fv - s.mu * (dtmp2 + dtmp1))) s.nlp.dim (some fcurrent)

/-- `OptBaQNewton::compute_Barrier_Gradient`: `gk` starts as a copy of
`ingrad` and entry `i` is overwritten in pass `i`. -/
def compute_Barrier_Gradient (s : OptBaQNewton) (ingrad xc : ColumnVector) :
    ColumnVector :=
  forLoop (fun i gk =>
    let dtmp1 := if s.nlp.lower i ≠ -FLT_MAX then 1 / (xc i - s.nlp.lower i) else 0
    let dtmp2 := if s.nlp.upper i ≠ FLT_MAX then 1 / (s.nlp.upper i - xc i) else 0
    Function.update gk i (gk i + s.mu * (dtmp2 - dtmp1))) s.nlp.dim ingrad

/-- One pass of the loop of `computeMaxStep` on the pair `(gamma, delta)`.
When `sk(i)` is zero neither branch assigns `delta`, which keeps the value it
had before the pass. -/
def computeMaxStep_body (s : OptBaQNewton) (sk : ColumnVector) (i : Nat)
    (st : ℚ × ℚ) : ℚ × ℚ :=
  let delta1 :=
    if sk i > 0 then (s.nlp.upper i - s.nlp.xc i) / sk i
    else if sk i < 0 then (s.nlp.lower i - s.nlp.xc i) / sk i
    else st.2
  let delta2 := if delta1 < 0 then 0 else delta1
  (min st.1 delta2, delta2)

/-- `OptBaQNewton::computeMaxStep`.  `double gamma=FLT_MAX, delta;` declares
`delta` without an initial value: `delta0` is whatever the variable holds
when the loop starts. -/
def computeMaxStep (delta0 : ℚ) (s : OptBaQNewton) (sk : ColumnVector) : ℚ :=
  (forLoop (computeMaxStep_body s sk) s.nlp.dim (FLT_MAX, delta0)).1

/-- The comparison `a < b` of two doubles of which the left one may be a
non-finite barrier value: it is false then (the value is NaN or `+inf`, for
`mu > 0`). -/
def fltLt (a : Option ℚ) (b : ℚ) : Prop :=
  match a with
  | some x => x < b
  | none => False

instance (a : Option ℚ) (b : ℚ) : Decidable (fltLt a b) := by
  unfold fltLt
  cases a <;> infer_instance

/-- The `while (convgd == 0)` loop of `scalarNewton`, with `y` the
loop-carried variable.  A pass either sets `convgd` (the loop exits and `y`
is returned) or replaces `y` by the Newton iterate.  When `log(y)` is not
finite, `fval` is NaN, the test `fabs(fval) < 1.0e-4` is false, `y` becomes
NaN and every later pass repeats this: the loop has no exit, which is the
result `none` for every amount of fuel. -/
def scalarNewton_loop (log : ℚ → Option ℚ) (kappa : ℚ) : Nat → ℚ → Option ℚ
  | 0, _ => none
  | fuel + 1, y =>
    match log y with
    | none => none
    | some ly =>
      let fval := ly + 0.5 * (1 / y - y) - kappa
      if |fval| < 1.0e-4 then some y
      else
        let f_prime := 1 / y - 1 / (2 * y * y) - 0.5
        scalarNewton_loop log kappa fuel (y - fval / f_prime)

/-- The value `kappa` computed at the start of `scalarNewton`. -/
def scalarNewton_kappa (mu phi1 phi1_prime phi2 phi2_prime alpha : ℚ) : ℚ :=
  (0.5 * alpha * (phi1_prime + phi2_prime) - phi2 + phi1) / mu

/-- `OptBaQNewton::scalarNewton` (`mu` is the object's field).  `fuel` bounds
the number of passes of the `while` loop; `none` means the loop has not exited
within `fuel` passes. -/
def scalarNewton (log : ℚ → Option ℚ) (fuel : Nat) (mu : ℚ)
    (phi1 phi1_prime phi2 phi2_prime alpha : ℚ) : Option ℚ :=
  let kappa := scalarNewton_kappa mu phi1 phi1_prime phi2 phi2_prime alpha
  if kappa ≤ 0 then some 1
  else scalarNewton_loop log kappa fuel 1.0e-6

/-- The Newton step of `scalarNewton`: the value of `y` after one pass that
does not exit; `none` when `log(y)` is not finite. -/
def scalarNewton_step (log : ℚ → Option ℚ) (kappa : ℚ) (y : ℚ) : Option ℚ :=
  match log y with
  | none => none
  | some ly =>
    let fval := ly + 0.5 * (1 / y - y) - kappa
    let f_prime := 1 / y - 1 / (2 * y * y) - 0.5
    some (y - fval / f_prime)

/-- The `j`-th Newton iterate from `y`: `j` applications of
`scalarNewton_step`. -/
def scalarNewton_iterate (log : ℚ → Option ℚ) (kappa : ℚ) : Nat → ℚ → Option ℚ
  | 0, y => some y
  | j + 1, y => (scalarNewton_step log kappa y).bind (scalarNewton_iterate log kappa j)

/-- The exit test of the loop of `scalarNewton` at `y`:
`fabs(log(y) + 0.5*(1/y - y) - kappa) < 1.0e-4` with `log(y)` finite. -/
def scalarNewton_converged (log : ℚ → Option ℚ) (kappa : ℚ) (y : ℚ) : Prop :=
  ∃ ly, log y = some ly ∧ |ly + 0.5 * (1 / y - y) - kappa| < 1.0e-4

/-- The value `inner_gp = Dot(grad_barrier, pk)` of `computeStep`. -/
def computeStep_inner_gp (s : OptBaQNewton) (pk : ColumnVector) : ℚ :=
  Dot s.nlp.dim s.grad_barrier pk

/-- `alpha_b` of `computeStep`, from `alpha_bar = computeMaxStep(pk)` and
`inner_gp = Dot(grad_barrier, pk)`. -/
def computeStep_alpha_b (s : OptBaQNewton) (alpha_bar inner_gp : ℚ) : ℚ :=
  let alpha_bar_plus := alpha_bar + s.mu / inner_gp
  if alpha_bar < FLT_MAX ∧ alpha_bar_plus < 0 then max alpha_bar_plus (0.5 * alpha_bar)
  else if alpha_bar < FLT_MAX ∧ alpha_bar_plus ≥ 0 then 0.95 * alpha_bar
  else FLT_MAX

/-- The first trial step `alpha` of `computeStep`: `alpha_b` capped by
`alpha_u = 1.0`. -/
def computeStep_alpha (delta0 : ℚ) (s : OptBaQNewton) (pk : ColumnVector) : ℚ :=
  let alpha_u : ℚ := 1.0
  let alpha_bar := computeMaxStep delta0 s pk
  let inner_gp := computeStep_inner_gp s pk
  let alpha_b := computeStep_alpha_b s alpha_bar inner_gp
  if alpha_b < alpha_u then alpha_b else alpha_u

/-- The trial point `xplus = xc + pk * alpha`. -/
def computeStep_xplus (s : OptBaQNewton) (pk : ColumnVector) (alpha : ℚ) :
    ColumnVector :=
  fun i => s.nlp.xc i + pk i * alpha

/-- The accepting branch of `computeStep`: `setX(xplus)`, `setF(fnext)`,
`evalG()` (the gradient at the new current point) and
`step_length = alpha`. -/
def computeStep_commit (s : OptBaQNewton) (xplus : ColumnVector) (fnext alpha : ℚ) :
    OptBaQNewton :=
  { s with
    nlp := { s.nlp with xc := xplus, fvalue := fnext, grad := s.nlp.objG xplus }
    step_length := alpha }

/-- Coefficient `d` of the interpolant `Q(t) = a + b t + c t^2 - mu log(d - t)`. -/
def computeStep_d (alpha y : ℚ) : ℚ := alpha / (1.0e0 - y)

/-- Coefficient `c` of the interpolant. -/
def computeStep_c (mu inner_gp inner_gpnew alpha d : ℚ) : ℚ :=
  (inner_gpnew - inner_gp + mu / d - mu / (d - alpha)) / (2.0e0 * alpha)

/-- Coefficient `b` of the interpolant. -/
def computeStep_b (mu inner_gp d : ℚ) : ℚ := inner_gp - mu / d

/-- The value `initslope = -Dot(grad_barrier, grad_barrier)` of `computeStep`. -/
def computeStep_initslope (s : OptBaQNewton) : ℚ :=
  - Dot s.nlp.dim s.grad_barrier s.grad_barrier

/-- The barrier value `fplus` at the trial point for the step `alpha`:
`fnext = nlp->evalF(xplus)`, `fplus = compute_Barrier_Fvalue(fnext, xplus)`. -/
def computeStep_fplus (log : ℚ → Option ℚ) (s : OptBaQNewton) (pk : ColumnVector)
    (alpha : ℚ) : Option ℚ :=
  let xplus := computeStep_xplus s pk alpha
  let fnext := s.nlp.objF xplus
  compute_Barrier_Fvalue log s fnext xplus

/-- The value `inner_gpnew = Dot(gplus, pk)` at the trial point for the step
`alpha`: `gnext = nlp->evalG(xplus)`,
`gplus = compute_Barrier_Gradient(gnext, xplus)`. -/
def computeStep_inner_gpnew (s : OptBaQNewton) (pk : ColumnVector) (alpha : ℚ) : ℚ :=
  let xplus := computeStep_xplus s pk alpha
  let gnext := s.nlp.objG xplus
  let gplus := compute_Barrier_Gradient s gnext xplus
  Dot s.nlp.dim gplus pk

/-- The part of `computeStep` after `scalarNewton` has returned `y`: the
interpolation step and the second sufficient-decrease test.  The coefficient
`a` is only printed and is left out.  A negative argument of `sqrt` makes
`alpha`, the trial point and (the objective being arithmetic in its argument)
`fplus` NaN, so that the test fails. -/
def computeStep_interpolate (log : ℚ → Option ℚ) (sqrt : ℚ → ℚ) (s : OptBaQNewton)
    (pk : ColumnVector) (fvalue_barrier inner_gp inner_gpnew alpha y : ℚ) :
    Int × OptBaQNewton :=
  if y = 1 then (-1, s)
  else
    let d := computeStep_d alpha y
    let c := computeStep_c s.mu inner_gp inner_gpnew alpha d
    let b := computeStep_b s.mu inner_gp d
    let dtmp1 := 2.0 * c * d - b
    let dtmp2 := dtmp1 * dtmp1 + 8.0 * c * (s.mu + b * d)
    let dtmp3 := 4 * c
    if c = 0 then (-1, s)
    else if dtmp2 < 0 then (-1, s)
    else
      let alpha := (dtmp1 - sqrt dtmp2) / dtmp3
      let xplus := computeStep_xplus s pk alpha
      let fnext := s.nlp.objF xplus
      let fplus := computeStep_fplus log s pk alpha
      if fltLt fplus (fvalue_barrier + computeStep_initslope s * s.ftol) then
        (0, computeStep_commit s xplus fnext alpha)
      else (-1, s)

/-- `OptBaQNewton::computeStep`.  The result is the return code and the
object after the call.  `none` means that the call yields no return code in
the model: the loop of `scalarNewton` has not exited within `fuel` passes, or
a barrier value that is not finite (`fvalue_barrier`, or `fplus` at a trial
point on or beyond a finite bound) fails the first test and is passed to
`scalarNewton`, where `kappa` is then NaN (the loop has no exit) or `-inf`
(the call gives `1.0` and `computeStep` returns `-1`); no point is committed
on that path. -/
def computeStep (log : ℚ → Option ℚ) (sqrt : ℚ → ℚ) (delta0 : ℚ) (fuel : Nat)
    (s : OptBaQNewton) (pk : ColumnVector) : Option (Int × OptBaQNewton) :=
  let inner_gp := computeStep_inner_gp s pk
  let alpha := computeStep_alpha delta0 s pk
  let xplus := computeStep_xplus s pk alpha
  let fnext := s.nlp.objF xplus
  match s.fvalue_barrier, computeStep_fplus log s pk alpha with
  | some fvalue_barrier, some fplus =>
    if fplus < fvalue_barrier + computeStep_initslope s * s.ftol then
      some (0, computeStep_commit s xplus fnext alpha)
    else
      let inner_gpnew := computeStep_inner_gpnew s pk alpha
      (scalarNewton log fuel s.mu fvalue_barrier inner_gp fplus inner_gpnew alpha).map
        (computeStep_interpolate log sqrt s pk fvalue_barrier inner_gp inner_gpnew alpha)
  | _, _ => none

/-- `FloatingPointPrecision::Epsilon()` of NEWMAT: `DBL_EPSILON = 2^-52`. -/
def Epsilon : ℚ := 1 / 2 ^ 52

/-- Modelled from the spec: the product `H * v` of an `n × n` matrix and an
`n`-vector (LinearAlgebraKernel). -/
def mulVec (n : Nat) (H : SymmetricMatrix) (v : ColumnVector) : ColumnVector :=
  fun i => ∑ j ∈ Finset.range n, H i j * v j

/-- Modelled from the spec: a matrix that is zero except for the value `d i`
at the diagonal entries `i < n` (the result of `Hessian = 0.0` followed by
`Hessian(i,i) = D(i)` for `i = 1..n`). -/
def diagonal (n : Nat) (d : ColumnVector) : SymmetricMatrix :=
  fun i j => if i = j ∧ i < n then d i else 0

/-- The restart branch (`k == 0`) of `updateH`: the value of the diagonal
matrix `D`, from the barrier gradient `grad` at the current point. -/
def updateH_restart_D (sqrt : ℚ → ℚ) (s : OptBaQNewton) (grad : ColumnVector) : ℚ :=
  let gnorm := Norm2 sqrt s.nlp.dim grad
  let xmax := forLoop (fun i xmax => max xmax (s.nlp.xc i)) s.nlp.dim (-1.0e30)
  let typx : ℚ := if xmax ≠ 0 then xmax else 1.0
  if gnorm ≠ 0 then gnorm / typx else 1.0

/-- The rank-two update of `updateH`:
`Htmp = Hk + (-(Bsk Bsk^T)/sBs + (yk yk^T)/yts)`, stored into the symmetric
matrix by `Hk << Htmp`, which takes the lower triangle of `Htmp`. -/
def updateH_secant (Hk : SymmetricMatrix) (Bsk yk : ColumnVector) (sBs yts : ℚ) :
    SymmetricMatrix :=
  let Htmp : SymmetricMatrix := fun i j =>
    Hk i j + (-(Bsk i * Bsk j) / sBs + (yk i * yk j) / yts)
  fun i j => if j ≤ i then Htmp i j else Htmp j i

/-- `OptBaQNewton::updateH`.  The result is the returned matrix and the
object after the call (its field `Hessian` is assigned on every path). -/
def updateH (sqrt : ℚ → ℚ) (s : OptBaQNewton) (Hk : SymmetricMatrix) (k : Nat) :
    SymmetricMatrix × OptBaQNewton :=
  let sqrteps := sqrt Epsilon
  let nr := s.nlp.dim
  let xc := s.nlp.xc
  let grad := compute_Barrier_Gradient s s.nlp.grad xc
  if k = 0 then
    let H := diagonal nr (fun _ => updateH_restart_D sqrt s grad)
    (H, { s with Hessian := H })
  else
    let yk : ColumnVector := fun i => grad i - s.gprev_barrier i
    let sk : ColumnVector := fun i => xc i - s.xprev i
    let yts := Dot nr yk sk
    let snorm := Norm2 sqrt nr sk
    let ynorm := Norm2 sqrt nr yk
    if yts ≤ sqrteps * snorm * ynorm then (Hk, { s with Hessian := Hk })
    else
      let res : ColumnVector := fun i => yk i - mulVec nr Hk sk i
      if NormInfinity nr res ≤ sqrteps then (Hk, { s with Hessian := Hk })
      else
        let Bsk := mulVec nr Hk sk
        let sBs := Dot nr sk Bsk
        let etol : ℚ := 1.0e-8
        if sBs ≤ etol * snorm * snorm then
          let H := diagonal nr (fun i => s.sx i * s.sx i)
          (H, { s with Hessian := H })
        else
          let H := updateH_secant Hk Bsk yk sBs yts
          (H, { s with Hessian := H })

/-- A matrix is symmetric positive-definite on the index range `0..n-1`. -/
def IsSPD (n : Nat) (H : SymmetricMatrix) : Prop :=
  (∀ i j, i < n → j < n → H i j = H j i) ∧
  ∀ v : ColumnVector, (∃ i, i < n ∧ v i ≠ 0) → 0 < Dot n v (mulVec n H v)

/-- The value the spec gives for `computeMaxStep`: the minimum over the
coordinates `i < n` with `sk i ≠ 0` of `max(0, limit_i)`, capped by `FLT_MAX`. -/
def maxStepSpec (s : OptBaQNewton) (sk : ColumnVector) : Nat → ℚ
  | 0 => FLT_MAX
  | i + 1 =>
    if sk i > 0 then min (maxStepSpec s sk i) (max 0 ((s.nlp.upper i - s.nlp.xc i) / sk i))
    else if sk i < 0 then min (maxStepSpec s sk i) (max 0 ((s.nlp.lower i - s.nlp.xc i) / sk i))
    else maxStepSpec s sk i

/-- The correction vector `yk = grad - gprev_barrier` of `updateH`, with
`grad` the barrier gradient at the current point. -/
def updateH_yk (s : OptBaQNewton) : ColumnVector :=
  fun i => compute_Barrier_Gradient s s.nlp.grad s.nlp.xc i - s.gprev_barrier i

/-- The correction vector `sk = xc - xprev` of `updateH`. -/
def updateH_sk (s : OptBaQNewton) : ColumnVector :=
  fun i => s.nlp.xc i - s.xprev i

/-- The call `updateH(Hk, k)` gets to the rank-two update: `k != 0` and none
of the three tests before the update fires. -/
def updateH_reaches_secant (sqrt : ℚ → ℚ) (s : OptBaQNewton) (Hk : SymmetricMatrix)
    (k : Nat) : Prop :=
  k ≠ 0 ∧
  ¬ Dot s.nlp.dim (updateH_yk s) (updateH_sk s) ≤
      sqrt Epsilon * Norm2 sqrt s.nlp.dim (updateH_sk s) * Norm2 sqrt s.nlp.dim (updateH_yk s) ∧
  ¬ NormInfinity s.nlp.dim
      (fun i => updateH_yk s i - mulVec s.nlp.dim Hk (updateH_sk s) i) ≤ sqrt Epsilon ∧
  ¬ Dot s.nlp.dim (updateH_sk s) (mulVec s.nlp.dim Hk (updateH_sk s)) ≤
      1.0e-8 * Norm2 sqrt s.nlp.dim (updateH_sk s) * Norm2 sqrt s.nlp.dim (updateH_sk s)

/-- The scale the spec gives for the restart branch of `updateH`:
`max(1, ||g||) / max(1e-30, max_i x_i)`, and `1` when the denominator is
zero; `xmaxSpec` is the largest coordinate `max_i x_i`. -/
def restartScaleSpec (sqrt : ℚ → ℚ) (s : OptBaQNewton) (xmaxSpec : ℚ) : ℚ :=
  let g := compute_Barrier_Gradient s s.nlp.grad s.nlp.xc
  let den := max 1.0e-30 xmaxSpec
  if den = 0 then 1 else max 1 (Norm2 sqrt s.nlp.dim g) / den

/-- Coefficient `a` of the interpolant, `fvalue_barrier + mu * log(d)`
(computed by `computeStep` and printed). -/
def computeStep_a (log : ℚ → Option ℚ) (mu fvalue_barrier d : ℚ) : Option ℚ :=
  (log d).map (fun ld => fvalue_barrier + mu * ld)

/-- The interpolant of `computeStep`, `Q(t) = a + b t + c t^2 - mu log(d - t)`. -/
def interpolantQ (log : ℚ → Option ℚ) (mu a b c d t : ℚ) : Option ℚ :=
  (log (d - t)).map (fun l => a + b * t + c * t ^ 2 - mu * l)

/-- The derivative of the interpolant, `b + 2 c t + mu / (d - t)`. -/
def interpolantDeriv (mu b c d t : ℚ) : ℚ := b + 2 * c * t + mu / (d - t)

/-- The argument of `sqrt` in `computeStep`, `dtmp1 * dtmp1 + 8.0 * c * (mu +
b * d)` with `dtmp1 = 2.0 * c * d - b`.  The doubles are the elements of a
field `K`: the rationals in the model of the program, the reals where the
exact square root is meant. -/
def computeStep_dtmp2 {K : Type} [Field K] (mu b c d : K) : K :=
  let dtmp1 := 2.0 * c * d - b
  dtmp1 * dtmp1 + 8.0 * c * (mu + b * d)

/-- The step chosen by `computeStep` after the interpolation,
`alpha = (dtmp1 - dtmp2) / dtmp3` with `dtmp1 = 2cd - b`,
`dtmp2 = sqrt(dtmp1^2 + 8c(mu + bd))`, `dtmp3 = 4c`, over a field `K` in the
place of the doubles and with `sqrt` the function used for the square root. -/
def computeStep_root {K : Type} [Field K] (sqrt : K → K) (mu b c d : K) : K :=
  let dtmp1 := 2.0 * c * d - b
  let dtmp2 := dtmp1 * dtmp1 + 8.0 * c * (mu + b * d)
  let dtmp3 := 4 * c
  (dtmp1 - sqrt dtmp2) / dtmp3

/-- `OptBaQNewton::setAsideCurrentVariables`. -/
def setAsideCurrentVariables (log : ℚ → Option ℚ) (s : OptBaQNewton) : OptBaQNewton :=
  let xprev := s.nlp.xc
  let fprev := s.nlp.fvalue
  let gprev := s.nlp.grad
  let s1 := { s with xprev := xprev, fprev := fprev, gprev := gprev }
  let fprev_barrier := compute_Barrier_Fvalue log s1 fprev xprev
  let gprev_barrier := compute_Barrier_Gradient s1 gprev xprev
  { s1 with
    fprev_barrier := fprev_barrier
    gprev_barrier := gprev_barrier
    fvalue_barrier := fprev_barrier
    grad_barrier := gprev_barrier }

/-- `OptBaQNewton::acceptStep`.  `base` is `OptBCNewtonLike::acceptStep`, a
member function of the base class defined outside `OptBaQNewton.C`. -/
def acceptStep (log : ℚ → Option ℚ) (base : Nat → Int → OptBaQNewton → OptBaQNewton)
    (iter : Nat) (steptype : Int) (s : OptBaQNewton) : OptBaQNewton :=
  let s1 := base iter steptype s
  let xc := s1.nlp.xc
  let gg := s1.nlp.grad
  let fv := s1.nlp.fvalue
  let s2 := { s1 with grad_barrier := compute_Barrier_Gradient s1 gg xc }
  { s2 with fvalue_barrier := compute_Barrier_Fvalue log s2 fv xc }

/-- `OptBaQNewton::checkInnerConvg`; the result is the truth value of the
returned `int`. -/
def checkInnerConvg (sqrt : ℚ → ℚ) (s : OptBaQNewton) (iter : Nat) : Bool :=
  let epik : ℚ := (10.0e0 : ℚ) ^ (-((iter : ℤ) + 1))
  let epik := max 1.0e-5 epik
  let xnorm := Norm2 sqrt s.nlp.dim s.nlp.xc
  let dtmp := max 1.0e0 xnorm
  let gnorm := Norm2 sqrt s.nlp.dim s.grad_barrier
  let dtmp := gnorm / dtmp
  decide (dtmp < epik)

/-- The value `q2` of `checkConvg` before its sign is changed: the loop
starts from `FLT_MAX` and takes the minimum with `xc(i) - lower(i)` and
`upper(i) - xc(i)`. -/
def checkConvg_q2 (s : OptBaQNewton) : ℚ :=
  forLoop (fun i q2 =>
    let qtmp := s.nlp.xc i - s.nlp.lower i
    let q2 := if qtmp < q2 then qtmp else q2
    let qtmp := s.nlp.upper i - s.nlp.xc i
    if qtmp < q2 then qtmp else q2) s.nlp.dim FLT_MAX

/-- The condition under which `checkConvg` gets past its first tests and
reads `grad_barrier`: `mu >= 1e-12`, `deltaf != 0` and `deltaf > rftol`. -/
def checkConvg_reaches_gradient_test (s : OptBaQNewton) : Prop :=
  ¬ s.mu < 1.0e-12 ∧ s.fprev_outer - s.nlp.fvalue ≠ 0 ∧
    ¬ s.fprev_outer - s.nlp.fvalue ≤ 1.0e-6 * (1.0e0 + |s.fprev|)

instance (s : OptBaQNewton) : Decidable (checkConvg_reaches_gradient_test s) := by
  unfold checkConvg_reaches_gradient_test
  infer_instance

/-- `OptBaQNewton::checkConvg`; the result is the returned code (the message
buffer is left out).  The loop that sets `grad(i) = 0.0` at the near-active
bounds writes to the local copy `grad` of the raw gradient, which is not read
afterwards: `gnorm` is `Norm2(grad_barrier)`. -/
def checkConvg (sqrt : ℚ → ℚ) (s : OptBaQNewton) : Int :=
  if s.mu < 1.0e-12 then 3
  else
    let fvalue := s.nlp.fvalue
    let deltaf := s.fprev_outer - fvalue
    if deltaf = 0.0 then 0
    else
      let rftol := 1.0e-6 * (1.0e0 + |s.fprev|)
      if deltaf ≤ rftol then 1
      else
        let xnorm := Norm2 sqrt s.nlp.dim s.nlp.xc
        let gnorm := Norm2 sqrt s.nlp.dim s.grad_barrier
        let q1 := gnorm / (1.0e0 + xnorm)
        let q2 := - checkConvg_q2 s
        let qtmp := max q1 q2
        if qtmp < 1.0e-4 then 2 else 0

/-- The barrier gradient with the components at near-active bounds (within
`1e-4` of the lower or of the upper bound) set to zero, as the spec describes
the projection of the outer convergence test. -/
def projectedBarrierGradient (s : OptBaQNewton) : ColumnVector :=
  fun i =>
    if |s.nlp.xc i - s.nlp.lower i| < 1.0e-4 ∨ |s.nlp.upper i - s.nlp.xc i| < 1.0e-4 then 0
    else s.grad_barrier i

/-- The outcome the spec gives for the last test of `checkConvg`: `2` when
`max(q1, q2) < 1e-4` with `q1` the norm of the projected barrier gradient over
`1 + ||x||`, and `0` otherwise. -/
def checkConvgSpec (sqrt : ℚ → ℚ) (s : OptBaQNewton) : Int :=
  let q1 := Norm2 sqrt s.nlp.dim (projectedBarrierGradient s) /
    (1 + Norm2 sqrt s.nlp.dim s.nlp.xc)
  let q2 := - checkConvg_q2 s
  if max q1 q2 < 1.0e-4 then 2 else 0

/-- Modelled from the spec: the forward substitution of the
LinearAlgebraKernel, the product `L.i() * g` for a lower-triangular `L`. -/
def forwardSolve (n : Nat) (L : SymmetricMatrix) (g : ColumnVector) : ColumnVector :=
  forLoop (fun i z =>
    Function.update z i ((g i - ∑ j ∈ Finset.range i, L i j * z j) / L i i)) n (fun _ => 0)

/-- Modelled from the spec: the back substitution of the
LinearAlgebraKernel, the product `L.t().i() * z` for a lower-triangular `L`;
pass `k` computes the entry `n - 1 - k`. -/
def backSolve (n : Nat) (L : SymmetricMatrix) (z : ColumnVector) : ColumnVector :=
  forLoop (fun k w =>
    let i := n - 1 - k
    Function.update w i ((z i - ∑ j ∈ Finset.Ico (i + 1) n, L j i * w j) / L i i))
    n (fun _ => 0)

/-- `OptBaQNewton::computeSearch2`: `L = MCholesky(H)`,
`sk = -(L.t().i()*(L.i()*g))`.  `MCholesky` is the factorization routine,
defined outside `OptBaQNewton.C`. -/
def computeSearch2 (MCholesky : Nat → SymmetricMatrix → SymmetricMatrix)
    (s : OptBaQNewton) (H : SymmetricMatrix) (g : ColumnVector) : ColumnVector :=
  let n := s.nlp.dim
  let L := MCholesky n H
  fun i => - backSolve n L (forwardSolve n L g) i

/-- What `optimize` takes from outside `OptBaQNewton.C`: the C library `log`
and `sqrt`, the content `delta0` of the unassigned local of `computeMaxStep`,
the factorization `MCholesky`, and the base-class member functions
`OptBCNewtonLike::initOpt` (with the `ret_code` it leaves) and
`OptBCNewtonLike::acceptStep`. -/
structure Externals where
  log : ℚ → Option ℚ
  sqrt : ℚ → ℚ
  delta0 : ℚ
  MCholesky : Nat → SymmetricMatrix → SymmetricMatrix
  baseInitOpt : OptBaQNewton → Int × OptBaQNewton
  baseAcceptStep : Nat → Int → OptBaQNewton → OptBaQNewton

/-- `OptBaQNewton::initOpt`; the result is `ret_code` and the object. -/
def initOpt (E : Externals) (s : OptBaQNewton) : Int × OptBaQNewton :=
  let s1 := { s with mu := 1.0e-1 }
  let r := E.baseInitOpt s1
  let ret_code := r.1
  let s2 := r.2
  if ret_code = 0 then
    let fvalue := s2.nlp.fvalue
    let xc := s2.nlp.xc
    let s3 := { s2 with fvalue_barrier := compute_Barrier_Fvalue E.log s2 fvalue xc }
    let local_grad := s3.nlp.grad
    (ret_code, { s3 with grad_barrier := compute_Barrier_Gradient s3 local_grad xc })
  else (ret_code, s2)

/-- The places of `optimize` at which the stored `fvalue_barrier` or
`grad_barrier` is read. -/
inductive ReadSite where
  | computeSearch2
  | computeStep
  | checkInnerConvg
  | checkConvg
  deriving DecidableEq

/-- The stored barrier value and gradient are those of the current point,
value and gradient with the current `mu`. -/
def BarrierConsistent (log : ℚ → Option ℚ) (s : OptBaQNewton) : Prop :=
  s.fvalue_barrier = compute_Barrier_Fvalue log s s.nlp.fvalue s.nlp.xc ∧
    s.grad_barrier = compute_Barrier_Gradient s s.nlp.grad s.nlp.xc

/-- The first statements of a pass of the inner loop of `optimize`:
`Hessian = updateH(Hessian, inner_iter_taken)`, the counter `iter_taken++`
and `setAsideCurrentVariables()`. -/
def optimize_inner_prepare (E : Externals) (s : OptBaQNewton) (inner_iter_taken : Nat) :
    OptBaQNewton :=
  let r := updateH E.sqrt s s.Hessian inner_iter_taken
  let s1 := { r.2 with Hessian := r.1 }
  let s2 := { s1 with iter_taken := s1.iter_taken + 1 }
  setAsideCurrentVariables E.log s2

/-- The inner `while (!inner_convgd)` loop of `optimize`, from the object `s`
with the counters `inner_iter_taken` and `outer_iter_taken`.  The result is
the object when the loop exits (`none` when it has not exited within `fuel`
passes or `computeStep` gives no return code) and the list of the reads of the
stored barrier value or gradient, each with the object at the time of the
read. -/
def optimize_inner (E : Externals) :
    Nat → Nat → Nat → OptBaQNewton → Option OptBaQNewton × List (ReadSite × OptBaQNewton)
  | 0, _, _, _ => (none, [])
  | fuel + 1, inner_iter_taken, outer_iter_taken, s =>
    let s3 := optimize_inner_prepare E s inner_iter_taken
    let inner_iter_taken := inner_iter_taken + 1
    let search_vector := computeSearch2 E.MCholesky s3 s3.Hessian s3.grad_barrier
    let reads := [(ReadSite.computeSearch2, s3), (ReadSite.computeStep, s3)]
    match computeStep E.log E.sqrt E.delta0 fuel s3 search_vector with
    | none => (none, reads)
    | some (step_type, s4) =>
      if step_type < 0 then (some s4, reads)
      else
        let s5 := acceptStep E.log E.baseAcceptStep s4.iter_taken step_type s4
        let reads := reads ++ [(ReadSite.checkInnerConvg, s5)]
        if checkInnerConvg E.sqrt s5 outer_iter_taken then (some s5, reads)
        else
          let rest := optimize_inner E fuel inner_iter_taken outer_iter_taken s5
          (rest.1, reads ++ rest.2)

/-- The outer `while (!outer_convgd)` loop of `optimize`; result as for
`optimize_inner`.  `checkConvg` reads `grad_barrier` when it gets to its
gradient test. -/
def optimize_outer (E : Externals) :
    Nat → Nat → OptBaQNewton → Option OptBaQNewton × List (ReadSite × OptBaQNewton)
  | 0, _, _ => (none, [])
  | fuel + 1, outer_iter_taken, s =>
    let outer_iter_taken := outer_iter_taken + 1
    let s0 := { s with fprev_outer := s.nlp.fvalue }
    let inner := optimize_inner E fuel 0 outer_iter_taken s0
    match inner.1 with
    | none => (none, inner.2)
    | some s1 =>
      let s2 := updateBarrierMultiplier s1
      let outer_convgd := checkConvg E.sqrt s2
      let reads := inner.2 ++
        (if checkConvg_reaches_gradient_test s2 then [(ReadSite.checkConvg, s2)] else [])
      if outer_convgd ≠ 0 then (some s2, reads)
      else
        let rest := optimize_outer E fuel outer_iter_taken s2
        (rest.1, reads ++ rest.2)

/-- `OptBaQNewton::optimize`. -/
def optimize (E : Externals) (fuel : Nat) (s : OptBaQNewton) :
    Option OptBaQNewton × List (ReadSite × OptBaQNewton) :=
  let r := initOpt E s
  if r.1 = 0 then optimize_outer E fuel 0 { r.2 with iter_taken := 0 }
  else (some r.2, [])

/-- The reads in a list satisfy the consistency of the barrier state as the
code keeps it: at `computeSearch2`, `computeStep` and `checkInnerConvg` the
stored barrier value and gradient are those of the current point with the
current `mu`; at `checkConvg` the object is the result of
`updateBarrierMultiplier` on an object for which this held, so that the stored
values are those of the current point with the `mu` before the update. -/
def ReadsConsistent (log : ℚ → Option ℚ) (reads : List (ReadSite × OptBaQNewton)) : Prop :=
  ∀ e, e ∈ reads →
    (e.1 ≠ ReadSite.checkConvg → BarrierConsistent log e.2) ∧
    (e.1 = ReadSite.checkConvg →
      ∃ s1, BarrierConsistent log s1 ∧ e.2 = updateBarrierMultiplier s1)

/-- The call `computeStep(pk)` gets to the interpolation with the value `y`
of `scalarNewton`: the stored barrier value and the barrier value at the first
trial point are finite, the first sufficient-decrease test fails, and
`scalarNewton` returns `y`. -/
def computeStep_reaches_interpolation (log : ℚ → Option ℚ) (delta0 : ℚ) (fuel : Nat)
    (s : OptBaQNewton) (pk : ColumnVector) (y : ℚ) : Prop :=
  ∃ fb fp, s.fvalue_barrier = some fb ∧
    computeStep_fplus log s pk (computeStep_alpha delta0 s pk) = some fp ∧
    ¬ fp < fb + computeStep_initslope s * s.ftol ∧
    scalarNewton log fuel s.mu fb (computeStep_inner_gp s pk) fp
      (computeStep_inner_gpnew s pk (computeStep_alpha delta0 s pk))
      (computeStep_alpha delta0 s pk) = some y

/-- The coefficient `d` in a call of `computeStep` in which `scalarNewton`
has returned `y`. -/
def computeStep_call_d (delta0 : ℚ) (s : OptBaQNewton) (pk : ColumnVector) (y : ℚ) : ℚ :=
  computeStep_d (computeStep_alpha delta0 s pk) y

/-- The coefficient `c` in a call of `computeStep` in which `scalarNewton`
has returned `y`. -/
def computeStep_call_c (delta0 : ℚ) (s : OptBaQNewton) (pk : ColumnVector) (y : ℚ) : ℚ :=
  computeStep_c s.mu (computeStep_inner_gp s pk)
    (computeStep_inner_gpnew s pk (computeStep_alpha delta0 s pk))
    (computeStep_alpha delta0 s pk) (computeStep_call_d delta0 s pk y)

/-- The coefficient `b` in a call of `computeStep` in which `scalarNewton`
has returned `y`. -/
def computeStep_call_b (delta0 : ℚ) (s : OptBaQNewton) (pk : ColumnVector) (y : ℚ) : ℚ :=
  computeStep_b s.mu (computeStep_inner_gp s pk) (computeStep_call_d delta0 s pk y)

/-- The point `x` respects every bound strictly, the sentinel values
included: `lower_i < x_i < upper_i` for every coordinate `i < dim`. -/
def InsideAllBounds (nlp : NLP1) (x : ColumnVector) : Prop :=
  ∀ i, i < nlp.dim → nlp.lower i < x i ∧ x i < nlp.upper i

/-- A stand-in for the C library `log` on concrete inputs: not finite at
`t ≤ 0`, and the tangent-line bound `t - 1` of the logarithm elsewhere. -/
def logStandIn (t : ℚ) : Option ℚ := if t ≤ 0 then none else some (t - 1)

/-- A stand-in for the C library `sqrt` on concrete inputs: exact on squares
of rationals (`Rat.sqrt`). -/
def sqrtStandIn (t : ℚ) : ℚ := Rat.sqrt t

/-- A stand-in for the C library `log` that is exactly additive on products:
not finite at `t ≤ 0` and `0` elsewhere. -/
def logFlat (t : ℚ) : Option ℚ := if t ≤ 0 then none else some 0

/-- A stand-in for the factorization routine on concrete inputs: the diagonal
matrix of the square roots of the diagonal of `H`, which is the Cholesky
factor when `H` is diagonal with square entries. -/
def choleskyStandIn (_n : Nat) (H : SymmetricMatrix) : SymmetricMatrix :=
  fun i j => if i = j then sqrtStandIn (H i i) else 0

/-- The diagonal matrix with diagonal entries `4, 9`. -/
def matFourNine : SymmetricMatrix :=
  fun i j => if i = j then (if i = 0 then 4 else 9) else 0

/-! Concrete objects used at explicit inputs. -/

/-- One variable with lower bound 0 and no upper bound, at the point `-1`
(below its lower bound), `mu = 1`. -/
def stateBelowLower : OptBaQNewton :=
  { nlp := { dim := 1, xc := fun _ => -1, lower := fun _ => 0 }, mu := 1 }

/-- One variable in the box `[0, 10]` at the point `1`, `mu = 1`. -/
def stateInBox : OptBaQNewton :=
  { nlp := { dim := 1, xc := fun _ => 1, lower := fun _ => 0, upper := fun _ => 10 },
    mu := 1 }

/-- Two variables in the box `[-10, 10]^2` at the origin. -/
def stateTwoVars : OptBaQNewton :=
  { nlp := { dim := 2, xc := fun _ => 0, lower := fun _ => -10, upper := fun _ => 10 } }

/-- The direction `(0, 1)`. -/
def dirSecond : ColumnVector := fun i => if i = 1 then 1 else 0

/-- Three variables in the box `[0, 5]^3` at the point `(1, 1, 1)`. -/
def stateThreeVars : OptBaQNewton :=
  { nlp := { dim := 3, xc := fun _ => 1, lower := fun _ => 0, upper := fun _ => 5 } }

/-- The direction `(0, 0, 2)`. -/
def dirThird : ColumnVector := fun i => if i = 2 then 2 else 0

/-- Two variables without bounds (both sentinels) at the point `(3, -4)`. -/
def stateUnbounded : OptBaQNewton :=
  { nlp := { dim := 2, xc := fun i => if i = 0 then 3 else -4 }, mu := 1 / 10 }

/-- The vector `(1, 2)`. -/
def gradOneTwo : ColumnVector := fun i => (i : ℚ) + 1

/-- One variable in the box `[0, 10]` at the point `1` with the objective
`x^2`, `mu = 1/10` and `ftol = 1e-4`; the stored barrier value and gradient
are those of `compute_Barrier_Fvalue` and `compute_Barrier_Gradient` with
`logStandIn`. -/
def stateLineSearch : OptBaQNewton :=
  { nlp := { dim := 1, xc := fun _ => 1, fvalue := 1, grad := fun _ => 2,
             lower := fun _ => 0, upper := fun _ => 10,
             objF := fun x => x 0 * x 0, objG := fun x _ => 2 * x 0 },
    mu := 1 / 10, fvalue_barrier := some (1 / 5), grad_barrier := fun _ => 86 / 45,
    ftol := 1 / 10000 }

/-- The direction `(-1/2)`. -/
def dirHalfDown : ColumnVector := fun _ => -1 / 2

/-- One variable without bounds at the point `1` with the objective `x^2`,
`mu = 1/10` and `ftol = 1e-4`; the barrier value and gradient are the raw
ones, `1` and `2`. -/
def stateQuadratic : OptBaQNewton :=
  { nlp := { dim := 1, xc := fun _ => 1, fvalue := 1, grad := fun _ => 2,
             objF := fun x => x 0 * x 0, objG := fun x _ => 2 * x 0 },
    mu := 1 / 10, fvalue_barrier := some 1, grad_barrier := fun _ => 2,
    ftol := 1 / 10000 }

/-- The direction `(-4)`. -/
def dirFourDown : ColumnVector := fun _ => -4

/-- The state after `computeStep` commits the first trial step `alpha = 1` from
`stateLineSearch` along `dirHalfDown`: the point `1/2`, with value `1/4`. -/
def stateLineSearchNext : OptBaQNewton :=
  computeStep_commit stateLineSearch (computeStep_xplus stateLineSearch dirHalfDown 1)
    (stateLineSearch.nlp.objF (computeStep_xplus stateLineSearch dirHalfDown 1)) 1

/-- One variable without bounds at the point `-1` with raw gradient `1`. -/
def stateNegativePoint : OptBaQNewton :=
  { nlp := { dim := 1, xc := fun _ => -1, grad := fun _ => 1 } }

/-- One variable without bounds at the point `1` with raw gradient `1/2`. -/
def stateRestart : OptBaQNewton :=
  { nlp := { dim := 1, xc := fun _ => 1, grad := fun _ => 1 / 2 } }

/-- One variable in the box `[0, 10]` at the point `0.00005`, within `1e-4` of
its lower bound, with stored barrier gradient `1`, `mu = 1/10`, and a decrease
`fprev_outer - f = 1` over the outer iteration. -/
def stateNearBound : OptBaQNewton :=
  { nlp := { dim := 1, xc := fun _ => 1 / 20000, lower := fun _ => 0, upper := fun _ => 10 },
    mu := 1 / 10, grad_barrier := fun _ => 1, fprev_outer := 1 }

/-- One variable without bounds, `mu = 1/10`, with the same value `2` before
and after the outer iteration. -/
def stateStall : OptBaQNewton :=
  { nlp := { dim := 1, xc := fun _ => 4, fvalue := 2 }, mu := 1 / 10, fprev_outer := 2 }

/-- One variable without bounds at the point `1` with gradient `2`, after a
step from the point `0`, where the barrier gradient was `0`. -/
def stateSecant : OptBaQNewton :=
  { nlp := { dim := 1, xc := fun _ => 1, grad := fun _ => 2 },
    xprev := fun _ => 0, gprev_barrier := fun _ => 0 }

/-- The `1 × 1` identity matrix (all entries `1`). -/
def matOne : SymmetricMatrix := fun _ _ => 1

/-- Stand-ins for what `optimize` takes from outside on concrete inputs:
`logStandIn`, `sqrtStandIn`, `choleskyStandIn`, the value `0` in the unassigned
local of `computeMaxStep`, and base-class functions that leave the object as
it is (`initOpt` with `ret_code = 0`). -/
def externalsStandIn : Externals :=
  { log := logStandIn, sqrt := sqrtStandIn, delta0 := 0, MCholesky := choleskyStandIn,
    baseInitOpt := fun s => (0, s), baseAcceptStep := fun _ _ s => s }

/-- One variable without bounds at the point `4` with the objective
`2 (x - 3)^2` (value `2`, gradient `4`), `mu = 1/10`, `ftol = 1e-4`. -/
def stateRunStall : OptBaQNewton :=
  { nlp := { dim := 1, xc := fun _ => 4, fvalue := 2, grad := fun _ => 4,
             objF := fun x => 2 * (x 0 - 3) * (x 0 - 3),
             objG := fun x _ => 4 * (x 0 - 3) },
    mu := 1 / 10, fvalue_barrier := some 2, grad_barrier := fun _ => 4,
    ftol := 1 / 10000 }

/-- The object in the first pass of the inner loop from `stateRunStall`, after
`updateH`, the counter and `setAsideCurrentVariables`. -/
def stateRunStallAside : OptBaQNewton :=
  optimize_inner_prepare externalsStandIn
    { stateRunStall with fprev_outer := stateRunStall.nlp.fvalue } 0

/-- One variable in the box `[2, 5]` at the point `4` with the objective
`(19/20) x` (value `19/5`, gradient `19/20`), `ftol = 1e-4`. -/
def stateRunBox : OptBaQNewton :=
  { nlp := { dim := 1, xc := fun _ => 4, fvalue := 19 / 5, grad := fun _ => 19 / 20,
             lower := fun _ => 2, upper := fun _ => 5,
             objF := fun x => 19 / 20 * x 0, objG := fun _ _ => 19 / 20 },
    ftol := 1 / 10000 }

/-- The object when `optimize` enters its outer loop from `stateRunBox`. -/
def stateRunBoxInit : OptBaQNewton :=
  { (initOpt externalsStandIn stateRunBox).2 with iter_taken := 0 }

/-- The object in the first pass of the inner loop from `stateRunBox`, after
`updateH`, the counter and `setAsideCurrentVariables`. -/
def stateRunBoxAside : OptBaQNewton :=
  optimize_inner_prepare externalsStandIn
    { stateRunBoxInit with fprev_outer := stateRunBoxInit.nlp.fvalue } 0

/-- The search direction of that pass. -/
def dirRunBox : ColumnVector :=
  computeSearch2 choleskyStandIn stateRunBoxAside stateRunBoxAside.Hessian
    stateRunBoxAside.grad_barrier

/-- The object after `computeStep` has committed the first trial step
`alpha = 19/40` of that pass (the point `21/10`). -/
def stateRunBoxStep : OptBaQNewton :=
  computeStep_commit stateRunBoxAside (computeStep_xplus stateRunBoxAside dirRunBox (19 / 40))
    (stateRunBoxAside.nlp.objF (computeStep_xplus stateRunBoxAside dirRunBox (19 / 40)))
    (19 / 40)

/-- The object after `acceptStep` in that pass. -/
def stateRunBoxAccepted : OptBaQNewton :=
  acceptStep logStandIn (fun _ _ s => s) stateRunBoxStep.iter_taken 0 stateRunBoxStep

/-- Two variables in the box `[-10, 10]^2` at the origin, with the stored
barrier gradient `(-1, -1)` and `mu = 1/10`. -/
def stateTwoVarsDescent : OptBaQNewton :=
  { nlp := { dim := 2, xc := fun _ => 0, lower := fun _ => -10, upper := fun _ => 10 },
    grad_barrier := fun _ => -1 }

/-- One variable in the box `[-10, 10]` at the origin, with the stored barrier
gradient `-1/1000` and `mu = 1/10`. -/
def stateFlatDescent : OptBaQNewton :=
  { nlp := { dim := 1, xc := fun _ => 0, lower := fun _ => -10, upper := fun _ => 10 },
    grad_barrier := fun _ => -1 / 1000 }

/-- The direction with every component `1`. -/
def dirOnes : ColumnVector := fun _ => 1

/-- One variable without bounds at the point `0` with the objective
`x^3 - x^2/500000 - x`, `mu = 10^6 / 999999^2` and `ftol = 1e-4`; the barrier
value and gradient are the raw ones, `0` and `-1`. -/
def stateCubic : OptBaQNewton :=
  { nlp := { dim := 1, xc := fun _ => 0, fvalue := 0, grad := fun _ => -1,
             objF := fun x => x 0 * x 0 * x 0 - x 0 * x 0 / 500000 - x 0,
             objG := fun x _ => 3 * x 0 * x 0 - x 0 / 250000 - 1 },
    mu := 1000000 / 999998000001, fvalue_barrier := some 0, grad_barrier := fun _ => -1,
    ftol := 1 / 10000 }

/-- The state after `computeStep` commits the interpolated step
`500000/999999` from `stateCubic` along `dirOnes`. -/
def stateCubicNext : OptBaQNewton :=
  computeStep_commit stateCubic (computeStep_xplus stateCubic dirOnes (500000 / 999999))
    (stateCubic.nlp.objF (computeStep_xplus stateCubic dirOnes (500000 / 999999)))
    (500000 / 999999)

/-- One variable without bounds at the point `0` with the objective
`20000 (x^3 - x^2 - x)`, `mu = 2 * 10^10 / 999999^2` and `ftol = 1e-4`; the
barrier value and gradient are the raw ones, `0` and `-20000`. -/
def stateCubicFlat : OptBaQNewton :=
  { nlp := { dim := 1, xc := fun _ => 0, fvalue := 0, grad := fun _ => -20000,
             objF := fun x => 20000 * (x 0 * x 0 * x 0 - x 0 * x 0 - x 0),
             objG := fun x _ => 20000 * (3 * x 0 * x 0 - 2 * x 0 - 1) },
    mu := 20000000000 / 999998000001, fvalue_barrier := some 0,
    grad_barrier := fun _ => -20000, ftol := 1 / 10000 }

/-! Loops. -/

theorem forLoop_invariant {σ : Type} (P : σ → Prop) (body : Nat → σ → σ) (n : Nat)
    (init : σ) (h0 : P init) (hstep : ∀ i st, i < n → P st → P (body i st)) :
    P (forLoop body n init) := by
  induction n with
  | zero => simpa [forLoop] using h0
  | succ k ih =>
    simp only [forLoop]
    exact hstep k _ (Nat.lt_succ_self k)
      (ih (fun i st hi hp => hstep i st (Nat.lt_succ_of_lt hi) hp))

theorem forLoop_fixed {σ : Type} (body : Nat → σ → σ) (n : Nat) (init : σ)
    (hstep : ∀ i, i < n → body i init = init) : forLoop body n init = init := by
  induction n with
  | zero => rfl
  | succ k ih =>
    simp only [forLoop]
    rw [ih (fun i hi => hstep i (Nat.lt_succ_of_lt hi))]
    exact hstep k (Nat.lt_succ_self k)

/-! `updateBarrierMultiplier`. -/

theorem updateBarrierMultiplier_lower_cases (s : OptBaQNewton) (m : ℚ)
    (hm : m = 10 ∨ m < 0) :
    updateBarrierMultiplier_lower s m = 10 ∨ updateBarrierMultiplier_lower s m < 0 := by
  unfold updateBarrierMultiplier_lower
  apply forLoop_invariant (fun m : ℚ => m = 10 ∨ m < 0) _ _ _ hm
  intro i st _ hst
  dsimp only
  split_ifs with h1 h2
  · right
    have : (1 : ℚ) / ((s.nlp.xc i - s.nlp.lower i) / s.mu) < 0 :=
      one_div_neg.mpr h2
    exact lt_of_le_of_lt (min_le_right _ _) this
  · exact hst
  · exact hst

theorem updateBarrierMultiplier_upper_cases (s : OptBaQNewton) (m : ℚ)
    (hm : m = 10 ∨ m < 0) :
    updateBarrierMultiplier_upper s m = 10 ∨ updateBarrierMultiplier_upper s m < 0 := by
  unfold updateBarrierMultiplier_upper
  apply forLoop_invariant (fun m : ℚ => m = 10 ∨ m < 0) _ _ _ hm
  intro i st _ hst
  dsimp only
  split_ifs with h1 h2
  · right
    have : (1 : ℚ) / ((s.nlp.upper i - s.nlp.xc i) / s.mu) < 0 :=
      one_div_neg.mpr h2
    exact lt_of_le_of_lt (min_le_right _ _) this
  · exact hst
  · exact hst

theorem updateBarrierMultiplier_lower_feasible (s : OptBaQNewton) (hmu : 0 < s.mu)
    (hf : Feasible s.nlp s.nlp.xc) (m : ℚ) : updateBarrierMultiplier_lower s m = m := by
  unfold updateBarrierMultiplier_lower
  apply forLoop_fixed
  intro i hi
  dsimp only
  split_ifs with h1 h2
  · exfalso
    have hle := (hf i hi).1 h1
    have : 0 ≤ (s.nlp.xc i - s.nlp.lower i) / s.mu :=
      div_nonneg (sub_nonneg.mpr hle) hmu.le
    exact absurd h2 (not_lt.mpr this)
  · rfl
  · rfl

theorem updateBarrierMultiplier_upper_feasible (s : OptBaQNewton) (hmu : 0 < s.mu)
    (hf : Feasible s.nlp s.nlp.xc) (m : ℚ) : updateBarrierMultiplier_upper s m = m := by
  unfold updateBarrierMultiplier_upper
  apply forLoop_fixed
  intro i hi
  dsimp only
  split_ifs with h1 h2
  · exfalso
    have hle := (hf i hi).2 h1
    have : 0 ≤ (s.nlp.upper i - s.nlp.xc i) / s.mu :=
      div_nonneg (sub_nonneg.mpr hle) hmu.le
    exact absurd h2 (not_lt.mpr this)
  · rfl
  · rfl

/-- C3 (monotone mu): for every state with `mu > 0`, whatever the point and
the bounds, the value of `mu` after `updateBarrierMultiplier` is at most the
value before it. -/
theorem updateBarrierMultiplier_mu_le (s : OptBaQNewton) (hmu : 0 < s.mu) :
    (updateBarrierMultiplier s).mu ≤ s.mu := by
  have h := updateBarrierMultiplier_upper_cases s
    (updateBarrierMultiplier_lower s 10)
    (updateBarrierMultiplier_lower_cases s 10 (Or.inl rfl))
  show s.mu / min (updateBarrierMultiplier_upper s (updateBarrierMultiplier_lower s 10)) 10
    ≤ s.mu
  rcases h with h | h
  · rw [h, min_self]
    linarith [div_le_self hmu.le (by norm_num : (1 : ℚ) ≤ 10)]
  · rw [min_eq_left (by linarith)]
    exact le_trans (div_nonpos_of_nonneg_of_nonpos hmu.le h.le) hmu.le

/-- Witness for C3: the state `stateBelowLower` has `mu = 1 > 0`. -/
theorem updateBarrierMultiplier_mu_le_witness :
    0 < stateBelowLower.mu ∧
      (updateBarrierMultiplier stateBelowLower).mu ≤ stateBelowLower.mu :=
  ⟨by norm_num [stateBelowLower],
    updateBarrierMultiplier_mu_le stateBelowLower (by norm_num [stateBelowLower])⟩

/-- C4, as stated, fails: at the point `-1` below the finite lower bound `0`,
with `mu = 1 > 0`, `updateBarrierMultiplier` sets `mu` to `-1`, which is
neither at least `mu / 10` nor positive. -/
theorem updateBarrierMultiplier_shrink_counterexample :
    ¬ (0 < stateBelowLower.mu →
        stateBelowLower.mu / 10 ≤ (updateBarrierMultiplier stateBelowLower).mu ∧
        0 < (updateBarrierMultiplier stateBelowLower).mu) := by
  have h : (updateBarrierMultiplier stateBelowLower).mu = -1 := by
    norm_num [updateBarrierMultiplier, updateBarrierMultiplier_upper,
      updateBarrierMultiplier_lower, forLoop, stateBelowLower, FLT_MAX]
  rw [h]
  norm_num [stateBelowLower]

/-- C4 (amended): for every state with `mu > 0` whose current point respects
every finite bound (`lower_i ≤ x_i ≤ upper_i`), the value of `mu` after
`updateBarrierMultiplier` is exactly `mu / 10`; it is therefore at least
`mu / 10` and strictly positive. -/
theorem updateBarrierMultiplier_shrink_feasible (s : OptBaQNewton) (hmu : 0 < s.mu)
    (hf : Feasible s.nlp s.nlp.xc) :
    (updateBarrierMultiplier s).mu = s.mu / 10 ∧
      s.mu / 10 ≤ (updateBarrierMultiplier s).mu ∧
      0 < (updateBarrierMultiplier s).mu := by
  have h : (updateBarrierMultiplier s).mu = s.mu / 10 := by
    show s.mu / min (updateBarrierMultiplier_upper s (updateBarrierMultiplier_lower s 10)) 10
      = s.mu / 10
    rw [updateBarrierMultiplier_lower_feasible s hmu hf,
      updateBarrierMultiplier_upper_feasible s hmu hf, min_self]
  refine ⟨h, h.ge, ?_⟩
  rw [h]
  positivity

/-- Witness for C4 (amended): the point `1` in the box `[0, 10]`, `mu = 1`. -/
theorem updateBarrierMultiplier_shrink_feasible_witness :
    (0 < stateInBox.mu ∧ Feasible stateInBox.nlp stateInBox.nlp.xc) ∧
      ((updateBarrierMultiplier stateInBox).mu = stateInBox.mu / 10 ∧
        stateInBox.mu / 10 ≤ (updateBarrierMultiplier stateInBox).mu ∧
        0 < (updateBarrierMultiplier stateInBox).mu) :=
  ⟨⟨by norm_num [stateInBox], by intro i _; norm_num [stateInBox]⟩,
    updateBarrierMultiplier_shrink_feasible stateInBox (by norm_num [stateInBox])
      (by intro i _; norm_num [stateInBox])⟩

/-! `compute_Barrier_Fvalue` and `compute_Barrier_Gradient`. -/

/-- C10 (degenerate bounds): when every lower bound is the sentinel
`-FLT_MAX` and every upper bound is the sentinel `FLT_MAX`, then for every
`mu`, point `xc`, raw value `f` and raw gradient `g`, the barrier gradient is
`g` (at every component) and the barrier value is `f`. -/
theorem compute_Barrier_unbounded (log : ℚ → Option ℚ) (s : OptBaQNewton)
    (f : ℚ) (g xc : ColumnVector)
    (hb : ∀ i, i < s.nlp.dim → s.nlp.lower i = -FLT_MAX ∧ s.nlp.upper i = FLT_MAX) :
    compute_Barrier_Gradient s g xc = g ∧
      compute_Barrier_Fvalue log s f xc = some f := by
  constructor
  · unfold compute_Barrier_Gradient
    apply forLoop_fixed
    intro i hi
    simp [(hb i hi).1, (hb i hi).2]
  · unfold compute_Barrier_Fvalue
    apply forLoop_fixed
    intro i hi
    simp [(hb i hi).1, (hb i hi).2]

/-- Witness for C10: two unbounded variables, raw value `7`, raw gradient
`(1, 2)`. -/
theorem compute_Barrier_unbounded_witness :
    (∀ i, i < stateUnbounded.nlp.dim →
        stateUnbounded.nlp.lower i = -FLT_MAX ∧ stateUnbounded.nlp.upper i = FLT_MAX) ∧
      (compute_Barrier_Gradient stateUnbounded gradOneTwo stateUnbounded.nlp.xc
          = gradOneTwo ∧
        compute_Barrier_Fvalue logStandIn stateUnbounded 7 stateUnbounded.nlp.xc = some 7) :=
  ⟨fun _ _ => ⟨rfl, rfl⟩,
    compute_Barrier_unbounded logStandIn stateUnbounded 7 gradOneTwo
      stateUnbounded.nlp.xc (fun _ _ => ⟨rfl, rfl⟩)⟩

/-! `computeMaxStep`. -/

/-- When the first component of the direction is not zero, `delta` is assigned
in the first pass and `computeMaxStep` returns the value of the spec, whatever
`delta` held before the loop. -/
theorem computeMaxStep_eq_spec_of_first_ne (delta0 : ℚ) (s : OptBaQNewton)
    (sk : ColumnVector) (hn : 0 < s.nlp.dim) (h0 : sk 0 ≠ 0) :
    computeMaxStep delta0 s sk = maxStepSpec s sk s.nlp.dim := by
  unfold computeMaxStep
  suffices h : ∀ n, 0 < n →
      (forLoop (computeMaxStep_body s sk) n (FLT_MAX, delta0)).1 = maxStepSpec s sk n ∧
      (forLoop (computeMaxStep_body s sk) n (FLT_MAX, delta0)).1 ≤
        (forLoop (computeMaxStep_body s sk) n (FLT_MAX, delta0)).2 ∧
      0 ≤ (forLoop (computeMaxStep_body s sk) n (FLT_MAX, delta0)).2 from (h _ hn).1
  intro n
  induction n with
  | zero => intro h; exact absurd h (lt_irrefl 0)
  | succ k ih =>
    intro _
    rcases Nat.eq_zero_or_pos k with hk | hk
    · subst hk
      simp only [forLoop, computeMaxStep_body, maxStepSpec]
      rcases lt_or_gt_of_ne h0 with hneg | hpos
      · have hnp : ¬ sk 0 > 0 := not_lt.mpr hneg.le
        simp only [hnp, hneg, if_true, if_false]
        split_ifs with hd
        · rw [max_eq_left hd.le]
          exact ⟨rfl, min_le_right _ _, le_refl _⟩
        · rw [max_eq_right (not_lt.mp hd)]
          exact ⟨rfl, min_le_right _ _, not_lt.mp hd⟩
      · simp only [hpos, if_true]
        split_ifs with hd
        · rw [max_eq_left hd.le]
          exact ⟨rfl, min_le_right _ _, le_refl _⟩
        · rw [max_eq_right (not_lt.mp hd)]
          exact ⟨rfl, min_le_right _ _, not_lt.mp hd⟩
    · obtain ⟨ih1, ih2, ih3⟩ := ih hk
      simp only [forLoop, computeMaxStep_body, maxStepSpec]
      rw [ih1] at ih2 ⊢
      by_cases hpos : sk k > 0
      · simp only [hpos, if_true]
        split_ifs with hd
        · rw [max_eq_left hd.le]
          exact ⟨rfl, min_le_right _ _, le_refl _⟩
        · rw [max_eq_right (not_lt.mp hd)]
          exact ⟨rfl, min_le_right _ _, not_lt.mp hd⟩
      · by_cases hneg : sk k < 0
        · simp only [hpos, hneg, if_true, if_false]
          split_ifs with hd
          · rw [max_eq_left hd.le]
            exact ⟨rfl, min_le_right _ _, le_refl _⟩
          · rw [max_eq_right (not_lt.mp hd)]
            exact ⟨rfl, min_le_right _ _, not_lt.mp hd⟩
        · simp only [hpos, hneg, if_false]
          rw [if_neg (not_lt.mpr ih3), min_eq_left ih2]
          exact ⟨rfl, ih2, ih3⟩

theorem min_FLT_MAX_min (x c : ℚ) (hc : c ≤ FLT_MAX) : min (min FLT_MAX x) c = min x c := by
  rw [min_assoc]
  exact min_eq_right (le_trans (min_le_right _ _) hc)

/-- C8 at a failing input: for the direction `(0, 1)` at the origin of the
box `[-10, 10]^2`, the only coordinate with a non-zero component allows the
step `10`, which is the value of the spec, but `computeMaxStep` returns
`min(max(delta0, 0), 10)` for the value `delta0` that the unassigned local
`delta` holds, e.g. `0` when it holds `0`. -/
theorem computeMaxStep_zero_first_component :
    (∀ delta0 : ℚ, computeMaxStep delta0 stateTwoVars dirSecond = min (max delta0 0) 10) ∧
      maxStepSpec stateTwoVars dirSecond stateTwoVars.nlp.dim = 10 ∧
      computeMaxStep 0 stateTwoVars dirSecond = 0 := by
  have h : ∀ delta0 : ℚ,
      computeMaxStep delta0 stateTwoVars dirSecond = min (max delta0 0) 10 := by
    intro delta0
    simp only [computeMaxStep, stateTwoVars, forLoop, computeMaxStep_body, dirSecond]
    norm_num
    rw [min_FLT_MAX_min _ _ (by norm_num [FLT_MAX])]
    rcases lt_or_le delta0 0 with hd | hd
    · rw [if_pos hd, max_eq_right hd.le]
    · rw [if_neg (not_lt.mpr hd), max_eq_left hd]
  refine ⟨h, ?_, ?_⟩
  · norm_num [maxStepSpec, stateTwoVars, dirSecond, FLT_MAX]
  · rw [h]; norm_num

/-- C9 at a failing input: the direction `(0, 0, 2)` has the single non-zero
component `sk_3 = 2 > 0`, at the point `(1, 1, 1)` of the box `[0, 5]^3`, so
that `(upper_3 - xc_3) / sk_3 = 2`; `computeMaxStep` returns
`min(max(delta0, 0), 2)` for the value `delta0` that the unassigned local
`delta` holds, e.g. `0` when it holds `0`. -/
theorem computeMaxStep_single_component_not_first :
    (∀ delta0 : ℚ, computeMaxStep delta0 stateThreeVars dirThird = min (max delta0 0) 2) ∧
      (stateThreeVars.nlp.upper 2 - stateThreeVars.nlp.xc 2) / dirThird 2 = 2 ∧
      computeMaxStep 0 stateThreeVars dirThird = 0 := by
  have h : ∀ delta0 : ℚ,
      computeMaxStep delta0 stateThreeVars dirThird = min (max delta0 0) 2 := by
    intro delta0
    simp only [computeMaxStep, stateThreeVars, forLoop, computeMaxStep_body, dirThird]
    norm_num
    rcases lt_or_le delta0 0 with hd | hd
    · simp only [if_pos hd, lt_irrefl, if_false, max_eq_right hd.le, min_self]
      norm_num [FLT_MAX]
    · simp only [if_neg (not_lt.mpr hd), max_eq_left hd, min_self]
      rw [min_assoc]
      exact min_eq_right (le_min (le_trans (min_le_right _ _) (by norm_num [FLT_MAX]))
        (min_le_left _ _))
  refine ⟨h, ?_, ?_⟩
  · norm_num [stateThreeVars, dirThird]
  · rw [h]; norm_num

/-- The single-coordinate value of C9 holds when the non-zero component is the
first one: every later pass finds `sk(i) == 0` and keeps `delta`. -/
theorem computeMaxStep_single_component_first (delta0 : ℚ) (s : OptBaQNewton)
    (sk : ColumnVector) (hn : 0 < s.nlp.dim) (h0 : 0 < sk 0)
    (hz : ∀ i, 0 < i → sk i = 0) (hx : s.nlp.xc 0 ≤ s.nlp.upper 0)
    (hlt : (s.nlp.upper 0 - s.nlp.xc 0) / sk 0 < FLT_MAX) :
    computeMaxStep delta0 s sk = (s.nlp.upper 0 - s.nlp.xc 0) / sk 0 := by
  rw [computeMaxStep_eq_spec_of_first_ne delta0 s sk hn h0.ne.symm]
  have hnn : 0 ≤ (s.nlp.upper 0 - s.nlp.xc 0) / sk 0 :=
    div_nonneg (sub_nonneg.mpr hx) h0.le
  suffices h : ∀ n, 0 < n → maxStepSpec s sk n = (s.nlp.upper 0 - s.nlp.xc 0) / sk 0 from
    h _ hn
  intro n
  induction n with
  | zero => intro h; exact absurd h (lt_irrefl 0)
  | succ k ih =>
    intro _
    rcases Nat.eq_zero_or_pos k with hk | hk
    · subst hk
      simp only [maxStepSpec, h0, if_true]
      rw [max_eq_right hnn, min_eq_right hlt.le]
    · simp only [maxStepSpec, hz k hk, lt_irrefl, gt_iff_lt, if_false]
      exact ih hk

/-! `scalarNewton`. -/

theorem scalarNewton_loop_converged (log : ℚ → Option ℚ) (kappa : ℚ) :
    ∀ (fuel : Nat) (y r : ℚ), scalarNewton_loop log kappa fuel y = some r →
      scalarNewton_converged log kappa r := by
  intro fuel
  induction fuel with
  | zero => intro y r h; simp [scalarNewton_loop] at h
  | succ k ih =>
    intro y r h
    unfold scalarNewton_loop at h
    cases hl : log y with
    | none => simp [hl] at h
    | some ly =>
      simp only [hl] at h
      split_ifs at h with hc
      · have hr : y = r := Option.some.inj h
        subst hr
        exact ⟨ly, hl, hc⟩
      · exact ih _ r h

theorem scalarNewton_loop_eq_some_iff (log : ℚ → Option ℚ) (kappa : ℚ) :
    ∀ (fuel : Nat) (y r : ℚ), scalarNewton_loop log kappa fuel y = some r ↔
      ∃ j, j < fuel ∧ scalarNewton_iterate log kappa j y = some r ∧
        scalarNewton_converged log kappa r ∧
        ∀ i, i < j → ∀ yi, scalarNewton_iterate log kappa i y = some yi →
          ¬ scalarNewton_converged log kappa yi := by
  intro fuel
  induction fuel with
  | zero =>
    intro y r
    simp [scalarNewton_loop]
  | succ k ih =>
    intro y r
    unfold scalarNewton_loop
    cases hl : log y with
    | none =>
      simp only []
      constructor
      · intro h; exact absurd h (by simp)
      · rintro ⟨j, _, hj, hc, hmin⟩
        cases j with
        | zero =>
          simp only [scalarNewton_iterate, Option.some.injEq] at hj
          subst hj
          obtain ⟨ly, h1, _⟩ := hc
          rw [hl] at h1
          exact absurd h1 (by simp)
        | succ j' =>
          simp [scalarNewton_iterate, scalarNewton_step, hl] at hj
    | some ly =>
      simp only []
      have hconv : scalarNewton_converged log kappa y ↔
          |ly + 0.5 * (1 / y - y) - kappa| < 1.0e-4 := by
        constructor
        · rintro ⟨l, h1, h2⟩
          rw [hl] at h1
          cases h1
          exact h2
        · intro h
          exact ⟨ly, hl, h⟩
      have hstep : scalarNewton_step log kappa y =
          some (y - (ly + 0.5 * (1 / y - y) - kappa) / (1 / y - 1 / (2 * y * y) - 0.5)) := by
        simp [scalarNewton_step, hl]
      split_ifs with hc
      · constructor
        · intro h
          have hr : y = r := Option.some.inj h
          subst hr
          exact ⟨0, Nat.succ_pos k, rfl, hconv.mpr hc, fun i hi => absurd hi (Nat.not_lt_zero i)⟩
        · rintro ⟨j, _, hj, _, hmin⟩
          cases j with
          | zero =>
            simpa [scalarNewton_iterate] using hj
          | succ j' =>
            exact absurd (hconv.mpr hc) (hmin 0 (Nat.succ_pos j') y rfl)
      · rw [ih]
        constructor
        · rintro ⟨j, hjk, hj, hcr, hmin⟩
          refine ⟨j + 1, Nat.succ_lt_succ hjk, ?_, hcr, ?_⟩
          · simp only [scalarNewton_iterate, hstep, Option.some_bind]
            exact hj
          · intro i hi yi hyi
            cases i with
            | zero =>
              simp only [scalarNewton_iterate, Option.some.injEq] at hyi
              subst hyi
              exact fun h => hc (hconv.mp h)
            | succ i' =>
              simp only [scalarNewton_iterate, hstep, Option.some_bind] at hyi
              exact hmin i' (Nat.lt_of_succ_lt_succ hi) yi hyi
        · rintro ⟨j, hjk, hj, hcr, hmin⟩
          cases j with
          | zero =>
            simp only [scalarNewton_iterate, Option.some.injEq] at hj
            subst hj
            exact absurd (hconv.mp hcr) hc
          | succ j' =>
            refine ⟨j', Nat.lt_of_succ_lt_succ hjk, ?_, hcr, ?_⟩
            · simpa only [scalarNewton_iterate, hstep, Option.some_bind] using hj
            · intro i hi yi hyi
              apply hmin (i + 1) (Nat.succ_lt_succ hi) yi
              simp only [scalarNewton_iterate, hstep, Option.some_bind]
              exact hyi

/-- C5 (scalar root finder correctness): for every input and `mu` with
`kappa > 0`, whenever `scalarNewton` returns a value `y`, `log(y)` is finite
and `|log(y) + 0.5*(1/y - y) - kappa| < 1e-4`. -/
theorem scalarNewton_residual (log : ℚ → Option ℚ) (fuel : Nat)
    (mu phi1 phi1_prime phi2 phi2_prime alpha y : ℚ)
    (hk : 0 < scalarNewton_kappa mu phi1 phi1_prime phi2 phi2_prime alpha)
    (h : scalarNewton log fuel mu phi1 phi1_prime phi2 phi2_prime alpha = some y) :
    ∃ ly, log y = some ly ∧
      |ly + 0.5 * (1 / y - y) - scalarNewton_kappa mu phi1 phi1_prime phi2 phi2_prime alpha|
        < 1.0e-4 := by
  unfold scalarNewton at h
  simp only [if_neg (not_le.mpr hk)] at h
  exact scalarNewton_loop_converged log _ fuel _ y h


/-- Witness for C5: with `kappa = 499998` the loop makes one Newton step from
`1e-6` and returns the iterate, at which the residual is below `1e-4`. -/
theorem scalarNewton_residual_witness :
    (0 < scalarNewton_kappa 1 499998 0 0 0 1 ∧
      scalarNewton logStandIn 2 1 499998 0 0 0 1
        = some (166666666667 / 166666333333500000)) ∧
    ∃ ly, logStandIn (166666666667 / 166666333333500000) = some ly ∧
      |ly + 0.5 * (1 / (166666666667 / 166666333333500000 : ℚ)
          - 166666666667 / 166666333333500000) - scalarNewton_kappa 1 499998 0 0 0 1|
        < 1.0e-4 :=
  have hk : 0 < scalarNewton_kappa 1 499998 0 0 0 1 := by
    norm_num [scalarNewton_kappa]
  have hr : scalarNewton logStandIn 2 1 499998 0 0 0 1
      = some (166666666667 / 166666333333500000) := by
    norm_num [scalarNewton, scalarNewton_kappa, scalarNewton_loop, logStandIn, abs_lt]
  ⟨⟨hk, hr⟩, scalarNewton_residual logStandIn 2 1 499998 0 0 0 1 _ hk hr⟩

theorem scalarNewton_loop_log_none (log : ℚ → Option ℚ) (kappa y : ℚ)
    (h : log y = none) (fuel : Nat) : scalarNewton_loop log kappa fuel y = none := by
  cases fuel with
  | zero => rfl
  | succ k => simp [scalarNewton_loop, h]

/-- With `mu = 1`, `phi1 = 10^6`, `alpha = 1` and the other arguments zero
(`kappa = 10^6`),
the first Newton step from `1e-6` lands below zero for every `log` that is
not finite on `t ≤ 0` and has `log(1e-6) < 1` (the C library value is about
`-13.8`); `log` of the iterate is NaN and the loop never exits. -/
theorem scalarNewton_diverges (log : ℚ → Option ℚ)
    (hneg : ∀ t, t ≤ 0 → log t = none) (h0 : ∀ l, log 1.0e-6 = some l → l < 1)
    (fuel : Nat) : scalarNewton log fuel 1 1000000 0 0 0 1 = none := by
  have hk : scalarNewton_kappa 1 1000000 0 0 0 1 = 1000000 := by
    norm_num [scalarNewton_kappa]
  unfold scalarNewton
  simp only [hk]
  rw [if_neg (by norm_num)]
  cases fuel with
  | zero => rfl
  | succ k =>
    unfold scalarNewton_loop
    cases hl : log 1.0e-6 with
    | none => rfl
    | some l =>
      have hl1 := h0 l hl
      simp only []
      have hnc : ¬ |l + 0.5 * (1 / (1.0e-6 : ℚ) - 1.0e-6) - 1000000| < 1.0e-4 := by
        rw [abs_lt]
        norm_num
        intro _
        linarith
      rw [if_neg hnc]
      apply scalarNewton_loop_log_none
      apply hneg
      norm_num
      linarith

/-- C7, as stated, fails: with `mu = 1`, `phi1 = 10^6`, `alpha = 1` and the
other arguments zero (`kappa = 10^6 > 0`), no number of passes makes
`scalarNewton` return: the first Newton step lands below zero, where `log` is
NaN.  There is no maximum iteration count and no return of the sentinel
after it. -/
theorem scalarNewton_no_iteration_cap :
    ¬ ∃ fuel, (scalarNewton logStandIn fuel 1 1000000 0 0 0 1).isSome = true := by
  rintro ⟨fuel, h⟩
  rw [scalarNewton_diverges logStandIn
    (fun t ht => by simp [logStandIn, ht])
    (fun l hl => by
      have : (1.0e-6 : ℚ) - 1 = l := by
        simpa [logStandIn, show ¬ ((1.0e-6 : ℚ) ≤ 0) by norm_num] using hl
      rw [← this]; norm_num)] at h
  simp at h

/-- C7 (amended): `scalarNewton` has no maximum iteration count.  It returns
`1.0` at once when `kappa ≤ 0`; when `kappa > 0` it returns `y` within `fuel`
passes exactly when `y` is the first Newton iterate from `y0 = 1e-6` with
`|log(y) + 0.5*(1/y - y) - kappa| < 1e-4`, reached after `j < fuel` steps; so it
returns if and only if some iterate passes that test, and it never returns the
sentinel for lack of convergence. -/
theorem scalarNewton_eq_some_iff (log : ℚ → Option ℚ) (fuel : Nat)
    (mu phi1 phi1_prime phi2 phi2_prime alpha y : ℚ) :
    scalarNewton log fuel mu phi1 phi1_prime phi2 phi2_prime alpha = some y ↔
      (scalarNewton_kappa mu phi1 phi1_prime phi2 phi2_prime alpha ≤ 0 ∧ y = 1) ∨
      (0 < scalarNewton_kappa mu phi1 phi1_prime phi2 phi2_prime alpha ∧
        ∃ j, j < fuel ∧
          scalarNewton_iterate log
            (scalarNewton_kappa mu phi1 phi1_prime phi2 phi2_prime alpha) j 1.0e-6 = some y ∧
          scalarNewton_converged log
            (scalarNewton_kappa mu phi1 phi1_prime phi2 phi2_prime alpha) y ∧
          ∀ i, i < j → ∀ yi,
            scalarNewton_iterate log
              (scalarNewton_kappa mu phi1 phi1_prime phi2 phi2_prime alpha) i 1.0e-6 = some yi →
            ¬ scalarNewton_converged log
              (scalarNewton_kappa mu phi1 phi1_prime phi2 phi2_prime alpha) yi) := by
  unfold scalarNewton
  by_cases hk : scalarNewton_kappa mu phi1 phi1_prime phi2 phi2_prime alpha ≤ 0
  · simp only [if_pos hk]
    constructor
    · intro h
      exact Or.inl ⟨hk, (Option.some.inj h).symm⟩
    · rintro (⟨_, hy⟩ | ⟨hpos, _⟩)
      · rw [hy]
      · exact absurd hk (not_le.mpr hpos)
  · simp only [if_neg hk]
    rw [scalarNewton_loop_eq_some_iff]
    constructor
    · intro h
      exact Or.inr ⟨not_le.mp hk, h⟩
    · rintro (⟨hle, _⟩ | ⟨_, h⟩)
      · exact absurd hle hk
      · exact h

/-! `computeStep`. -/

theorem compute_Barrier_Fvalue_loop_interior (log : ℚ → Option ℚ)
    (hlog : ∀ t, t ≤ 0 → log t = none) (s : OptBaQNewton) (f : ℚ) (x : ColumnVector) :
    ∀ (n : Nat) (v : ℚ),
      forLoop (fun i fval => do
        let fv ← fval
        let dtmp1 ← if s.nlp.lower i ≠ -FLT_MAX then log (x i - s.nlp.lower i) else some 0
        let dtmp2 ← if s.nlp.upper i ≠ FLT_MAX then log (s.nlp.upper i - x i) else some 0
        pure (fv - s.mu * (dtmp2 + dtmp1))) n (some f) = some v →
      ∀ i, i < n →
        (s.nlp.lower i ≠ -FLT_MAX → s.nlp.lower i < x i) ∧
        (s.nlp.upper i ≠ FLT_MAX → x i < s.nlp.upper i) := by
  intro n
  induction n with
  | zero => intro v _ i hi; exact absurd hi (Nat.not_lt_zero i)
  | succ k ih =>
    intro v h i hi
    simp only [forLoop] at h
    cases hprev : forLoop (fun i fval => do
        let fv ← fval
        let dtmp1 ← if s.nlp.lower i ≠ -FLT_MAX then log (x i - s.nlp.lower i) else some 0
        let dtmp2 ← if s.nlp.upper i ≠ FLT_MAX then log (s.nlp.upper i - x i) else some 0
        pure (fv - s.mu * (dtmp2 + dtmp1))) k (some f) with
    | none =>
      rw [hprev] at h
      simp at h
    | some fv =>
      rw [hprev] at h
      rcases Nat.lt_succ_iff_lt_or_eq.mp hi with hlt | heq
      · exact ih fv hprev i hlt
      · subst heq
        constructor
        · intro hfin
          by_contra hcon
          have hle : x i - s.nlp.lower i ≤ 0 := by linarith [not_lt.mp hcon]
          simp [hfin, hlog _ hle] at h
        · intro hfin
          by_contra hcon
          have hle : s.nlp.upper i - x i ≤ 0 := by linarith [not_lt.mp hcon]
          simp [hfin, hlog _ hle] at h

/-- A finite barrier value is only obtained at a strictly interior point. -/
theorem compute_Barrier_Fvalue_interior (log : ℚ → Option ℚ)
    (hlog : ∀ t, t ≤ 0 → log t = none) (s : OptBaQNewton) (f v : ℚ) (x : ColumnVector)
    (h : compute_Barrier_Fvalue log s f x = some v) : StrictlyInterior s.nlp x :=
  compute_Barrier_Fvalue_loop_interior log hlog s f x s.nlp.dim v h

theorem fltLt_some (a : Option ℚ) (b : ℚ) (h : fltLt a b) : ∃ v, a = some v := by
  cases a with
  | none => exact absurd h (by simp [fltLt])
  | some v => exact ⟨v, rfl⟩

theorem computeStep_interpolate_interior (log : ℚ → Option ℚ) (sqrt : ℚ → ℚ)
    (hlog : ∀ t, t ≤ 0 → log t = none) (s : OptBaQNewton) (pk : ColumnVector)
    (fb gp gpnew alpha y : ℚ) (hint : StrictlyInterior s.nlp s.nlp.xc) :
    StrictlyInterior s.nlp
      (computeStep_interpolate log sqrt s pk fb gp gpnew alpha y).2.nlp.xc := by
  unfold computeStep_interpolate
  dsimp only
  split_ifs with h1 h2 h3 h4
  · exact hint
  · exact hint
  · exact hint
  · obtain ⟨v, hv⟩ := fltLt_some _ _ h4
    exact compute_Barrier_Fvalue_interior log hlog s _ v _ hv
  · exact hint

/-- C1 (feasibility invariant of the line search): from a state whose current
point is strictly interior and with `mu > 0`, for every direction `pk`, the
adapter's current point after `computeStep` is strictly interior: a point
committed on the first trial or on the trial after the interpolation is
strictly interior, and nothing is committed on the other paths. -/
theorem computeStep_feasible (log : ℚ → Option ℚ) (sqrt : ℚ → ℚ) (delta0 : ℚ)
    (fuel : Nat) (s : OptBaQNewton) (pk : ColumnVector) (r : Int) (s' : OptBaQNewton)
    (hlog : ∀ t, t ≤ 0 → log t = none) (hmu : 0 < s.mu)
    (hint : StrictlyInterior s.nlp s.nlp.xc)
    (h : computeStep log sqrt delta0 fuel s pk = some (r, s')) :
    StrictlyInterior s.nlp s'.nlp.xc := by
  have _ := hmu
  unfold computeStep at h
  cases hfb : s.fvalue_barrier with
  | none => simp [hfb] at h
  | some fb =>
    cases hfp : computeStep_fplus log s pk (computeStep_alpha delta0 s pk) with
    | none => simp [hfb, hfp] at h
    | some fp =>
      simp only [hfb, hfp] at h
      split_ifs at h with hacc
      · have h2 := congrArg Prod.snd (Option.some.inj h)
        simp only at h2
        rw [← h2]
        exact compute_Barrier_Fvalue_interior log hlog s _ fp _ hfp
      · rw [Option.map_eq_some'] at h
        obtain ⟨y, _, hy⟩ := h
        have h2 := congrArg Prod.snd hy
        simp only at h2
        rw [← h2]
        exact computeStep_interpolate_interior log sqrt hlog s pk _ _ _ _ y hint

theorem logStandIn_nonpos (t : ℚ) (ht : t ≤ 0) : logStandIn t = none := by
  simp [logStandIn, ht]

theorem stateLineSearch_alpha : computeStep_alpha 0 stateLineSearch dirHalfDown = 1 := by
  norm_num [computeStep_alpha, computeStep_alpha_b, computeMaxStep, computeMaxStep_body,
    computeStep_inner_gp, Dot, forLoop, stateLineSearch, dirHalfDown, FLT_MAX]

theorem stateLineSearch_fplus :
    computeStep_fplus logStandIn stateLineSearch dirHalfDown 1 = some (-11 / 20) := by
  norm_num [computeStep_fplus, computeStep_xplus, compute_Barrier_Fvalue, forLoop,
    stateLineSearch, dirHalfDown, logStandIn, FLT_MAX]

theorem stateLineSearch_computeStep :
    computeStep logStandIn sqrtStandIn 0 0 stateLineSearch dirHalfDown
      = some (0, stateLineSearchNext) := by
  unfold computeStep stateLineSearchNext
  simp only [stateLineSearch_alpha, stateLineSearch_fplus]
  have hfb : stateLineSearch.fvalue_barrier = some (1 / 5) := rfl
  simp only [hfb]
  rw [if_pos]
  norm_num [computeStep_initslope, Dot, stateLineSearch]

theorem stateLineSearch_interior :
    StrictlyInterior stateLineSearch.nlp stateLineSearch.nlp.xc := by
  intro i _
  norm_num [stateLineSearch]

/-- Witness for C1: from the point `1` of the box `[0, 10]` along the
direction `-1/2`, the first trial step `alpha = 1` passes the
sufficient-decrease test and the point `1/2` is committed. -/
theorem computeStep_feasible_witness :
    ((∀ t, t ≤ 0 → logStandIn t = none) ∧ 0 < stateLineSearch.mu ∧
      StrictlyInterior stateLineSearch.nlp stateLineSearch.nlp.xc ∧
      computeStep logStandIn sqrtStandIn 0 0 stateLineSearch dirHalfDown
        = some (0, stateLineSearchNext)) ∧
    StrictlyInterior stateLineSearch.nlp stateLineSearchNext.nlp.xc :=
  ⟨⟨logStandIn_nonpos, by norm_num [stateLineSearch], stateLineSearch_interior,
      stateLineSearch_computeStep⟩,
    computeStep_feasible logStandIn sqrtStandIn 0 0 stateLineSearch dirHalfDown 0
      stateLineSearchNext logStandIn_nonpos (by norm_num [stateLineSearch])
      stateLineSearch_interior stateLineSearch_computeStep⟩

/-- C6 (scalar root finder failure signal): for every input with `kappa ≤ 0`,
`scalarNewton` returns exactly `1.0`, for every bound on the number of loop
passes and already with no pass at all; and when the first trial of
`computeStep` fails the sufficient-decrease test and the `kappa` of its call
of `scalarNewton` is `≤ 0`, `computeStep` returns `-1` (leaving the object as
it was). -/
theorem scalarNewton_failure_signal (log : ℚ → Option ℚ) (sqrt : ℚ → ℚ)
    (fuel0 : Nat) (mu phi1 phi1_prime phi2 phi2_prime alpha : ℚ)
    (delta0 : ℚ) (fuel : Nat) (s : OptBaQNewton) (pk : ColumnVector) (fb fp : ℚ)
    (hk0 : scalarNewton_kappa mu phi1 phi1_prime phi2 phi2_prime alpha ≤ 0)
    (hfb : s.fvalue_barrier = some fb)
    (hfp : computeStep_fplus log s pk (computeStep_alpha delta0 s pk) = some fp)
    (hnot : ¬ fp < fb + computeStep_initslope s * s.ftol)
    (hk : scalarNewton_kappa s.mu fb (computeStep_inner_gp s pk) fp
        (computeStep_inner_gpnew s pk (computeStep_alpha delta0 s pk))
        (computeStep_alpha delta0 s pk) ≤ 0) :
    scalarNewton log fuel0 mu phi1 phi1_prime phi2 phi2_prime alpha = some 1 ∧
      scalarNewton log 0 mu phi1 phi1_prime phi2 phi2_prime alpha = some 1 ∧
      computeStep log sqrt delta0 fuel s pk = some (-1, s) := by
  refine ⟨?_, ?_, ?_⟩
  · simp [scalarNewton, hk0]
  · simp [scalarNewton, hk0]
  · unfold computeStep
    simp only [hfb, hfp, if_neg hnot]
    simp [scalarNewton, hk, computeStep_interpolate]

theorem stateQuadratic_alpha : computeStep_alpha 0 stateQuadratic dirFourDown = 1 := by
  norm_num [computeStep_alpha, computeStep_alpha_b, computeMaxStep, computeMaxStep_body,
    computeStep_inner_gp, Dot, forLoop, stateQuadratic, dirFourDown, FLT_MAX]

theorem stateQuadratic_fplus :
    computeStep_fplus logStandIn stateQuadratic dirFourDown 1 = some 9 := by
  norm_num [computeStep_fplus, computeStep_xplus, compute_Barrier_Fvalue, forLoop,
    stateQuadratic, dirFourDown, logStandIn, FLT_MAX]

theorem stateQuadratic_kappa :
    scalarNewton_kappa stateQuadratic.mu 1 (computeStep_inner_gp stateQuadratic dirFourDown) 9
      (computeStep_inner_gpnew stateQuadratic dirFourDown 1) 1 = 0 := by
  norm_num [scalarNewton_kappa, computeStep_inner_gp, computeStep_inner_gpnew,
    computeStep_xplus, compute_Barrier_Gradient, Dot, forLoop, stateQuadratic, dirFourDown,
    FLT_MAX]

/-- Witness for C6: for the objective `x^2` without bounds, from the point `1`
along the direction `-4`, the first trial `alpha = 1` gives `fplus = 9`, which
fails the test, and `kappa = 0`. -/
theorem scalarNewton_failure_signal_witness :
    (scalarNewton_kappa (1 / 10) 1 (-8) 9 24 1 ≤ 0 ∧
      stateQuadratic.fvalue_barrier = some 1 ∧
      computeStep_fplus logStandIn stateQuadratic dirFourDown
        (computeStep_alpha 0 stateQuadratic dirFourDown) = some 9 ∧
      ¬ (9 : ℚ) < 1 + computeStep_initslope stateQuadratic * stateQuadratic.ftol) ∧
    (scalarNewton logStandIn 5 (1 / 10) 1 (-8) 9 24 1 = some 1 ∧
      scalarNewton logStandIn 0 (1 / 10) 1 (-8) 9 24 1 = some 1 ∧
      computeStep logStandIn sqrtStandIn 0 5 stateQuadratic dirFourDown
        = some (-1, stateQuadratic)) :=
  have hk0 : scalarNewton_kappa (1 / 10) 1 (-8) 9 24 1 ≤ 0 := by
    norm_num [scalarNewton_kappa]
  have hfp : computeStep_fplus logStandIn stateQuadratic dirFourDown
      (computeStep_alpha 0 stateQuadratic dirFourDown) = some 9 := by
    rw [stateQuadratic_alpha, stateQuadratic_fplus]
  have hnot : ¬ (9 : ℚ) < 1 + computeStep_initslope stateQuadratic * stateQuadratic.ftol := by
    norm_num [computeStep_initslope, Dot, stateQuadratic]
  ⟨⟨hk0, rfl, hfp, hnot⟩,
    scalarNewton_failure_signal logStandIn sqrtStandIn 5 (1 / 10) 1 (-8) 9 24 1 0 5
      stateQuadratic dirFourDown 1 9 hk0 rfl hfp hnot
      (by rw [stateQuadratic_alpha, stateQuadratic_kappa])⟩

/-! `updateH`. -/

theorem sqrtStandIn_one : sqrtStandIn 1 = 1 := by
  simp [sqrtStandIn]

/-- C2 at a failing input: one unbounded variable at the point `-1` with
gradient `1`.  The restart branch (`k == 0`) takes `typx = xmax = -1` and
stores the Hessian `gnorm / typx = -1`, which is not positive-definite. -/
theorem updateH_restart_negative_point :
    (updateH sqrtStandIn stateNegativePoint stateNegativePoint.Hessian 0).1 0 0 = -1 ∧
      (updateH sqrtStandIn stateNegativePoint stateNegativePoint.Hessian 0).2.Hessian 0 0
        = -1 ∧
      ¬ IsSPD 1 (updateH sqrtStandIn stateNegativePoint stateNegativePoint.Hessian 0).1 := by
  have hD : updateH_restart_D sqrtStandIn stateNegativePoint
      (compute_Barrier_Gradient stateNegativePoint stateNegativePoint.nlp.grad
        stateNegativePoint.nlp.xc) = -1 := by
    norm_num [updateH_restart_D, Norm2, Dot, compute_Barrier_Gradient, forLoop,
      stateNegativePoint, sqrtStandIn_one]
  have hdim : stateNegativePoint.nlp.dim = 1 := rfl
  have h1 : (updateH sqrtStandIn stateNegativePoint stateNegativePoint.Hessian 0).1 0 0
      = -1 := by
    simp [updateH, diagonal, hD, hdim]
  refine ⟨h1, ?_, ?_⟩
  · simp [updateH, diagonal, hD, hdim]
  · rintro ⟨_, hpos⟩
    have h := hpos (fun _ => 1) ⟨0, Nat.zero_lt_one, one_ne_zero⟩
    simp [Dot, mulVec] at h
    rw [h1] at h
    norm_num at h

theorem computeStep_interpolate_cases (log : ℚ → Option ℚ) (sqrt : ℚ → ℚ)
    (s : OptBaQNewton) (pk : ColumnVector) (fb gp gpnew alpha y : ℚ) :
    computeStep_interpolate log sqrt s pk fb gp gpnew alpha y = (-1, s) ∨
      ∃ a fp, computeStep_fplus log s pk a = some fp ∧
        fp < fb + computeStep_initslope s * s.ftol ∧
        computeStep_interpolate log sqrt s pk fb gp gpnew alpha y =
          (0, computeStep_commit s (computeStep_xplus s pk a)
            (s.nlp.objF (computeStep_xplus s pk a)) a) := by
  unfold computeStep_interpolate
  dsimp only
  split_ifs with h1 h2 h3 h4
  · exact Or.inl rfl
  · exact Or.inl rfl
  · exact Or.inl rfl
  · right
    obtain ⟨v, hv⟩ := fltLt_some _ _ h4
    refine ⟨_, v, hv, ?_, rfl⟩
    rw [hv] at h4
    exact h4
  · exact Or.inl rfl

theorem computeStep_cases (log : ℚ → Option ℚ) (sqrt : ℚ → ℚ) (delta0 : ℚ)
    (fuel : Nat) (s : OptBaQNewton) (pk : ColumnVector) (r : Int) (s' : OptBaQNewton)
    (h : computeStep log sqrt delta0 fuel s pk = some (r, s')) :
    (r = -1 ∧ s' = s) ∨
      (r = 0 ∧ ∃ a fb fp, s.fvalue_barrier = some fb ∧
        computeStep_fplus log s pk a = some fp ∧
        fp < fb + computeStep_initslope s * s.ftol ∧
        s' = computeStep_commit s (computeStep_xplus s pk a)
          (s.nlp.objF (computeStep_xplus s pk a)) a) := by
  unfold computeStep at h
  cases hfb : s.fvalue_barrier with
  | none => simp [hfb] at h
  | some fb =>
    cases hfp : computeStep_fplus log s pk (computeStep_alpha delta0 s pk) with
    | none => simp [hfb, hfp] at h
    | some fp =>
      simp only [hfb, hfp] at h
      split_ifs at h with hacc
      · have h1 := congrArg Prod.fst (Option.some.inj h)
        have h2 := congrArg Prod.snd (Option.some.inj h)
        simp only at h1 h2
        exact Or.inr ⟨h1.symm, _, fb, fp, rfl, hfp, hacc, h2.symm⟩
      · rw [Option.map_eq_some'] at h
        obtain ⟨y, _, hy⟩ := h
        rcases computeStep_interpolate_cases log sqrt s pk fb
            (computeStep_inner_gp s pk) (computeStep_inner_gpnew s pk
              (computeStep_alpha delta0 s pk)) (computeStep_alpha delta0 s pk) y with hc | hc
        · rw [hc] at hy
          have h1 := congrArg Prod.fst hy
          have h2 := congrArg Prod.snd hy
          simp only at h1 h2
          exact Or.inl ⟨h1.symm, h2.symm⟩
        · obtain ⟨a, fp2, hfp2, hlt, heq⟩ := hc
          rw [heq] at hy
          have h1 := congrArg Prod.fst hy
          have h2 := congrArg Prod.snd hy
          simp only at h1 h2
          exact Or.inr ⟨h1.symm, a, fb, fp2, rfl, hfp2, hlt, h2.symm⟩

/-- C14 (line-search atomicity): if `computeStep` returns `-1` the object is
unchanged, in particular the adapter's current point and value, `mu` and the
stored barrier value and gradient; if it returns `0` the adapter's current
point is `xc + step_length * pk`, `mu` and the stored barrier value and
gradient are still those of the call, and the barrier value `fplus` at the
new point satisfies `fplus < fvalue_barrier - ftol * ||grad_barrier||^2`.
These are the only two return codes. -/
theorem computeStep_atomic (log : ℚ → Option ℚ) (sqrt : ℚ → ℚ) (delta0 : ℚ)
    (fuel : Nat) (s : OptBaQNewton) (pk : ColumnVector) (r : Int) (s' : OptBaQNewton)
    (h : computeStep log sqrt delta0 fuel s pk = some (r, s')) :
    (r = -1 ∨ r = 0) ∧
      (r = -1 → s' = s) ∧
      (r = 0 →
        s'.nlp.xc = (fun i => s.nlp.xc i + pk i * s'.step_length) ∧
        s'.nlp.fvalue = s.nlp.objF s'.nlp.xc ∧
        s'.mu = s.mu ∧ s'.fvalue_barrier = s.fvalue_barrier ∧
        s'.grad_barrier = s.grad_barrier ∧
        ∃ fb fplus, s.fvalue_barrier = some fb ∧
          compute_Barrier_Fvalue log s s'.nlp.fvalue s'.nlp.xc = some fplus ∧
          fplus < fb - s.ftol * Dot s.nlp.dim s.grad_barrier s.grad_barrier) := by
  rcases computeStep_cases log sqrt delta0 fuel s pk r s' h with ⟨hr, hs⟩ | ⟨hr, hs⟩
  · refine ⟨Or.inl hr, fun _ => hs, fun h0 => ?_⟩
    rw [hr] at h0
    exact absurd h0 (by decide)
  · refine ⟨Or.inr hr, fun h1 => ?_, fun _ => ?_⟩
    · rw [hr] at h1
      exact absurd h1 (by decide)
    · obtain ⟨a, fb, fp, hfb, hfp, hlt, heq⟩ := hs
      subst heq
      refine ⟨rfl, rfl, rfl, rfl, rfl, fb, fp, hfb, hfp, ?_⟩
      have : computeStep_initslope s = - Dot s.nlp.dim s.grad_barrier s.grad_barrier := rfl
      rw [this] at hlt
      linarith

/-- Witness for C14: the accepted first trial from `stateLineSearch` (return
code `0`, new point `1/2`). -/
theorem computeStep_atomic_witness :
    computeStep logStandIn sqrtStandIn 0 0 stateLineSearch dirHalfDown
        = some (0, stateLineSearchNext) ∧
      stateLineSearchNext.nlp.xc
        = (fun i => stateLineSearch.nlp.xc i + dirHalfDown i * stateLineSearchNext.step_length) :=
  ⟨stateLineSearch_computeStep,
    ((computeStep_atomic logStandIn sqrtStandIn 0 0 stateLineSearch dirHalfDown 0
      stateLineSearchNext stateLineSearch_computeStep).2.2 rfl).1⟩

theorem computeStep_interpolate_step_length (log : ℚ → Option ℚ) (sqrt : ℚ → ℚ)
    (s : OptBaQNewton) (pk : ColumnVector) (fb gp gpnew alpha y : ℚ)
    (h : (computeStep_interpolate log sqrt s pk fb gp gpnew alpha y).1 = 0) :
    (computeStep_interpolate log sqrt s pk fb gp gpnew alpha y).2.step_length =
      computeStep_root sqrt s.mu (computeStep_b s.mu gp (computeStep_d alpha y))
        (computeStep_c s.mu gp gpnew alpha (computeStep_d alpha y))
        (computeStep_d alpha y) := by
  unfold computeStep_interpolate at h ⊢
  dsimp only at h ⊢
  split_ifs at h ⊢ with h1 h2 h3 h4
  all_goals first | rfl | (simp at h)

/-- The residual of the stationarity equation at the step chosen by
`computeStep`, over any ordered field in the place of the doubles and for any
function in the place of `sqrt`:
`(b + 2 c alpha)(d - alpha) + mu = (dtmp2 - sqrt(dtmp2)^2) / (8 c)`. -/
theorem computeStep_root_residual {K : Type} [LinearOrderedField K] (sqrt : K → K)
    (mu b c d : K) (hc : c ≠ 0) :
    (b + 2 * c * computeStep_root sqrt mu b c d) * (d - computeStep_root sqrt mu b c d) + mu =
      (computeStep_dtmp2 mu b c d -
        sqrt (computeStep_dtmp2 mu b c d) * sqrt (computeStep_dtmp2 mu b c d)) / (8 * c) := by
  have h2 : (2.0 : K) = 2 := by norm_num
  have h8 : (8.0 : K) = 8 := by norm_num
  unfold computeStep_root computeStep_dtmp2
  dsimp only
  rw [h2, h8]
  generalize sqrt ((2 * c * d - b) * (2 * c * d - b) + 8 * c * (mu + b * d)) = r
  field_simp
  ring

/-- A call of `computeStep` that gets to the interpolation returns what the
interpolation part returns. -/
theorem computeStep_of_reaches_interpolation (log : ℚ → Option ℚ) (sqrt : ℚ → ℚ)
    (delta0 : ℚ) (fuel : Nat) (s : OptBaQNewton) (pk : ColumnVector) (y : ℚ)
    (h : computeStep_reaches_interpolation log delta0 fuel s pk y) :
    ∃ fb, s.fvalue_barrier = some fb ∧
      computeStep log sqrt delta0 fuel s pk =
        some (computeStep_interpolate log sqrt s pk fb (computeStep_inner_gp s pk)
          (computeStep_inner_gpnew s pk (computeStep_alpha delta0 s pk))
          (computeStep_alpha delta0 s pk) y) := by
  obtain ⟨fb, fp, hfb, hfp, hnot, hy⟩ := h
  refine ⟨fb, hfb, ?_⟩
  unfold computeStep
  simp only [hfb, hfp, if_neg hnot, hy, Option.map_some']

/-- When the interpolation part of `computeStep` returns `0`, the coefficient
`c` is not zero, the argument of `sqrt` is not negative, and the committed
`step_length` is the step `computeStep_root`. -/
theorem computeStep_interpolate_zero (log : ℚ → Option ℚ) (sqrt : ℚ → ℚ)
    (s : OptBaQNewton) (pk : ColumnVector) (fb gp gpnew alpha y : ℚ) (s' : OptBaQNewton)
    (h : computeStep_interpolate log sqrt s pk fb gp gpnew alpha y = (0, s')) :
    computeStep_c s.mu gp gpnew alpha (computeStep_d alpha y) ≠ 0 ∧
      0 ≤ computeStep_dtmp2 s.mu (computeStep_b s.mu gp (computeStep_d alpha y))
        (computeStep_c s.mu gp gpnew alpha (computeStep_d alpha y)) (computeStep_d alpha y) ∧
      s'.step_length =
        computeStep_root sqrt s.mu (computeStep_b s.mu gp (computeStep_d alpha y))
          (computeStep_c s.mu gp gpnew alpha (computeStep_d alpha y))
          (computeStep_d alpha y) := by
  unfold computeStep_interpolate at h
  dsimp only at h
  split_ifs at h with h1 h2 h3 h4
  · simp at h
  · simp at h
  · simp at h
  · have hs := congrArg Prod.snd h
    simp only at hs
    refine ⟨h2, not_lt.mp h3, ?_⟩
    rw [← hs]
    rfl
  · simp at h

/-- When the coefficient `c` is zero, the interpolation part of `computeStep`
returns `-1` and leaves the object as it was. -/
theorem computeStep_interpolate_c_zero (log : ℚ → Option ℚ) (sqrt : ℚ → ℚ)
    (s : OptBaQNewton) (pk : ColumnVector) (fb gp gpnew alpha y : ℚ)
    (hc0 : computeStep_c s.mu gp gpnew alpha (computeStep_d alpha y) = 0) :
    computeStep_interpolate log sqrt s pk fb gp gpnew alpha y = (-1, s) := by
  unfold computeStep_interpolate
  dsimp only
  split_ifs with h1
  · rfl
  · rfl

/-- C19 (model stationary point): for all real `b`, `c`, `d`, `mu` with
`c ≠ 0` and `(2cd - b)^2 + 8c(mu + bd) ≥ 0`, the step
`alpha = ((2cd - b) - sqrt((2cd - b)^2 + 8c(mu + bd))) / (4c)` satisfies
`(b + 2c alpha)(d - alpha) + mu = 0`, and `Q'(alpha) = b + 2c alpha +
mu/(d - alpha) = 0` when `alpha ≠ d`.  In the program, for every function in
the place of `sqrt` and all `b`, `c`, `d`, `mu` with `c ≠ 0`, the left-hand
side at the step is `(dtmp2 - sqrt(dtmp2)^2) / (8c)`, with `dtmp2` the argument
of `sqrt`.  In every call of `computeStep` that gets to the interpolation with
the value `y` of `scalarNewton`: when the coefficient `c` of the call is zero,
`computeStep` returns `-1` with the object unchanged; and when `computeStep`
returns `0`, `c` is not zero, the argument of `sqrt` is not negative and the
committed `step_length` is that step for the coefficients of the call. -/
theorem computeStep_root_stationary (mu b c d : ℝ) (hc : c ≠ 0)
    (hdisc : 0 ≤ computeStep_dtmp2 mu b c d) :
    (b + 2 * c * computeStep_root Real.sqrt mu b c d) *
        (d - computeStep_root Real.sqrt mu b c d) + mu = 0 ∧
    (d - computeStep_root Real.sqrt mu b c d ≠ 0 →
      b + 2 * c * computeStep_root Real.sqrt mu b c d +
        mu / (d - computeStep_root Real.sqrt mu b c d) = 0) ∧
    (∀ (sqrt : ℚ → ℚ) (mu b c d : ℚ), c ≠ 0 →
      (b + 2 * c * computeStep_root sqrt mu b c d) * (d - computeStep_root sqrt mu b c d)
          + mu =
        (computeStep_dtmp2 mu b c d -
          sqrt (computeStep_dtmp2 mu b c d) * sqrt (computeStep_dtmp2 mu b c d)) / (8 * c)) ∧
    (∀ (log : ℚ → Option ℚ) (sqrt : ℚ → ℚ) (delta0 : ℚ) (fuel : Nat) (s : OptBaQNewton)
        (pk : ColumnVector) (y : ℚ),
      computeStep_reaches_interpolation log delta0 fuel s pk y →
      (computeStep_call_c delta0 s pk y = 0 →
        computeStep log sqrt delta0 fuel s pk = some (-1, s)) ∧
      (∀ s' : OptBaQNewton, computeStep log sqrt delta0 fuel s pk = some (0, s') →
        computeStep_call_c delta0 s pk y ≠ 0 ∧
        0 ≤ computeStep_dtmp2 s.mu (computeStep_call_b delta0 s pk y)
          (computeStep_call_c delta0 s pk y) (computeStep_call_d delta0 s pk y) ∧
        s'.step_length =
          computeStep_root sqrt s.mu (computeStep_call_b delta0 s pk y)
            (computeStep_call_c delta0 s pk y) (computeStep_call_d delta0 s pk y))) := by
  have hstat : (b + 2 * c * computeStep_root Real.sqrt mu b c d) *
      (d - computeStep_root Real.sqrt mu b c d) + mu = 0 := by
    rw [computeStep_root_residual Real.sqrt mu b c d hc, Real.mul_self_sqrt hdisc, sub_self,
      zero_div]
  refine ⟨hstat, ?_, ?_, ?_⟩
  · intro hne
    have hq : b + 2 * c * computeStep_root Real.sqrt mu b c d +
        mu / (d - computeStep_root Real.sqrt mu b c d) =
        ((b + 2 * c * computeStep_root Real.sqrt mu b c d) *
          (d - computeStep_root Real.sqrt mu b c d) + mu) /
          (d - computeStep_root Real.sqrt mu b c d) := by
      field_simp
    rw [hq, hstat, zero_div]
  · intro sqrt mu b c d hc
    exact computeStep_root_residual sqrt mu b c d hc
  · intro log sqrt delta0 fuel s pk y hreach
    obtain ⟨fb, _, hrun⟩ :=
      computeStep_of_reaches_interpolation log sqrt delta0 fuel s pk y hreach
    constructor
    · intro hc0
      rw [hrun, computeStep_interpolate_c_zero log sqrt s pk fb _ _ _ y hc0]
    · intro s' hs'
      rw [hrun] at hs'
      exact computeStep_interpolate_zero log sqrt s pk fb _ _ _ y s' (Option.some.inj hs')

theorem sqrtStandIn_mul_self (q : ℚ) (hq : 0 ≤ q) : sqrtStandIn (q * q) = q := by
  unfold sqrtStandIn
  rw [Rat.sqrt_eq, abs_of_nonneg hq]

theorem stateCubic_alpha : computeStep_alpha 0 stateCubic dirOnes = 1 := by
  norm_num [computeStep_alpha, computeStep_alpha_b, computeMaxStep, computeMaxStep_body,
    computeStep_inner_gp, Dot, forLoop, stateCubic, dirOnes, FLT_MAX]

theorem stateCubic_inner_gp : computeStep_inner_gp stateCubic dirOnes = -1 := by
  simp [computeStep_inner_gp, Dot, stateCubic, dirOnes]

theorem stateCubic_inner_gpnew :
    computeStep_inner_gpnew stateCubic dirOnes 1 = 499999 / 250000 := by
  norm_num [computeStep_inner_gpnew, computeStep_xplus, compute_Barrier_Gradient, Dot,
    forLoop, stateCubic, dirOnes, FLT_MAX]

theorem stateCubic_fplus :
    computeStep_fplus logStandIn stateCubic dirOnes 1 = some (-1 / 500000) := by
  norm_num [computeStep_fplus, computeStep_xplus, compute_Barrier_Fvalue, forLoop,
    stateCubic, dirOnes, logStandIn, FLT_MAX]

theorem stateCubic_fplus_half :
    computeStep_fplus logStandIn stateCubic dirOnes (500000 / 999999)
      = some (-374999500000000000 / 999997000002999999) := by
  norm_num [computeStep_fplus, computeStep_xplus, compute_Barrier_Fvalue, forLoop,
    stateCubic, dirOnes, logStandIn, FLT_MAX]

theorem stateCubic_scalarNewton :
    scalarNewton logStandIn 1 stateCubic.mu 0 (-1) (-1 / 500000) (499999 / 250000) 1
      = some (1 / 1000000) := by
  norm_num [scalarNewton, scalarNewton_kappa, scalarNewton_loop, logStandIn, stateCubic,
    abs_lt]

theorem stateCubic_reaches :
    computeStep_reaches_interpolation logStandIn 0 1 stateCubic dirOnes (1 / 1000000) := by
  refine ⟨0, -1 / 500000, rfl, ?_, ?_, ?_⟩
  · rw [stateCubic_alpha, stateCubic_fplus]
  · norm_num [computeStep_initslope, Dot, stateCubic]
  · rw [stateCubic_alpha, stateCubic_inner_gp, stateCubic_inner_gpnew]
    exact stateCubic_scalarNewton

theorem stateCubic_call_d :
    computeStep_call_d 0 stateCubic dirOnes (1 / 1000000) = 1000000 / 999999 := by
  rw [computeStep_call_d, stateCubic_alpha]
  norm_num [computeStep_d]

theorem stateCubic_call_c :
    computeStep_call_c 0 stateCubic dirOnes (1 / 1000000) = 499999 / 500000 := by
  rw [computeStep_call_c, stateCubic_call_d, stateCubic_alpha, stateCubic_inner_gp,
    stateCubic_inner_gpnew]
  norm_num [computeStep_c, stateCubic]

theorem stateCubic_call_b :
    computeStep_call_b 0 stateCubic dirOnes (1 / 1000000) = -1000000 / 999999 := by
  rw [computeStep_call_b, stateCubic_call_d, stateCubic_inner_gp]
  norm_num [computeStep_b, stateCubic]

theorem stateCubic_dtmp2 :
    computeStep_dtmp2 stateCubic.mu (-1000000 / 999999) (499999 / 500000) (1000000 / 999999)
      = (1000000 / 999999) * (1000000 / 999999) := by
  norm_num [computeStep_dtmp2, stateCubic]

theorem stateCubic_root :
    computeStep_root sqrtStandIn stateCubic.mu (-1000000 / 999999) (499999 / 500000)
      (1000000 / 999999) = 500000 / 999999 := by
  have h := stateCubic_dtmp2
  unfold computeStep_dtmp2 at h
  dsimp only at h
  unfold computeStep_root
  dsimp only
  rw [h, sqrtStandIn_mul_self _ (by norm_num)]
  norm_num

theorem stateCubic_computeStep :
    computeStep logStandIn sqrtStandIn 0 1 stateCubic dirOnes = some (0, stateCubicNext) := by
  obtain ⟨fb, hfb, hrun⟩ := computeStep_of_reaches_interpolation logStandIn sqrtStandIn 0 1
    stateCubic dirOnes (1 / 1000000) stateCubic_reaches
  have hfb0 : fb = 0 := (Option.some.inj hfb).symm
  subst hfb0
  rw [hrun]
  congr 1
  have hd := stateCubic_call_d
  have hc := stateCubic_call_c
  have hb := stateCubic_call_b
  have hdt := stateCubic_dtmp2
  have hr := stateCubic_root
  unfold computeStep_call_c computeStep_call_d at hc
  unfold computeStep_call_b computeStep_call_d at hb
  unfold computeStep_call_d at hd
  unfold computeStep_dtmp2 at hdt
  unfold computeStep_root at hr
  dsimp only at hdt hr
  unfold computeStep_interpolate
  dsimp only
  rw [hc, hb, hd, hr, hdt, stateCubic_fplus_half]
  rw [if_neg (by norm_num), if_neg (by norm_num), if_neg (by norm_num), if_pos]
  · rfl
  · show (-374999500000000000 / 999997000002999999 : ℚ) <
      0 + computeStep_initslope stateCubic * stateCubic.ftol
    norm_num [computeStep_initslope, Dot, stateCubic]

theorem stateCubicFlat_alpha : computeStep_alpha 0 stateCubicFlat dirOnes = 1 := by
  norm_num [computeStep_alpha, computeStep_alpha_b, computeMaxStep, computeMaxStep_body,
    computeStep_inner_gp, Dot, forLoop, stateCubicFlat, dirOnes, FLT_MAX]

theorem stateCubicFlat_inner_gp : computeStep_inner_gp stateCubicFlat dirOnes = -20000 := by
  simp [computeStep_inner_gp, Dot, stateCubicFlat, dirOnes]

theorem stateCubicFlat_inner_gpnew :
    computeStep_inner_gpnew stateCubicFlat dirOnes 1 = 0 := by
  norm_num [computeStep_inner_gpnew, computeStep_xplus, compute_Barrier_Gradient, Dot,
    forLoop, stateCubicFlat, dirOnes, FLT_MAX]

theorem stateCubicFlat_fplus :
    computeStep_fplus logStandIn stateCubicFlat dirOnes 1 = some (-20000) := by
  norm_num [computeStep_fplus, computeStep_xplus, compute_Barrier_Fvalue, forLoop,
    stateCubicFlat, dirOnes, logStandIn, FLT_MAX]

theorem stateCubicFlat_scalarNewton :
    scalarNewton logStandIn 1 stateCubicFlat.mu 0 (-20000) (-20000) 0 1
      = some (1 / 1000000) := by
  norm_num [scalarNewton, scalarNewton_kappa, scalarNewton_loop, logStandIn, stateCubicFlat,
    abs_lt]

theorem stateCubicFlat_reaches :
    computeStep_reaches_interpolation logStandIn 0 1 stateCubicFlat dirOnes
      (1 / 1000000) := by
  refine ⟨0, -20000, rfl, ?_, ?_, ?_⟩
  · rw [stateCubicFlat_alpha, stateCubicFlat_fplus]
  · norm_num [computeStep_initslope, Dot, stateCubicFlat]
  · rw [stateCubicFlat_alpha, stateCubicFlat_inner_gp, stateCubicFlat_inner_gpnew]
    exact stateCubicFlat_scalarNewton

theorem stateCubicFlat_call_c :
    computeStep_call_c 0 stateCubicFlat dirOnes (1 / 1000000) = 0 := by
  rw [computeStep_call_c, computeStep_call_d, stateCubicFlat_alpha, stateCubicFlat_inner_gp,
    stateCubicFlat_inner_gpnew]
  norm_num [computeStep_c, computeStep_d, stateCubicFlat]

/-- Witness for C19.  At the real input `mu = 1/8`, `b = 0`, `c = 1`,
`d = 1/2` the argument of the square root is `2` and the step
`(1 - sqrt 2)/4` satisfies the equation.  From the point `0` along the
direction `1`, for the objective `x^3 - x^2/500000 - x`, the first trial
`alpha = 1` fails the test (`fplus = -1/500000`), `scalarNewton` returns
`1e-6`, the coefficients are `d = 10^6/999999`, `c = 499999/500000`, `b = -d`,
the argument of `sqrt` is `d^2`, and `computeStep` returns `0` with the step
`500000/999999`, at which the equation holds.  For the objective
`20000 (x^3 - x^2 - x)` the coefficient `c` is zero and `computeStep` returns
`-1`. -/
theorem computeStep_root_stationary_witness :
    ((1 : ℝ) ≠ 0 ∧ 0 ≤ computeStep_dtmp2 (1 / 8 : ℝ) 0 1 (1 / 2)) ∧
    (0 + 2 * 1 * computeStep_root Real.sqrt (1 / 8) 0 1 (1 / 2)) *
        (1 / 2 - computeStep_root Real.sqrt (1 / 8) 0 1 (1 / 2)) + 1 / 8 = (0 : ℝ) ∧
    (computeStep_reaches_interpolation logStandIn 0 1 stateCubic dirOnes (1 / 1000000) ∧
      computeStep logStandIn sqrtStandIn 0 1 stateCubic dirOnes = some (0, stateCubicNext) ∧
      stateCubicNext.step_length = 500000 / 999999 ∧
      stateCubicNext.step_length =
        computeStep_root sqrtStandIn stateCubic.mu
          (computeStep_call_b 0 stateCubic dirOnes (1 / 1000000))
          (computeStep_call_c 0 stateCubic dirOnes (1 / 1000000))
          (computeStep_call_d 0 stateCubic dirOnes (1 / 1000000)) ∧
      ((-1000000 / 999999 : ℚ) + 2 * (499999 / 500000) * (500000 / 999999)) *
        (1000000 / 999999 - 500000 / 999999) + stateCubic.mu = 0) ∧
    (computeStep_reaches_interpolation logStandIn 0 1 stateCubicFlat dirOnes (1 / 1000000) ∧
      computeStep_call_c 0 stateCubicFlat dirOnes (1 / 1000000) = 0 ∧
      computeStep logStandIn sqrtStandIn 0 1 stateCubicFlat dirOnes
        = some (-1, stateCubicFlat)) :=
  have hd : (0 : ℝ) ≤ computeStep_dtmp2 (1 / 8 : ℝ) 0 1 (1 / 2) := by
    norm_num [computeStep_dtmp2]
  have hw := computeStep_root_stationary (1 / 8) 0 1 (1 / 2) one_ne_zero hd
  have hres : ((-1000000 / 999999 : ℚ) + 2 * (499999 / 500000) * (500000 / 999999)) *
      (1000000 / 999999 - 500000 / 999999) + stateCubic.mu = 0 := by
    have h := hw.2.2.1 sqrtStandIn stateCubic.mu (-1000000 / 999999) (499999 / 500000)
      (1000000 / 999999) (by norm_num)
    rw [stateCubic_root, stateCubic_dtmp2, sqrtStandIn_mul_self _ (by norm_num), sub_self,
      zero_div] at h
    exact h
  ⟨⟨one_ne_zero, hd⟩, hw.1,
    ⟨stateCubic_reaches, stateCubic_computeStep, rfl,
      ((hw.2.2.2 logStandIn sqrtStandIn 0 1 stateCubic dirOnes (1 / 1000000)
        stateCubic_reaches).2 stateCubicNext stateCubic_computeStep).2.2, hres⟩,
    ⟨stateCubicFlat_reaches, stateCubicFlat_call_c,
      (hw.2.2.2 logStandIn sqrtStandIn 0 1 stateCubicFlat dirOnes (1 / 1000000)
        stateCubicFlat_reaches).1 stateCubicFlat_call_c⟩⟩

/-- C18 (interpolation model fit): for `mu > 0`, `alpha > 0` and a value `y`
returned by `scalarNewton` with `0 < y < 1`, and a `log` that is finite on the
positive numbers and additive on products, the coefficients `d`, `c`, `b`, `a`
of `computeStep` give `Q(0) = fvalue_barrier`, `Q'(0) = inner_gp`,
`Q'(alpha) = inner_gpnew` exactly, and
`|Q(alpha) - fplus| = mu * |log(y) + 0.5*(1/y - y) - kappa| < mu * 1e-4`. -/
theorem computeStep_model_fit (log : ℚ → Option ℚ) (fuel : Nat)
    (mu fb gp fplus gpnew alpha y : ℚ)
    (hmu : 0 < mu) (halpha : 0 < alpha) (hy0 : 0 < y) (hy1 : y < 1)
    (hret : scalarNewton log fuel mu fb gp fplus gpnew alpha = some y)
    (hfin : ∀ t, 0 < t → ∃ l, log t = some l)
    (hmul : ∀ u v lu lv, 0 < u → 0 < v → log u = some lu → log v = some lv →
      log (u * v) = some (lu + lv)) :
    ∃ a ly qa,
      computeStep_a log mu fb (computeStep_d alpha y) = some a ∧
      log y = some ly ∧
      interpolantQ log mu a (computeStep_b mu gp (computeStep_d alpha y))
        (computeStep_c mu gp gpnew alpha (computeStep_d alpha y))
        (computeStep_d alpha y) 0 = some fb ∧
      interpolantDeriv mu (computeStep_b mu gp (computeStep_d alpha y))
        (computeStep_c mu gp gpnew alpha (computeStep_d alpha y))
        (computeStep_d alpha y) 0 = gp ∧
      interpolantDeriv mu (computeStep_b mu gp (computeStep_d alpha y))
        (computeStep_c mu gp gpnew alpha (computeStep_d alpha y))
        (computeStep_d alpha y) alpha = gpnew ∧
      interpolantQ log mu a (computeStep_b mu gp (computeStep_d alpha y))
        (computeStep_c mu gp gpnew alpha (computeStep_d alpha y))
        (computeStep_d alpha y) alpha = some qa ∧
      |qa - fplus| =
        mu * |ly + 0.5 * (1 / y - y) - scalarNewton_kappa mu fb gp fplus gpnew alpha| ∧
      |qa - fplus| < mu * 1.0e-4 := by
  have hy1' : (1 : ℚ) - y ≠ 0 := by linarith
  have hy1'' : (0 : ℚ) < 1 - y := by linarith
  have hd : 0 < computeStep_d alpha y := by
    unfold computeStep_d
    norm_num
    exact div_pos halpha hy1''
  have hdy : computeStep_d alpha y - alpha = computeStep_d alpha y * y := by
    unfold computeStep_d
    norm_num
    field_simp
    ring
  obtain ⟨ld, hld⟩ := hfin _ hd
  -- the value returned is one at which the loop exits
  have hkpos : 0 < scalarNewton_kappa mu fb gp fplus gpnew alpha := by
    by_contra hk
    unfold scalarNewton at hret
    simp only [if_pos (not_lt.mp hk)] at hret
    have : (1 : ℚ) = y := Option.some.inj hret
    linarith
  have hconv : scalarNewton_converged log
      (scalarNewton_kappa mu fb gp fplus gpnew alpha) y := by
    unfold scalarNewton at hret
    simp only [if_neg (not_le.mpr hkpos)] at hret
    exact scalarNewton_loop_converged log _ fuel _ y hret
  obtain ⟨ly, hly, hres⟩ := hconv
  have hlda : log (computeStep_d alpha y - alpha) = some (ld + ly) := by
    rw [hdy]
    exact hmul _ _ ld ly hd hy0 hld hly
  have hdne : computeStep_d alpha y ≠ 0 := hd.ne'
  have hdane : computeStep_d alpha y - alpha ≠ 0 := by
    rw [hdy]
    exact (mul_pos hd hy0).ne'
  have hq : (fb + mu * ld) + computeStep_b mu gp (computeStep_d alpha y) * alpha
        + computeStep_c mu gp gpnew alpha (computeStep_d alpha y) * alpha ^ 2
        - mu * (ld + ly) - fplus
      = - (mu * (ly + 0.5 * (1 / y - y) - scalarNewton_kappa mu fb gp fplus gpnew alpha)) := by
    unfold computeStep_b computeStep_c scalarNewton_kappa
    rw [hdy]
    unfold computeStep_d
    norm_num
    field_simp
    ring
  refine ⟨fb + mu * ld, ly,
    (fb + mu * ld) + computeStep_b mu gp (computeStep_d alpha y) * alpha
      + computeStep_c mu gp gpnew alpha (computeStep_d alpha y) * alpha ^ 2
      - mu * (ld + ly), ?_, hly, ?_, ?_, ?_, ?_, ?_, ?_⟩
  · simp [computeStep_a, hld]
  · simp [interpolantQ, hld]
  · unfold interpolantDeriv computeStep_b
    field_simp
  · unfold interpolantDeriv computeStep_b computeStep_c
    field_simp
    ring
  · simp [interpolantQ, hlda]
  · rw [hq, abs_neg, abs_mul, abs_of_pos hmu]
  · rw [hq, abs_neg, abs_mul, abs_of_pos hmu]
    exact mul_lt_mul_of_pos_left hres hmu


theorem logFlat_finite (t : ℚ) (ht : 0 < t) : ∃ l, logFlat t = some l :=
  ⟨0, by simp [logFlat, not_le.mpr ht]⟩

theorem logFlat_mul (u v lu lv : ℚ) (hu : 0 < u) (hv : 0 < v)
    (h1 : logFlat u = some lu) (h2 : logFlat v = some lv) :
    logFlat (u * v) = some (lu + lv) := by
  simp only [logFlat, not_le.mpr hu, not_le.mpr hv, not_le.mpr (mul_pos hu hv), if_false,
    Option.some.injEq] at h1 h2 ⊢
  rw [← h1, ← h2, add_zero]

/-- Witness for C18: `mu = 1`, `alpha = 1`, `fvalue_barrier = 499999.9999995`
and the other arguments zero, with the additive stand-in `logFlat`;
`scalarNewton` returns `y = 1e-6`. -/
theorem computeStep_model_fit_witness :
    ((0 : ℚ) < 1 ∧ (0 : ℚ) < 1 / 1000000 ∧ (1 / 1000000 : ℚ) < 1 ∧
      scalarNewton logFlat 1 1 (999999999999 / 2000000) 0 0 0 1 = some (1 / 1000000)) ∧
    ∃ a ly qa,
      computeStep_a logFlat 1 (999999999999 / 2000000)
        (computeStep_d 1 (1 / 1000000)) = some a ∧
      logFlat (1 / 1000000) = some ly ∧
      interpolantQ logFlat 1 a (computeStep_b 1 0 (computeStep_d 1 (1 / 1000000)))
        (computeStep_c 1 0 0 1 (computeStep_d 1 (1 / 1000000)))
        (computeStep_d 1 (1 / 1000000)) 0 = some (999999999999 / 2000000) ∧
      interpolantDeriv 1 (computeStep_b 1 0 (computeStep_d 1 (1 / 1000000)))
        (computeStep_c 1 0 0 1 (computeStep_d 1 (1 / 1000000)))
        (computeStep_d 1 (1 / 1000000)) 0 = 0 ∧
      interpolantDeriv 1 (computeStep_b 1 0 (computeStep_d 1 (1 / 1000000)))
        (computeStep_c 1 0 0 1 (computeStep_d 1 (1 / 1000000)))
        (computeStep_d 1 (1 / 1000000)) 1 = 0 ∧
      interpolantQ logFlat 1 a (computeStep_b 1 0 (computeStep_d 1 (1 / 1000000)))
        (computeStep_c 1 0 0 1 (computeStep_d 1 (1 / 1000000)))
        (computeStep_d 1 (1 / 1000000)) 1 = some qa ∧
      |qa - 0| =
        1 * |ly + 0.5 * (1 / (1 / 1000000 : ℚ) - 1 / 1000000)
          - scalarNewton_kappa 1 (999999999999 / 2000000) 0 0 0 1| ∧
      |qa - 0| < 1 * 1.0e-4 :=
  have hret : scalarNewton logFlat 1 1 (999999999999 / 2000000) 0 0 0 1
      = some (1 / 1000000) := by
    norm_num [scalarNewton, scalarNewton_kappa, scalarNewton_loop, logFlat]
  ⟨⟨by norm_num, by norm_num, by norm_num, hret⟩,
    computeStep_model_fit logFlat 1 1 (999999999999 / 2000000) 0 0 0 1 (1 / 1000000)
      (by norm_num) (by norm_num) (by norm_num) (by norm_num) hret
      logFlat_finite logFlat_mul⟩

/-! The restart branch of `updateH`. -/

theorem xmax_loop_bounds (x : ColumnVector) (init : ℚ) :
    ∀ n, (init ≤ forLoop (fun i xmax => max xmax (x i)) n init ∧
        ∀ i, i < n → x i ≤ forLoop (fun i xmax => max xmax (x i)) n init) ∧
      (forLoop (fun i xmax => max xmax (x i)) n init = init ∨
        ∃ i, i < n ∧ forLoop (fun i xmax => max xmax (x i)) n init = x i) := by
  intro n
  induction n with
  | zero =>
    exact ⟨⟨le_refl _, fun i hi => absurd hi (Nat.not_lt_zero i)⟩, Or.inl rfl⟩
  | succ k ih =>
    obtain ⟨⟨h1, h2⟩, h3⟩ := ih
    simp only [forLoop]
    refine ⟨⟨le_trans h1 (le_max_left _ _), ?_⟩, ?_⟩
    · intro i hi
      rcases Nat.lt_succ_iff_lt_or_eq.mp hi with hlt | heq
      · exact le_trans (h2 i hlt) (le_max_left _ _)
      · rw [heq]
        exact le_max_right _ _
    · rcases le_total (forLoop (fun i xmax => max xmax (x i)) k init) (x k) with hle | hle
      · right
        exact ⟨k, Nat.lt_succ_self k, max_eq_right hle⟩
      · rw [max_eq_left hle]
        rcases h3 with h | ⟨i, hi, h⟩
        · exact Or.inl h
        · exact Or.inr ⟨i, Nat.lt_succ_of_lt hi, h⟩

theorem xmax_loop_eq (x : ColumnVector) (n : Nat) (m : ℚ)
    (hle : ∀ i, i < n → x i ≤ m) (hex : ∃ i, i < n ∧ x i = m) (hnn : 0 ≤ m) :
    forLoop (fun i xmax => max xmax (x i)) n (-1.0e30) = m := by
  obtain ⟨⟨h1, h2⟩, h3⟩ := xmax_loop_bounds x (-1.0e30) n
  obtain ⟨i0, hi0, hx0⟩ := hex
  apply le_antisymm
  · rcases h3 with h | ⟨i, hi, h⟩
    · rw [h]
      have : (-1.0e30 : ℚ) ≤ 0 := by norm_num
      linarith
    · rw [h]
      exact hle i hi
  · rw [← hx0]
    exact h2 i0 hi0

theorem Norm2_standIn_one (a : ColumnVector) : Norm2 sqrtStandIn 1 a = |a 0| := by
  unfold Norm2 sqrtStandIn
  have : Dot 1 a a = a 0 * a 0 := by simp [Dot]
  rw [this, Rat.sqrt_eq]

/-- C15, as stated, fails: at the point `1` with barrier gradient `1/2` the
restart branch stores the scale `||g|| / xmax = 1/2`, where
`max(1, ||g||) / max(1e-30, max_i x_i)` is `1`. -/
theorem updateH_restart_scale_counterexample :
    ¬ ((updateH sqrtStandIn stateRestart stateRestart.Hessian 0).1 =
        diagonal stateRestart.nlp.dim
          (fun _ => restartScaleSpec sqrtStandIn stateRestart 1)) := by
  have hg : compute_Barrier_Gradient stateRestart stateRestart.nlp.grad
      stateRestart.nlp.xc = fun _ => 1 / 2 := by
    funext i
    simp [compute_Barrier_Gradient, forLoop, stateRestart]
  have hn : Norm2 sqrtStandIn 1 (fun _ => (1 / 2 : ℚ)) = 1 / 2 := by
    rw [Norm2_standIn_one, abs_of_pos (by norm_num)]
  have hdim : stateRestart.nlp.dim = 1 := rfl
  have hD : updateH_restart_D sqrtStandIn stateRestart (fun _ => 1 / 2) = 1 / 2 := by
    simp only [updateH_restart_D, hdim, hn, forLoop]
    norm_num [stateRestart]
  have h1 : (updateH sqrtStandIn stateRestart stateRestart.Hessian 0).1 0 0 = 1 / 2 := by
    simp only [updateH, if_true, diagonal, hg, hD, hdim]
    norm_num
  have h2 : restartScaleSpec sqrtStandIn stateRestart 1 = 1 := by
    simp only [restartScaleSpec, hg, hdim, hn]
    norm_num
  intro h
  have h3 := congrFun (congrFun h 0) 0
  rw [h1, h2] at h3
  simp [diagonal, hdim] at h3

/-- C15 (amended): for every state whose largest coordinate `xmax` is not
negative, `updateH` called with `k == 0` sets the Hessian (and returns it) to
`scale * Identity`, where, with `g` the barrier gradient at the current
point, `scale = 1` when `||g||_2 = 0`, and otherwise `scale = ||g||_2 / xmax`
when `xmax ≠ 0` and `scale = ||g||_2` when `xmax = 0`. -/
theorem updateH_restart_scale (sqrt : ℚ → ℚ) (s : OptBaQNewton) (Hk : SymmetricMatrix)
    (xmax : ℚ) (hle : ∀ i, i < s.nlp.dim → s.nlp.xc i ≤ xmax)
    (hex : ∃ i, i < s.nlp.dim ∧ s.nlp.xc i = xmax) (hnn : 0 ≤ xmax) :
    (updateH sqrt s Hk 0).1 = diagonal s.nlp.dim (fun _ =>
        if Norm2 sqrt s.nlp.dim (compute_Barrier_Gradient s s.nlp.grad s.nlp.xc) = 0 then 1
        else if xmax = 0
          then Norm2 sqrt s.nlp.dim (compute_Barrier_Gradient s s.nlp.grad s.nlp.xc)
          else Norm2 sqrt s.nlp.dim (compute_Barrier_Gradient s s.nlp.grad s.nlp.xc) / xmax) ∧
      (updateH sqrt s Hk 0).2.Hessian = (updateH sqrt s Hk 0).1 := by
  refine ⟨?_, rfl⟩
  have hsc : updateH_restart_D sqrt s (compute_Barrier_Gradient s s.nlp.grad s.nlp.xc) =
      (if Norm2 sqrt s.nlp.dim (compute_Barrier_Gradient s s.nlp.grad s.nlp.xc) = 0 then 1
        else if xmax = 0
          then Norm2 sqrt s.nlp.dim (compute_Barrier_Gradient s s.nlp.grad s.nlp.xc)
          else Norm2 sqrt s.nlp.dim (compute_Barrier_Gradient s s.nlp.grad s.nlp.xc) / xmax) := by
    simp only [updateH_restart_D, xmax_loop_eq s.nlp.xc s.nlp.dim xmax hle hex hnn]
    by_cases hg : Norm2 sqrt s.nlp.dim (compute_Barrier_Gradient s s.nlp.grad s.nlp.xc) = 0
    · simp [hg]
      norm_num
    · by_cases hx : xmax = 0
      · simp [hg, hx]
        norm_num
      · simp [hg, hx]
  simp only [updateH, if_true, hsc]

/-- Witness for C15 (amended): the point `1` with barrier gradient `1/2`. -/
theorem updateH_restart_scale_witness :
    ((∀ i, i < stateRestart.nlp.dim → stateRestart.nlp.xc i ≤ 1) ∧
      (∃ i, i < stateRestart.nlp.dim ∧ stateRestart.nlp.xc i = 1) ∧ (0 : ℚ) ≤ 1) ∧
    (updateH sqrtStandIn stateRestart stateRestart.Hessian 0).2.Hessian =
      (updateH sqrtStandIn stateRestart stateRestart.Hessian 0).1 :=
  ⟨⟨fun _ _ => le_refl _, ⟨0, Nat.zero_lt_one, rfl⟩, zero_le_one⟩,
    (updateH_restart_scale sqrtStandIn stateRestart stateRestart.Hessian 1
      (fun _ _ => le_refl _) ⟨0, Nat.zero_lt_one, rfl⟩ zero_le_one).2⟩

/-! `checkConvg`. -/

/-- C13 at a failing input: one variable at `0.00005`, within `1e-4` of its
lower bound `0`, stored barrier gradient `1`; the earlier tests do not fire.
With the near-active component set to zero `q1 = 0` and
`max(q1, q2) = 0 < 1e-4`, the outcome `2` of the spec; `checkConvg` takes
`gnorm = Norm2(grad_barrier) = 1` without the projection and returns `0`. -/
theorem checkConvg_projection_unused :
    checkConvg_reaches_gradient_test stateNearBound ∧
      checkConvgSpec sqrtStandIn stateNearBound = 2 ∧
      checkConvg sqrtStandIn stateNearBound = 0 := by
  have hdim : stateNearBound.nlp.dim = 1 := rfl
  have hq2 : checkConvg_q2 stateNearBound = 1 / 20000 := by
    norm_num [checkConvg_q2, forLoop, stateNearBound, FLT_MAX]
  have hxn : Norm2 sqrtStandIn 1 stateNearBound.nlp.xc = 1 / 20000 := by
    rw [Norm2_standIn_one]
    show |(1 / 20000 : ℚ)| = 1 / 20000
    rw [abs_of_pos (by norm_num)]
  have hgn : Norm2 sqrtStandIn 1 stateNearBound.grad_barrier = 1 := by
    rw [Norm2_standIn_one]
    show |(1 : ℚ)| = 1
    exact abs_one
  have hpn : Norm2 sqrtStandIn 1 (projectedBarrierGradient stateNearBound) = 0 := by
    rw [Norm2_standIn_one]
    norm_num [projectedBarrierGradient, stateNearBound, abs_lt]
  refine ⟨?_, ?_, ?_⟩
  · norm_num [checkConvg_reaches_gradient_test, stateNearBound]
  · unfold checkConvgSpec
    simp only [hdim, hxn, hpn, hq2]
    norm_num
  · unfold checkConvg
    simp only [hdim, hxn, hgn, hq2]
    norm_num [stateNearBound]

/-- C12, as stated, fails: with `mu = 1/10 ≥ 1e-12` and `deltaf = 2 - 2 = 0`,
`checkConvg` returns `0`, the value for which `while (!outer_convgd)` goes
on. -/
theorem checkConvg_stall_counterexample :
    ¬ (¬ stateStall.mu < 1.0e-12 →
        stateStall.fprev_outer - stateStall.nlp.fvalue = 0 →
        checkConvg sqrtStandIn stateStall ≠ 0) := by
  intro h
  apply h
  · norm_num [stateStall]
  · norm_num [stateStall]
  · norm_num [checkConvg, stateStall]

/-! Linear algebra on index ranges. -/

theorem Dot_comm (n : Nat) (a b : ColumnVector) : Dot n a b = Dot n b a := by
  unfold Dot
  exact Finset.sum_congr rfl (fun i _ => mul_comm _ _)

theorem Dot_congr (n : Nat) (a a2 b b2 : ColumnVector)
    (ha : ∀ i, i < n → a i = a2 i) (hb : ∀ i, i < n → b i = b2 i) :
    Dot n a b = Dot n a2 b2 := by
  unfold Dot
  apply Finset.sum_congr rfl
  intro i hi
  rw [ha i (Finset.mem_range.mp hi), hb i (Finset.mem_range.mp hi)]

theorem Dot_lin_right (n : Nat) (w u z : ColumnVector) (a b : ℚ) :
    Dot n w (fun i => a * u i + b * z i) = a * Dot n w u + b * Dot n w z := by
  unfold Dot
  rw [Finset.mul_sum, Finset.mul_sum, ← Finset.sum_add_distrib]
  exact Finset.sum_congr rfl (fun i _ => by ring)

theorem Dot_lin_left (n : Nat) (w u z : ColumnVector) (a b : ℚ) :
    Dot n (fun i => a * u i + b * z i) w = a * Dot n u w + b * Dot n z w := by
  rw [Dot_comm, Dot_lin_right, Dot_comm n w u, Dot_comm n w z]

theorem mulVec_lin (n : Nat) (H : SymmetricMatrix) (u z : ColumnVector) (a b : ℚ) :
    mulVec n H (fun i => a * u i + b * z i) =
      fun i => a * mulVec n H u i + b * mulVec n H z i := by
  funext i
  unfold mulVec
  rw [Finset.mul_sum, Finset.mul_sum, ← Finset.sum_add_distrib]
  exact Finset.sum_congr rfl (fun j _ => by ring)

theorem Dot_mulVec_symm (n : Nat) (H : SymmetricMatrix)
    (hsym : ∀ i j, i < n → j < n → H i j = H j i) (u z : ColumnVector) :
    Dot n u (mulVec n H z) = Dot n z (mulVec n H u) := by
  unfold Dot mulVec
  simp only [Finset.mul_sum]
  rw [Finset.sum_comm]
  apply Finset.sum_congr rfl
  intro j hj
  apply Finset.sum_congr rfl
  intro i hi
  rw [hsym i j (Finset.mem_range.mp hi) (Finset.mem_range.mp hj)]
  ring

theorem quadForm_lin (n : Nat) (H : SymmetricMatrix)
    (hsym : ∀ i j, i < n → j < n → H i j = H j i) (u z : ColumnVector) (a b : ℚ) :
    Dot n (fun i => a * u i + b * z i) (mulVec n H (fun i => a * u i + b * z i)) =
      a ^ 2 * Dot n u (mulVec n H u) + 2 * a * b * Dot n u (mulVec n H z)
        + b ^ 2 * Dot n z (mulVec n H z) := by
  rw [mulVec_lin, Dot_lin_left, Dot_lin_right, Dot_lin_right,
    Dot_mulVec_symm n H hsym z u]
  ring

theorem Dot_self_nonneg (n : Nat) (a : ColumnVector) : 0 ≤ Dot n a a := by
  unfold Dot
  exact Finset.sum_nonneg (fun i _ => mul_self_nonneg _)

theorem Dot_zero_left (n : Nat) (a b : ColumnVector) (ha : ∀ i, i < n → a i = 0) :
    Dot n a b = 0 := by
  unfold Dot
  apply Finset.sum_eq_zero
  intro i hi
  rw [ha i (Finset.mem_range.mp hi), zero_mul]

/-! The rank-two update of `updateH`. -/

theorem updateH_secant_entry (n : Nat) (Hk : SymmetricMatrix) (Bsk yk : ColumnVector)
    (sBs yts : ℚ) (hsym : ∀ i j, i < n → j < n → Hk i j = Hk j i)
    (i j : Nat) (hi : i < n) (hj : j < n) :
    updateH_secant Hk Bsk yk sBs yts i j =
      Hk i j + (-(Bsk i * Bsk j) / sBs + (yk i * yk j) / yts) := by
  unfold updateH_secant
  dsimp only
  split_ifs with h
  · rfl
  · rw [hsym j i hj hi, mul_comm (Bsk j), mul_comm (yk j)]

theorem updateH_secant_mulVec (n : Nat) (Hk : SymmetricMatrix) (Bsk yk : ColumnVector)
    (sBs yts : ℚ) (hsym : ∀ i j, i < n → j < n → Hk i j = Hk j i)
    (v : ColumnVector) (i : Nat) (hi : i < n) :
    mulVec n (updateH_secant Hk Bsk yk sBs yts) v i =
      mulVec n Hk v i - Bsk i * Dot n Bsk v / sBs + yk i * Dot n yk v / yts := by
  unfold mulVec Dot
  rw [Finset.sum_congr rfl (fun j hj => by
    rw [updateH_secant_entry n Hk Bsk yk sBs yts hsym i j hi (Finset.mem_range.mp hj)])]
  rw [Finset.mul_sum, Finset.mul_sum, Finset.sum_div, Finset.sum_div,
    ← Finset.sum_sub_distrib, ← Finset.sum_add_distrib]
  exact Finset.sum_congr rfl (fun j _ => by ring)

theorem updateH_eq_secant (sqrt : ℚ → ℚ) (s : OptBaQNewton) (Hk : SymmetricMatrix)
    (k : Nat) (h : updateH_reaches_secant sqrt s Hk k) :
    (updateH sqrt s Hk k).1 =
      updateH_secant Hk (mulVec s.nlp.dim Hk (updateH_sk s)) (updateH_yk s)
        (Dot s.nlp.dim (updateH_sk s) (mulVec s.nlp.dim Hk (updateH_sk s)))
        (Dot s.nlp.dim (updateH_yk s) (updateH_sk s)) ∧
    (updateH sqrt s Hk k).2.Hessian = (updateH sqrt s Hk k).1 := by
  obtain ⟨hk, h1, h2, h3⟩ := h
  unfold updateH
  dsimp only
  split_ifs with c0 c1 c2 c3
  · exact absurd c0 hk
  · exact absurd c1 h1
  · exact absurd c2 h2
  · exact absurd c3 h3
  · exact ⟨rfl, rfl⟩

theorem updateH_reaches_secant_pos (sqrt : ℚ → ℚ) (hsqrt : ∀ t, 0 ≤ sqrt t)
    (s : OptBaQNewton) (Hk : SymmetricMatrix) (k : Nat)
    (h : updateH_reaches_secant sqrt s Hk k) :
    0 < Dot s.nlp.dim (updateH_yk s) (updateH_sk s) ∧
      0 < Dot s.nlp.dim (updateH_sk s) (mulVec s.nlp.dim Hk (updateH_sk s)) := by
  obtain ⟨_, h1, _, h3⟩ := h
  constructor
  · have : 0 ≤ sqrt Epsilon * Norm2 sqrt s.nlp.dim (updateH_sk s) *
        Norm2 sqrt s.nlp.dim (updateH_yk s) :=
      mul_nonneg (mul_nonneg (hsqrt _) (hsqrt _)) (hsqrt _)
    exact lt_of_le_of_lt this (not_le.mp h1)
  · have : 0 ≤ 1.0e-8 * Norm2 sqrt s.nlp.dim (updateH_sk s) *
        Norm2 sqrt s.nlp.dim (updateH_sk s) := by
      rw [mul_assoc]
      exact mul_nonneg (by norm_num) (mul_self_nonneg _)
    exact lt_of_le_of_lt this (not_le.mp h3)

theorem secant_quadForm (n : Nat) (Hk : SymmetricMatrix) (Bsk yk : ColumnVector)
    (sBs yts : ℚ) (hsym : ∀ i j, i < n → j < n → Hk i j = Hk j i) (v : ColumnVector) :
    Dot n v (mulVec n (updateH_secant Hk Bsk yk sBs yts) v) =
      Dot n v (mulVec n Hk v) - Dot n v Bsk * Dot n Bsk v / sBs
        + Dot n v yk * Dot n yk v / yts := by
  rw [Dot_congr n v v _ (fun i => mulVec n Hk v i - Bsk i * Dot n Bsk v / sBs
      + yk i * Dot n yk v / yts) (fun _ _ => rfl)
    (fun i hi => updateH_secant_mulVec n Hk Bsk yk sBs yts hsym v i hi)]
  generalize Dot n Bsk v = p
  generalize Dot n yk v = q
  unfold Dot
  rw [Finset.sum_mul, Finset.sum_mul, Finset.sum_div, Finset.sum_div,
    ← Finset.sum_sub_distrib, ← Finset.sum_add_distrib]
  exact Finset.sum_congr rfl (fun i _ => by ring)

/-- The rank-two update of a symmetric positive-definite matrix with a pair
of positive curvature `y . s > 0` is symmetric positive-definite. -/
theorem updateH_secant_spd (n : Nat) (Hk : SymmetricMatrix) (y s : ColumnVector)
    (hspd : IsSPD n Hk) (hyts : 0 < Dot n y s) :
    IsSPD n (updateH_secant Hk (mulVec n Hk s) y (Dot n s (mulVec n Hk s)) (Dot n y s)) := by
  obtain ⟨hsym, hpos⟩ := hspd
  have hs : ∃ i, i < n ∧ s i ≠ 0 := by
    by_contra hcon
    push_neg at hcon
    rw [Dot_comm, Dot_zero_left n s y hcon] at hyts
    exact lt_irrefl _ hyts
  have hsBs : 0 < Dot n s (mulVec n Hk s) := hpos s hs
  constructor
  · intro i j hi hj
    rw [updateH_secant_entry n Hk _ _ _ _ hsym i j hi hj,
      updateH_secant_entry n Hk _ _ _ _ hsym j i hj hi, hsym i j hi hj]
    ring
  · intro v hv
    rw [secant_quadForm n Hk _ _ _ _ hsym v]
    rw [Dot_comm n (mulVec n Hk s) v, Dot_comm n y v]
    have hnn : 0 ≤ Dot n v y * Dot n v y / Dot n y s :=
      div_nonneg (mul_self_nonneg _) hyts.le
    have hq := quadForm_lin n Hk hsym v s (Dot n s (mulVec n Hk s))
      (- Dot n v (mulVec n Hk s))
    by_cases hw : ∃ i, i < n ∧
        Dot n s (mulVec n Hk s) * v i + - Dot n v (mulVec n Hk s) * s i ≠ 0
    · have hwpos := hpos _ hw
      rw [hq] at hwpos
      have h1 : 0 < Dot n s (mulVec n Hk s) *
          (Dot n s (mulVec n Hk s) * Dot n v (mulVec n Hk v)
            - Dot n v (mulVec n Hk s) * Dot n v (mulVec n Hk s)) := by
        have : Dot n s (mulVec n Hk s) *
            (Dot n s (mulVec n Hk s) * Dot n v (mulVec n Hk v)
              - Dot n v (mulVec n Hk s) * Dot n v (mulVec n Hk s)) =
            Dot n s (mulVec n Hk s) ^ 2 * Dot n v (mulVec n Hk v)
              + 2 * Dot n s (mulVec n Hk s) * -Dot n v (mulVec n Hk s)
                * Dot n v (mulVec n Hk s)
              + (-Dot n v (mulVec n Hk s)) ^ 2 * Dot n s (mulVec n Hk s) := by ring
        rw [this]
        exact hwpos
      have h2 : 0 < Dot n s (mulVec n Hk s) * Dot n v (mulVec n Hk v)
            - Dot n v (mulVec n Hk s) * Dot n v (mulVec n Hk s) :=
        (mul_pos_iff_of_pos_left hsBs).mp h1
      have h3 : 0 < Dot n v (mulVec n Hk v)
          - Dot n v (mulVec n Hk s) * Dot n v (mulVec n Hk s) / Dot n s (mulVec n Hk s) := by
        have : Dot n v (mulVec n Hk v)
            - Dot n v (mulVec n Hk s) * Dot n v (mulVec n Hk s) / Dot n s (mulVec n Hk s) =
            (Dot n s (mulVec n Hk s) * Dot n v (mulVec n Hk v)
              - Dot n v (mulVec n Hk s) * Dot n v (mulVec n Hk s)) /
              Dot n s (mulVec n Hk s) := by
          field_simp
          ring
        rw [this]
        exact div_pos h2 hsBs
      linarith
    · push_neg at hw
      have hzero := Dot_zero_left n _ (mulVec n Hk (fun i =>
        Dot n s (mulVec n Hk s) * v i + - Dot n v (mulVec n Hk s) * s i)) hw
      rw [hq] at hzero
      have hv_eq : ∀ i, i < n → v i =
          (Dot n v (mulVec n Hk s) / Dot n s (mulVec n Hk s)) * s i + 0 * s i := by
        intro i hi
        have := hw i hi
        field_simp
        linarith
      have hlam : Dot n v (mulVec n Hk s) / Dot n s (mulVec n Hk s) ≠ 0 := by
        intro h0
        obtain ⟨i, hi, hvi⟩ := hv
        apply hvi
        rw [hv_eq i hi, h0]
        ring
      have hvy : Dot n v y =
          (Dot n v (mulVec n Hk s) / Dot n s (mulVec n Hk s)) * Dot n y s := by
        rw [Dot_comm n v y, Dot_congr n y y v _ (fun _ _ => rfl) hv_eq, Dot_lin_right]
        ring
      have h1 : Dot n v (mulVec n Hk v)
          - Dot n v (mulVec n Hk s) * Dot n v (mulVec n Hk s) / Dot n s (mulVec n Hk s)
          = 0 := by
        have : Dot n v (mulVec n Hk v)
            - Dot n v (mulVec n Hk s) * Dot n v (mulVec n Hk s) / Dot n s (mulVec n Hk s) =
            (Dot n s (mulVec n Hk s) ^ 2 * Dot n v (mulVec n Hk v)
              + 2 * Dot n s (mulVec n Hk s) * -Dot n v (mulVec n Hk s)
                * Dot n v (mulVec n Hk s)
              + (-Dot n v (mulVec n Hk s)) ^ 2 * Dot n s (mulVec n Hk s)) /
              (Dot n s (mulVec n Hk s) ^ 2) := by
          field_simp
          ring
        rw [this, hzero, zero_div]
      have h2 : 0 < Dot n v y * Dot n v y / Dot n y s := by
        rw [hvy]
        have : (Dot n v (mulVec n Hk s) / Dot n s (mulVec n Hk s)) * Dot n y s *
            ((Dot n v (mulVec n Hk s) / Dot n s (mulVec n Hk s)) * Dot n y s) / Dot n y s =
            (Dot n v (mulVec n Hk s) / Dot n s (mulVec n Hk s)) ^ 2 * Dot n y s := by
          field_simp
          ring
        rw [this]
        exact mul_pos (lt_of_le_of_ne (sq_nonneg _) (pow_ne_zero 2 hlam).symm) hyts
      linarith

/-- C16 (the secant update preserves positive-definiteness): for every
symmetric positive-definite `Hk` and every state in which `updateH` gets to
the rank-two update (none of the skip and reset tests fires), the matrix
`Hk - (Bs Bs^T)/sBs + (y y^T)/yts` that `updateH` returns and stores is
symmetric positive-definite.  (`sqrt` returns non-negative values.) -/
theorem updateH_secant_preserves_spd (sqrt : ℚ → ℚ) (s : OptBaQNewton)
    (Hk : SymmetricMatrix) (k : Nat) (hsqrt : ∀ t, 0 ≤ sqrt t)
    (hspd : IsSPD s.nlp.dim Hk) (h : updateH_reaches_secant sqrt s Hk k) :
    IsSPD s.nlp.dim (updateH sqrt s Hk k).1 ∧
      (updateH sqrt s Hk k).2.Hessian = (updateH sqrt s Hk k).1 ∧
      ∀ i j, i < s.nlp.dim → j < s.nlp.dim →
        (updateH sqrt s Hk k).1 i j =
          Hk i j - mulVec s.nlp.dim Hk (updateH_sk s) i * mulVec s.nlp.dim Hk (updateH_sk s) j
              / Dot s.nlp.dim (updateH_sk s) (mulVec s.nlp.dim Hk (updateH_sk s))
            + updateH_yk s i * updateH_yk s j / Dot s.nlp.dim (updateH_yk s) (updateH_sk s) := by
  obtain ⟨he, hst⟩ := updateH_eq_secant sqrt s Hk k h
  have hpos := updateH_reaches_secant_pos sqrt hsqrt s Hk k h
  refine ⟨?_, hst, ?_⟩
  · rw [he]
    exact updateH_secant_spd s.nlp.dim Hk (updateH_yk s) (updateH_sk s) hspd hpos.1
  · intro i j hi hj
    rw [he, updateH_secant_entry s.nlp.dim Hk _ _ _ _ hspd.1 i j hi hj]
    ring

/-- C17 (secant equation): for every symmetric `Hk` and every state in which
`updateH` gets to the rank-two update, the returned matrix satisfies
`H_new * sk = yk`, with `yk` the difference of the current and the previous
barrier gradient and `sk` the difference of the current and the previous
point.  (`sqrt` returns non-negative values, so that `yts ≠ 0`.) -/
theorem updateH_secant_equation (sqrt : ℚ → ℚ) (s : OptBaQNewton)
    (Hk : SymmetricMatrix) (k : Nat) (hsqrt : ∀ t, 0 ≤ sqrt t)
    (hsym : ∀ i j, i < s.nlp.dim → j < s.nlp.dim → Hk i j = Hk j i)
    (h : updateH_reaches_secant sqrt s Hk k) :
    ∀ i, i < s.nlp.dim →
      mulVec s.nlp.dim (updateH sqrt s Hk k).1 (updateH_sk s) i = updateH_yk s i := by
  intro i hi
  obtain ⟨he, _⟩ := updateH_eq_secant sqrt s Hk k h
  obtain ⟨hyts, hsBs⟩ := updateH_reaches_secant_pos sqrt hsqrt s Hk k h
  rw [he, updateH_secant_mulVec s.nlp.dim Hk _ _ _ _ hsym _ i hi,
    Dot_comm s.nlp.dim (mulVec s.nlp.dim Hk (updateH_sk s)) (updateH_sk s)]
  field_simp

theorem sqrtStandIn_nonneg (t : ℚ) : 0 ≤ sqrtStandIn t := Rat.sqrt_nonneg t

theorem sqrtStandIn_Epsilon : sqrtStandIn Epsilon = 1 / 2 ^ 26 := by
  have : Epsilon = (1 / 2 ^ 26) * (1 / 2 ^ 26) := by norm_num [Epsilon]
  rw [this]
  exact sqrtStandIn_mul_self _ (by norm_num)

theorem matOne_spd : IsSPD 1 matOne := by
  constructor
  · intro i j _ _
    rfl
  · rintro v ⟨i, hi, hv⟩
    have hi0 : i = 0 := by omega
    subst hi0
    have : Dot 1 v (mulVec 1 matOne v) = v 0 * v 0 := by
      simp [Dot, mulVec, matOne]
    rw [this]
    exact mul_self_pos.mpr hv

theorem stateSecant_yk : updateH_yk stateSecant = fun _ => 2 := by
  funext i
  simp [updateH_yk, compute_Barrier_Gradient, forLoop, stateSecant]

theorem stateSecant_sk : updateH_sk stateSecant = fun _ => 1 := by
  funext i
  simp [updateH_sk, stateSecant]

theorem stateSecant_reaches : updateH_reaches_secant sqrtStandIn stateSecant matOne 1 := by
  have hdim : stateSecant.nlp.dim = 1 := rfl
  unfold updateH_reaches_secant
  simp only [stateSecant_yk, stateSecant_sk, hdim, Norm2_standIn_one, sqrtStandIn_Epsilon]
  refine ⟨one_ne_zero, ?_, ?_, ?_⟩
  · norm_num [Dot]
  · norm_num [NormInfinity, forLoop, mulVec, matOne]
  · norm_num [Dot, mulVec, matOne]

/-- Witness for C16: `Hk = (1)`, `sk = (1)`, `yk = (2)`; the update gives the
matrix `(2)`. -/
theorem updateH_secant_preserves_spd_witness :
    ((∀ t, 0 ≤ sqrtStandIn t) ∧ IsSPD stateSecant.nlp.dim matOne ∧
      updateH_reaches_secant sqrtStandIn stateSecant matOne 1) ∧
    IsSPD stateSecant.nlp.dim (updateH sqrtStandIn stateSecant matOne 1).1 :=
  ⟨⟨sqrtStandIn_nonneg, matOne_spd, stateSecant_reaches⟩,
    (updateH_secant_preserves_spd sqrtStandIn stateSecant matOne 1 sqrtStandIn_nonneg
      matOne_spd stateSecant_reaches).1⟩

/-- Witness for C17: `Hk = (1)`, `sk = (1)`, `yk = (2)`. -/
theorem updateH_secant_equation_witness :
    ((∀ t, 0 ≤ sqrtStandIn t) ∧
      updateH_reaches_secant sqrtStandIn stateSecant matOne 1) ∧
    mulVec stateSecant.nlp.dim (updateH sqrtStandIn stateSecant matOne 1).1
      (updateH_sk stateSecant) 0 = updateH_yk stateSecant 0 :=
  ⟨⟨sqrtStandIn_nonneg, stateSecant_reaches⟩,
    updateH_secant_equation sqrtStandIn stateSecant matOne 1 sqrtStandIn_nonneg
      matOne_spd.1 stateSecant_reaches 0 Nat.zero_lt_one⟩

/-! Triangular solves and `computeSearch2`. -/

theorem updateLoop_stable (idx : Nat → Nat) (val : Nat → ColumnVector → ℚ)
    (init : ColumnVector) (a i : Nat) :
    ∀ m, a ≤ m → (∀ k, a ≤ k → k < m → idx k ≠ i) →
      forLoop (fun k w => Function.update w (idx k) (val k w)) m init i =
        forLoop (fun k w => Function.update w (idx k) (val k w)) a init i := by
  intro m
  induction m with
  | zero =>
    intro ham _
    have : a = 0 := Nat.le_zero.mp ham
    rw [this]
  | succ m ih =>
    intro ham h
    rcases Nat.eq_or_lt_of_le ham with heq | hlt
    · rw [heq]
    · have ham' : a ≤ m := Nat.lt_succ_iff.mp hlt
      simp only [forLoop]
      rw [Function.update_noteq (h m ham' (Nat.lt_succ_self m)).symm]
      exact ih ham' (fun k hak hkm => h k hak (Nat.lt_succ_of_lt hkm))

theorem updateLoop_at (idx : Nat → Nat) (val : Nat → ColumnVector → ℚ)
    (init : ColumnVector) (k : Nat) :
    forLoop (fun k w => Function.update w (idx k) (val k w)) (k + 1) init (idx k) =
      val k (forLoop (fun k w => Function.update w (idx k) (val k w)) k init) := by
  simp only [forLoop, Function.update_same]

theorem forwardSolve_spec (n : Nat) (L : SymmetricMatrix) (g : ColumnVector)
    (hdiag : ∀ i, i < n → L i i ≠ 0) (i : Nat) (hi : i < n) :
    ∑ j ∈ Finset.range (i + 1), L i j * forwardSolve n L g j = g i := by
  have hstab : ∀ j, j ≤ i → forwardSolve n L g j =
      forLoop (fun i z => Function.update z i
        ((g i - ∑ j ∈ Finset.range i, L i j * z j) / L i i)) (j + 1) (fun _ => 0) j := by
    intro j hj
    exact updateLoop_stable (fun k => k)
      (fun i z => (g i - ∑ j ∈ Finset.range i, L i j * z j) / L i i) (fun _ => 0) (j + 1) j n
      (by omega) (fun k hk _ => by show k ≠ j; omega)
  have hprev : ∀ j, j < i → forwardSolve n L g j =
      forLoop (fun i z => Function.update z i
        ((g i - ∑ j ∈ Finset.range i, L i j * z j) / L i i)) i (fun _ => 0) j := by
    intro j hj
    exact updateLoop_stable (fun k => k)
      (fun i z => (g i - ∑ j ∈ Finset.range i, L i j * z j) / L i i) (fun _ => 0) i j n
      (by omega) (fun k hk _ => by show k ≠ j; omega)
  have hat := updateLoop_at (fun k => k)
    (fun i z => (g i - ∑ j ∈ Finset.range i, L i j * z j) / L i i) (fun _ => 0) i
  rw [Finset.sum_range_succ]
  rw [Finset.sum_congr rfl (fun j hj => by rw [hprev j (Finset.mem_range.mp hj)])]
  rw [hstab i (le_refl i), hat]
  field_simp [hdiag i hi]

theorem backSolve_spec (n : Nat) (L : SymmetricMatrix) (z : ColumnVector)
    (hdiag : ∀ i, i < n → L i i ≠ 0) (i : Nat) (hi : i < n) :
    ∑ j ∈ Finset.Ico i n, L j i * backSolve n L z j = z i := by
  have hfin : ∀ j, j < n → backSolve n L z j =
      forLoop (fun k w => Function.update w (n - 1 - k)
        ((z (n - 1 - k) - ∑ j ∈ Finset.Ico (n - 1 - k + 1) n, L j (n - 1 - k) * w j)
          / L (n - 1 - k) (n - 1 - k))) (n - 1 - j + 1) (fun _ => 0) j := by
    intro j hj
    exact updateLoop_stable (fun k => n - 1 - k)
      (fun k w => (z (n - 1 - k) - ∑ j ∈ Finset.Ico (n - 1 - k + 1) n,
        L j (n - 1 - k) * w j) / L (n - 1 - k) (n - 1 - k)) (fun _ => 0) (n - 1 - j + 1) j n
      (by omega) (fun k hk hkn => by show n - 1 - k ≠ j; omega)
  have hprev : ∀ j, i < j → j < n → backSolve n L z j =
      forLoop (fun k w => Function.update w (n - 1 - k)
        ((z (n - 1 - k) - ∑ j ∈ Finset.Ico (n - 1 - k + 1) n, L j (n - 1 - k) * w j)
          / L (n - 1 - k) (n - 1 - k))) (n - 1 - i) (fun _ => 0) j := by
    intro j hij hj
    exact updateLoop_stable (fun k => n - 1 - k)
      (fun k w => (z (n - 1 - k) - ∑ j ∈ Finset.Ico (n - 1 - k + 1) n,
        L j (n - 1 - k) * w j) / L (n - 1 - k) (n - 1 - k)) (fun _ => 0) (n - 1 - i) j n
      (by omega) (fun k hk hkn => by show n - 1 - k ≠ j; omega)
  have hat := updateLoop_at (fun k => n - 1 - k)
    (fun k w => (z (n - 1 - k) - ∑ j ∈ Finset.Ico (n - 1 - k + 1) n,
      L j (n - 1 - k) * w j) / L (n - 1 - k) (n - 1 - k)) (fun _ => 0) (n - 1 - i)
  have hidx : n - 1 - (n - 1 - i) = i := by omega
  rw [hidx] at hat
  rw [Finset.sum_eq_sum_Ico_succ_bot hi]
  rw [Finset.sum_congr rfl (fun j hj => by
    rw [hprev j (by have := (Finset.mem_Ico.mp hj).1; omega) (Finset.mem_Ico.mp hj).2])]
  rw [hfin i hi, hat]
  field_simp [hdiag i hi]

theorem cholesky_diag_ne_zero (n : Nat) (H L : SymmetricMatrix) (hspd : IsSPD n H)
    (hlow : ∀ i j, i < n → j < n → i < j → L i j = 0)
    (hLLt : ∀ i j, i < n → j < n → H i j = ∑ k ∈ Finset.range n, L i k * L j k) :
    ∀ i, i < n → L i i ≠ 0 := by
  intro i hi h0
  have htri : Matrix.BlockTriangular
      (fun a b : Fin n => L b a : Matrix (Fin n) (Fin n) ℚ) id := by
    intro a b hab
    exact hlow b a b.2 a.2 hab
  have hdet : Matrix.det (fun a b : Fin n => L b a : Matrix (Fin n) (Fin n) ℚ) = 0 := by
    rw [Matrix.det_of_upperTriangular htri]
    exact Finset.prod_eq_zero (Finset.mem_univ (⟨i, hi⟩ : Fin n)) h0
  obtain ⟨v, hv, hMv⟩ := Matrix.exists_mulVec_eq_zero_iff.mpr hdet
  have hcol : ∀ m, m < n →
      ∑ j ∈ Finset.range n, L j m * (if h : j < n then v ⟨j, h⟩ else 0) = 0 := by
    intro m hm
    rw [Finset.sum_range]
    have h1 := congrFun hMv ⟨m, hm⟩
    simp only [Matrix.mulVec, Matrix.dotProduct, Pi.zero_apply] at h1
    rw [← h1]
    apply Finset.sum_congr rfl
    intro j _
    simp
  have hHv : ∀ a, a < n →
      mulVec n H (fun j => if h : j < n then v ⟨j, h⟩ else 0) a = 0 := by
    intro a ha
    unfold mulVec
    rw [Finset.sum_congr rfl (fun j hj => by rw [hLLt a j ha (Finset.mem_range.mp hj)])]
    simp only [Finset.sum_mul]
    rw [Finset.sum_comm]
    apply Finset.sum_eq_zero
    intro k hk
    rw [Finset.sum_congr rfl (fun j _ => mul_assoc (L a k) (L j k) _), ← Finset.mul_sum,
      hcol k (Finset.mem_range.mp hk), mul_zero]
  have hex : ∃ j, j < n ∧ (fun j => if h : j < n then v ⟨j, h⟩ else 0) j ≠ 0 := by
    by_contra hcon
    push_neg at hcon
    apply hv
    funext j
    have := hcon j j.2
    simpa using this
  have hpos := hspd.2 _ hex
  rw [Dot_comm, Dot_zero_left n _ _ hHv] at hpos
  exact lt_irrefl _ hpos

theorem lowerTri_mulVec (n : Nat) (L : SymmetricMatrix) (z : ColumnVector)
    (hlow : ∀ i j, i < n → j < n → i < j → L i j = 0) (i : Nat) (hi : i < n) :
    mulVec n L z i = ∑ j ∈ Finset.range (i + 1), L i j * z j := by
  unfold mulVec
  symm
  apply Finset.sum_subset
  · intro j hj
    rw [Finset.mem_range] at hj ⊢
    omega
  · intro j hj hnot
    rw [Finset.mem_range] at hj hnot
    rw [hlow i j hi hj (by omega), zero_mul]

theorem lowerTri_transpose_sum (n : Nat) (L : SymmetricMatrix) (w : ColumnVector)
    (hlow : ∀ i j, i < n → j < n → i < j → L i j = 0) (i : Nat) (hi : i < n) :
    ∑ j ∈ Finset.range n, L j i * w j = ∑ j ∈ Finset.Ico i n, L j i * w j := by
  symm
  apply Finset.sum_subset
  · intro j hj
    rw [Finset.mem_Ico] at hj
    exact Finset.mem_range.mpr hj.2
  · intro j hj hnot
    rw [Finset.mem_range] at hj
    rw [Finset.mem_Ico] at hnot
    rw [hlow j i hj hi (by omega), zero_mul]

/-- C20 (search direction): for every symmetric positive-definite `H` and
every `g`, when the factorization returns a lower-triangular `L` with
`L * L^T = H`, the vector `sk = -(L^T)^{-1} (L^{-1} g)` returned by
`computeSearch2` satisfies `H * sk = -g`, and `g . sk < 0` whenever `g` is not
zero. -/
theorem computeSearch2_descent (MCholesky : Nat → SymmetricMatrix → SymmetricMatrix)
    (s : OptBaQNewton) (H : SymmetricMatrix) (g : ColumnVector)
    (hspd : IsSPD s.nlp.dim H)
    (hlow : ∀ i j, i < s.nlp.dim → j < s.nlp.dim → i < j → MCholesky s.nlp.dim H i j = 0)
    (hLLt : ∀ i j, i < s.nlp.dim → j < s.nlp.dim →
      H i j = ∑ k ∈ Finset.range s.nlp.dim,
        MCholesky s.nlp.dim H i k * MCholesky s.nlp.dim H j k) :
    (∀ i, i < s.nlp.dim → mulVec s.nlp.dim H (computeSearch2 MCholesky s H g) i = - g i) ∧
      ((∃ i, i < s.nlp.dim ∧ g i ≠ 0) →
        Dot s.nlp.dim g (computeSearch2 MCholesky s H g) < 0) := by
  have hdiag := cholesky_diag_ne_zero s.nlp.dim H (MCholesky s.nlp.dim H) hspd hlow hLLt
  have hcol : ∀ k, k < s.nlp.dim →
      ∑ j ∈ Finset.range s.nlp.dim,
        MCholesky s.nlp.dim H j k * computeSearch2 MCholesky s H g j =
      - forwardSolve s.nlp.dim (MCholesky s.nlp.dim H) g k := by
    intro k hk
    unfold computeSearch2
    rw [Finset.sum_congr rfl (fun j _ => mul_neg _ _), Finset.sum_neg_distrib,
      lowerTri_transpose_sum s.nlp.dim _ _ hlow k hk,
      backSolve_spec s.nlp.dim _ _ hdiag k hk]
  have hsolve : ∀ i, i < s.nlp.dim →
      mulVec s.nlp.dim H (computeSearch2 MCholesky s H g) i = - g i := by
    intro i hi
    have hfw := forwardSolve_spec s.nlp.dim (MCholesky s.nlp.dim H) g hdiag i hi
    rw [← lowerTri_mulVec s.nlp.dim _ _ hlow i hi] at hfw
    rw [← hfw]
    unfold mulVec
    rw [Finset.sum_congr rfl (fun j hj => by rw [hLLt i j hi (Finset.mem_range.mp hj)])]
    simp only [Finset.sum_mul]
    rw [Finset.sum_comm, ← Finset.sum_neg_distrib]
    apply Finset.sum_congr rfl
    intro k hk
    rw [Finset.sum_congr rfl (fun j _ => mul_assoc (MCholesky s.nlp.dim H i k) _ _),
      ← Finset.mul_sum, hcol k (Finset.mem_range.mp hk), mul_neg]
  refine ⟨hsolve, ?_⟩
  rintro ⟨i0, hi0, hg0⟩
  have hsk : ∃ i, i < s.nlp.dim ∧ computeSearch2 MCholesky s H g i ≠ 0 := by
    by_contra hcon
    push_neg at hcon
    have hz : mulVec s.nlp.dim H (computeSearch2 MCholesky s H g) i0 = 0 := by
      unfold mulVec
      apply Finset.sum_eq_zero
      intro j hj
      rw [hcon j (Finset.mem_range.mp hj), mul_zero]
    rw [hsolve i0 hi0] at hz
    exact hg0 (neg_eq_zero.mp hz)
  have hpos := hspd.2 _ hsk
  have hdot : Dot s.nlp.dim g (computeSearch2 MCholesky s H g) =
      - Dot s.nlp.dim (computeSearch2 MCholesky s H g)
        (mulVec s.nlp.dim H (computeSearch2 MCholesky s H g)) := by
    rw [Dot_comm s.nlp.dim g, Dot_congr s.nlp.dim _ _
      (mulVec s.nlp.dim H (computeSearch2 MCholesky s H g)) (fun i => (-1) * g i + 0 * g i)
      (fun _ _ => rfl) (fun i hi => by rw [hsolve i hi]; ring), Dot_lin_right]
    ring
  rw [hdot]
  linarith

theorem matFourNine_spd : IsSPD 2 matFourNine := by
  constructor
  · intro i j _ _
    unfold matFourNine
    by_cases h : i = j
    · subst h
      rfl
    · rw [if_neg h, if_neg (fun h2 => h h2.symm)]
  · rintro v ⟨i, hi, hv⟩
    have hq : Dot 2 v (mulVec 2 matFourNine v) = 4 * (v 0 * v 0) + 9 * (v 1 * v 1) := by
      simp [Dot, mulVec, matFourNine, Finset.sum_range_succ]
      ring
    rw [hq]
    have h0 := mul_self_nonneg (v 0)
    have h1 := mul_self_nonneg (v 1)
    rcases Nat.lt_succ_iff_lt_or_eq.mp hi with hlt | heq
    · have hi0 : i = 0 := by omega
      subst hi0
      have := mul_self_pos.mpr hv
      linarith
    · subst heq
      have := mul_self_pos.mpr hv
      linarith

theorem choleskyStandIn_matFourNine (i j : Nat) (hi : i < 2) :
    choleskyStandIn 2 matFourNine i j = if i = j then (if i = 0 then 2 else 3) else 0 := by
  unfold choleskyStandIn
  by_cases h : i = j
  · rw [if_pos h, if_pos h]
    rcases Nat.lt_succ_iff_lt_or_eq.mp hi with hlt | heq
    · have hi0 : i = 0 := by omega
      subst hi0
      have : matFourNine 0 0 = 2 * 2 := by norm_num [matFourNine]
      rw [this, if_pos rfl]
      exact sqrtStandIn_mul_self 2 (by norm_num)
    · subst heq
      have : matFourNine 1 1 = 3 * 3 := by norm_num [matFourNine]
      rw [this, if_neg (by decide)]
      exact sqrtStandIn_mul_self 3 (by norm_num)
  · rw [if_neg h, if_neg h]

theorem matFourNine_lower (i j : Nat) (hi : i < stateTwoVars.nlp.dim)
    (_hj : j < stateTwoVars.nlp.dim) (hij : i < j) :
    choleskyStandIn stateTwoVars.nlp.dim matFourNine i j = 0 := by
  have hi2 : i < 2 := hi
  show choleskyStandIn 2 matFourNine i j = 0
  rw [choleskyStandIn_matFourNine i j hi2, if_neg (by omega)]

theorem matFourNine_factor (i j : Nat) (hi : i < stateTwoVars.nlp.dim)
    (hj : j < stateTwoVars.nlp.dim) :
    matFourNine i j = ∑ k ∈ Finset.range stateTwoVars.nlp.dim,
      choleskyStandIn stateTwoVars.nlp.dim matFourNine i k *
        choleskyStandIn stateTwoVars.nlp.dim matFourNine j k := by
  have hi2 : i < 2 := hi
  have hj2 : j < 2 := hj
  show matFourNine i j = ∑ k ∈ Finset.range 2,
      choleskyStandIn 2 matFourNine i k * choleskyStandIn 2 matFourNine j k
  simp only [Finset.sum_range_succ, Finset.sum_range_zero, zero_add,
    choleskyStandIn_matFourNine i _ hi2, choleskyStandIn_matFourNine j _ hj2]
  have hi' : i = 0 ∨ i = 1 := by omega
  have hj' : j = 0 ∨ j = 1 := by omega
  rcases hi' with h | h <;> rcases hj' with h' | h' <;> subst h <;> subst h' <;>
    norm_num [matFourNine]

/-- Witness for C20: `H = diag(4, 9)` with the factor `diag(2, 3)` and
`g = (1, 2)`. -/
theorem computeSearch2_descent_witness :
    IsSPD stateTwoVars.nlp.dim matFourNine ∧
      (∀ i, i < stateTwoVars.nlp.dim →
        mulVec stateTwoVars.nlp.dim matFourNine
          (computeSearch2 choleskyStandIn stateTwoVars matFourNine gradOneTwo) i
          = - gradOneTwo i) ∧
      Dot stateTwoVars.nlp.dim gradOneTwo
        (computeSearch2 choleskyStandIn stateTwoVars matFourNine gradOneTwo) < 0 :=
  have hw := computeSearch2_descent choleskyStandIn stateTwoVars matFourNine gradOneTwo
    matFourNine_spd matFourNine_lower matFourNine_factor
  ⟨matFourNine_spd, hw.1,
    hw.2 ⟨0, by decide, by norm_num [gradOneTwo]⟩⟩

/-! `optimize`. -/

theorem setAsideCurrentVariables_consistent (log : ℚ → Option ℚ) (s : OptBaQNewton) :
    BarrierConsistent log (setAsideCurrentVariables log s) :=
  ⟨rfl, rfl⟩

theorem acceptStep_consistent (log : ℚ → Option ℚ)
    (base : Nat → Int → OptBaQNewton → OptBaQNewton) (iter : Nat) (steptype : Int)
    (s : OptBaQNewton) : BarrierConsistent log (acceptStep log base iter steptype s) :=
  ⟨rfl, rfl⟩

theorem initOpt_consistent (E : Externals) (s : OptBaQNewton) (h : (initOpt E s).1 = 0) :
    BarrierConsistent E.log (initOpt E s).2 := by
  unfold initOpt at h ⊢
  dsimp only at h ⊢
  split_ifs at h ⊢ with hc
  · exact ⟨rfl, rfl⟩
  · exact absurd h hc

theorem optimize_inner_prepare_consistent (E : Externals) (s : OptBaQNewton) (k : Nat) :
    BarrierConsistent E.log (optimize_inner_prepare E s k) :=
  setAsideCurrentVariables_consistent E.log _

theorem ReadsConsistent_append (log : ℚ → Option ℚ)
    (a b : List (ReadSite × OptBaQNewton)) (ha : ReadsConsistent log a)
    (hb : ReadsConsistent log b) : ReadsConsistent log (a ++ b) := by
  intro e he
  rcases List.mem_append.mp he with h | h
  · exact ha e h
  · exact hb e h

theorem ReadsConsistent_nil (log : ℚ → Option ℚ) : ReadsConsistent log [] := by
  intro e he
  exact absurd he (List.not_mem_nil e)

theorem ReadsConsistent_inner_cons (log : ℚ → Option ℚ) (site : ReadSite)
    (s : OptBaQNewton) (rest : List (ReadSite × OptBaQNewton))
    (hsite : site ≠ ReadSite.checkConvg) (hs : BarrierConsistent log s)
    (hrest : ReadsConsistent log rest) : ReadsConsistent log ((site, s) :: rest) := by
  intro e he
  rcases List.mem_cons.mp he with h | h
  · subst h
    exact ⟨fun _ => hs, fun h2 => absurd h2 hsite⟩
  · exact hrest e h

theorem optimize_inner_reads (E : Externals) :
    ∀ (fuel k o : Nat) (s : OptBaQNewton),
      ReadsConsistent E.log (optimize_inner E fuel k o s).2 ∧
      ∀ s1, (optimize_inner E fuel k o s).1 = some s1 → BarrierConsistent E.log s1 := by
  intro fuel
  induction fuel with
  | zero =>
    intro k o s
    exact ⟨ReadsConsistent_nil _, fun s1 h => by simp [optimize_inner] at h⟩
  | succ fuel ih =>
    intro k o s
    have h3 := optimize_inner_prepare_consistent E s k
    have hreads : ReadsConsistent E.log
        [(ReadSite.computeSearch2, optimize_inner_prepare E s k),
          (ReadSite.computeStep, optimize_inner_prepare E s k)] :=
      ReadsConsistent_inner_cons _ _ _ _ (by decide) h3
        (ReadsConsistent_inner_cons _ _ _ _ (by decide) h3 (ReadsConsistent_nil _))
    unfold optimize_inner
    dsimp only
    cases hcs : computeStep E.log E.sqrt E.delta0 fuel (optimize_inner_prepare E s k)
        (computeSearch2 E.MCholesky (optimize_inner_prepare E s k)
          (optimize_inner_prepare E s k).Hessian
          (optimize_inner_prepare E s k).grad_barrier) with
    | none => exact ⟨hreads, fun s1 h => by simp at h⟩
    | some p =>
      obtain ⟨step_type, s4⟩ := p
      dsimp only
      split_ifs with hneg hconv
      · refine ⟨hreads, fun s1 h => ?_⟩
        have hs4 : s4 = s1 := Option.some.inj h
        subst hs4
        rcases computeStep_cases _ _ _ _ _ _ _ _ hcs with ⟨_, hs⟩ | ⟨h0, _⟩
        · rw [hs]
          exact h3
        · rw [h0] at hneg
          exact absurd hneg (by decide)
      · have h5 := acceptStep_consistent E.log E.baseAcceptStep s4.iter_taken step_type s4
        refine ⟨ReadsConsistent_append _ _ _ hreads
          (ReadsConsistent_inner_cons _ _ _ _ (by decide) h5 (ReadsConsistent_nil _)),
          fun s1 h => ?_⟩
        have hs5 : _ = s1 := Option.some.inj h
        rw [← hs5]
        exact h5
      · have h5 := acceptStep_consistent E.log E.baseAcceptStep s4.iter_taken step_type s4
        obtain ⟨ih1, ih2⟩ := ih (k + 1) o
          (acceptStep E.log E.baseAcceptStep s4.iter_taken step_type s4)
        refine ⟨ReadsConsistent_append _ _ _ (ReadsConsistent_append _ _ _ hreads
          (ReadsConsistent_inner_cons _ _ _ _ (by decide) h5 (ReadsConsistent_nil _))) ih1,
          ih2⟩

theorem optimize_outer_reads (E : Externals) :
    ∀ (fuel k : Nat) (s : OptBaQNewton),
      ReadsConsistent E.log (optimize_outer E fuel k s).2 := by
  intro fuel
  induction fuel with
  | zero =>
    intro k s
    exact ReadsConsistent_nil _
  | succ fuel ih =>
    intro k s
    obtain ⟨hin1, hin2⟩ := optimize_inner_reads E fuel 0 (k + 1)
      { s with fprev_outer := s.nlp.fvalue }
    unfold optimize_outer
    dsimp only
    cases hinner : (optimize_inner E fuel 0 (k + 1)
        { s with fprev_outer := s.nlp.fvalue }).1 with
    | none => exact hin1
    | some s1 =>
      dsimp only
      have hcc : ReadsConsistent E.log
          (if checkConvg_reaches_gradient_test (updateBarrierMultiplier s1)
            then [(ReadSite.checkConvg, updateBarrierMultiplier s1)] else []) := by
        split_ifs
        · intro e he
          rw [List.mem_singleton] at he
          subst he
          exact ⟨fun h => absurd rfl h, fun _ => ⟨s1, hin2 s1 hinner, rfl⟩⟩
        · exact ReadsConsistent_nil _
      by_cases hstop : checkConvg E.sqrt (updateBarrierMultiplier s1) ≠ 0
      · rw [if_pos hstop]
        exact ReadsConsistent_append _ _ _ hin1 hcc
      · rw [if_neg hstop]
        exact ReadsConsistent_append _ _ _ (ReadsConsistent_append _ _ _ hin1 hcc)
          (ih (k + 1) (updateBarrierMultiplier s1))

/-- C11 (amended): in every run of `optimize`, each time the stored
`fvalue_barrier` or `grad_barrier` is read by `computeSearch2`, `computeStep`
or `checkInnerConvg`, the stored values are `compute_Barrier_Fvalue` and
`compute_Barrier_Gradient` of the adapter's current value, gradient and point
with the current `mu`; when `checkConvg` reads `grad_barrier`, right after
`updateBarrierMultiplier`, the stored values are those of the current value,
gradient and point with the `mu` before that update. -/
theorem optimize_reads_consistent (E : Externals) (fuel : Nat) (s : OptBaQNewton)
    (e : ReadSite × OptBaQNewton) (he : e ∈ (optimize E fuel s).2) :
    (e.1 ≠ ReadSite.checkConvg → BarrierConsistent E.log e.2) ∧
      (e.1 = ReadSite.checkConvg →
        ∃ s1, BarrierConsistent E.log s1 ∧ e.2 = updateBarrierMultiplier s1) := by
  unfold optimize at he
  dsimp only at he
  split_ifs at he
  · exact optimize_outer_reads E fuel 0 _ e he
  · exact absurd he (List.not_mem_nil e)

theorem optimize_inner_fail (E : Externals) (fuel k o : Nat) (s s4 : OptBaQNewton)
    (hcs : computeStep E.log E.sqrt E.delta0 fuel (optimize_inner_prepare E s k)
      (computeSearch2 E.MCholesky (optimize_inner_prepare E s k)
        (optimize_inner_prepare E s k).Hessian (optimize_inner_prepare E s k).grad_barrier)
      = some (-1, s4)) :
    optimize_inner E (fuel + 1) k o s =
      (some s4, [(ReadSite.computeSearch2, optimize_inner_prepare E s k),
        (ReadSite.computeStep, optimize_inner_prepare E s k)]) := by
  unfold optimize_inner
  dsimp only
  rw [hcs]
  dsimp only
  rw [if_pos (by decide)]

theorem optimize_inner_accept (E : Externals) (fuel k o : Nat) (s s4 : OptBaQNewton)
    (hcs : computeStep E.log E.sqrt E.delta0 fuel (optimize_inner_prepare E s k)
      (computeSearch2 E.MCholesky (optimize_inner_prepare E s k)
        (optimize_inner_prepare E s k).Hessian (optimize_inner_prepare E s k).grad_barrier)
      = some (0, s4))
    (hconv : checkInnerConvg E.sqrt
      (acceptStep E.log E.baseAcceptStep s4.iter_taken 0 s4) o = true) :
    optimize_inner E (fuel + 1) k o s =
      (some (acceptStep E.log E.baseAcceptStep s4.iter_taken 0 s4),
        [(ReadSite.computeSearch2, optimize_inner_prepare E s k),
          (ReadSite.computeStep, optimize_inner_prepare E s k),
          (ReadSite.checkInnerConvg,
            acceptStep E.log E.baseAcceptStep s4.iter_taken 0 s4)]) := by
  unfold optimize_inner
  dsimp only
  rw [hcs]
  dsimp only
  rw [if_neg (by decide), if_pos hconv]
  rfl

theorem optimize_outer_continue (E : Externals) (fuel k : Nat) (s s1 : OptBaQNewton)
    (hin : (optimize_inner E fuel 0 (k + 1) { s with fprev_outer := s.nlp.fvalue }).1
      = some s1)
    (hcc : checkConvg E.sqrt (updateBarrierMultiplier s1) = 0) :
    optimize_outer E (fuel + 1) k s =
      ((optimize_outer E fuel (k + 1) (updateBarrierMultiplier s1)).1,
        ((optimize_inner E fuel 0 (k + 1) { s with fprev_outer := s.nlp.fvalue }).2 ++
          (if checkConvg_reaches_gradient_test (updateBarrierMultiplier s1)
            then [(ReadSite.checkConvg, updateBarrierMultiplier s1)] else [])) ++
          (optimize_outer E fuel (k + 1) (updateBarrierMultiplier s1)).2) := by
  conv_lhs => unfold optimize_outer
  dsimp only
  rw [hin]
  dsimp only
  rw [if_neg (not_not.mpr hcc)]

/-- C12 (amended): for every state with `mu ≥ 1e-12` in which
`deltaf = fprev_outer - f` is exactly `0`, `checkConvg` returns `0`, the
not-converged value; and when the object after the inner loop and
`updateBarrierMultiplier` is such a state, the outer `while` loop of
`optimize` does not stop after that test: it goes on with another outer
iteration from that object. -/
theorem checkConvg_stall_continues (sqrt : ℚ → ℚ) (s : OptBaQNewton) (E : Externals)
    (fuel k : Nat) (s0 s1 : OptBaQNewton)
    (hmu : ¬ s.mu < 1.0e-12) (hd : s.fprev_outer - s.nlp.fvalue = 0)
    (hin : (optimize_inner E fuel 0 (k + 1) { s0 with fprev_outer := s0.nlp.fvalue }).1
      = some s1)
    (hmu1 : ¬ (updateBarrierMultiplier s1).mu < 1.0e-12)
    (hd1 : (updateBarrierMultiplier s1).fprev_outer
      - (updateBarrierMultiplier s1).nlp.fvalue = 0) :
    checkConvg sqrt s = 0 ∧
      checkConvg E.sqrt (updateBarrierMultiplier s1) = 0 ∧
      (optimize_outer E (fuel + 1) k s0).1 =
        (optimize_outer E fuel (k + 1) (updateBarrierMultiplier s1)).1 := by
  have hgen : ∀ (sq : ℚ → ℚ) (t : OptBaQNewton), ¬ t.mu < 1.0e-12 →
      t.fprev_outer - t.nlp.fvalue = 0 → checkConvg sq t = 0 := by
    intro sq t h1 h2
    unfold checkConvg
    rw [if_neg h1]
    dsimp only
    rw [if_pos (by rw [h2]; norm_num)]
  refine ⟨hgen sqrt s hmu hd, hgen E.sqrt _ hmu1 hd1, ?_⟩
  rw [optimize_outer_continue E fuel k s0 s1 hin (hgen E.sqrt _ hmu1 hd1)]

theorem stateRunStallAside_dim : stateRunStallAside.nlp.dim = 1 := rfl

theorem stateRunStallAside_grad0 : stateRunStallAside.grad_barrier 0 = 4 := by
  simp [stateRunStallAside, optimize_inner_prepare, setAsideCurrentVariables,
    compute_Barrier_Gradient, forLoop, updateH, stateRunStall, externalsStandIn]

theorem stateRunStallAside_H00 : stateRunStallAside.Hessian 0 0 = 1 := by
  have hg : compute_Barrier_Gradient
      { stateRunStall with fprev_outer := stateRunStall.nlp.fvalue }
      stateRunStall.nlp.grad stateRunStall.nlp.xc 0 = 4 := by
    simp [compute_Barrier_Gradient, forLoop, stateRunStall]
  have hd : stateRunStall.nlp.dim = 1 := rfl
  simp only [stateRunStallAside, optimize_inner_prepare, setAsideCurrentVariables, updateH,
    if_true, diagonal, updateH_restart_D, externalsStandIn, hd, Norm2_standIn_one, forLoop, hg]
  norm_num [stateRunStall]

theorem stateRunStallAside_search0 :
    computeSearch2 choleskyStandIn stateRunStallAside stateRunStallAside.Hessian
      stateRunStallAside.grad_barrier 0 = -4 := by
  simp only [computeSearch2, stateRunStallAside_dim, backSolve, forwardSolve, forLoop,
    choleskyStandIn, stateRunStallAside_H00, stateRunStallAside_grad0, sqrtStandIn_one]
  norm_num [stateRunStallAside_H00, sqrtStandIn_one]

theorem stateRunStallAside_alpha :
    computeStep_alpha 0 stateRunStallAside
      (computeSearch2 choleskyStandIn stateRunStallAside stateRunStallAside.Hessian
        stateRunStallAside.grad_barrier) = 1 := by
  have hx : stateRunStallAside.nlp.xc 0 = 4 := rfl
  have hl : stateRunStallAside.nlp.lower 0 = -FLT_MAX := rfl
  have hu : stateRunStallAside.nlp.upper 0 = FLT_MAX := rfl
  have hmu : stateRunStallAside.mu = 1 / 10 := rfl
  simp only [computeStep_alpha, computeStep_alpha_b, computeMaxStep, computeMaxStep_body,
    computeStep_inner_gp, Dot, forLoop, stateRunStallAside_dim, stateRunStallAside_search0,
    stateRunStallAside_grad0, hx, hl, hu, hmu, Finset.sum_range_one]
  norm_num [FLT_MAX]

theorem stateRunStallAside_fplus :
    computeStep_fplus logStandIn stateRunStallAside
      (computeSearch2 choleskyStandIn stateRunStallAside stateRunStallAside.Hessian
        stateRunStallAside.grad_barrier) 1 = some 18 := by
  have hl : stateRunStallAside.nlp.lower 0 = -FLT_MAX := rfl
  have hu : stateRunStallAside.nlp.upper 0 = FLT_MAX := rfl
  have hx : stateRunStallAside.nlp.xc 0 = 4 := rfl
  have hf : stateRunStallAside.nlp.objF = fun x => 2 * (x 0 - 3) * (x 0 - 3) := rfl
  simp only [computeStep_fplus, compute_Barrier_Fvalue, computeStep_xplus, forLoop,
    stateRunStallAside_dim, stateRunStallAside_search0, hl, hu, hx, hf]
  norm_num

theorem stateRunStallAside_kappa :
    scalarNewton_kappa stateRunStallAside.mu 2
      (computeStep_inner_gp stateRunStallAside
        (computeSearch2 choleskyStandIn stateRunStallAside stateRunStallAside.Hessian
          stateRunStallAside.grad_barrier)) 18
      (computeStep_inner_gpnew stateRunStallAside
        (computeSearch2 choleskyStandIn stateRunStallAside stateRunStallAside.Hessian
          stateRunStallAside.grad_barrier) 1) 1 = 0 := by
  have hl : stateRunStallAside.nlp.lower 0 = -FLT_MAX := rfl
  have hu : stateRunStallAside.nlp.upper 0 = FLT_MAX := rfl
  have hx : stateRunStallAside.nlp.xc 0 = 4 := rfl
  have hg : stateRunStallAside.nlp.objG = fun x _ => 4 * (x 0 - 3) := rfl
  have hmu : stateRunStallAside.mu = 1 / 10 := rfl
  simp only [scalarNewton_kappa, computeStep_inner_gp, computeStep_inner_gpnew,
    compute_Barrier_Gradient, computeStep_xplus, Dot, forLoop, Finset.sum_range_one,
    stateRunStallAside_dim, stateRunStallAside_search0, stateRunStallAside_grad0,
    hl, hu, hx, hg, hmu]
  norm_num

theorem stateRunStallAside_computeStep :
    computeStep externalsStandIn.log externalsStandIn.sqrt externalsStandIn.delta0 0
      stateRunStallAside
      (computeSearch2 externalsStandIn.MCholesky stateRunStallAside
        stateRunStallAside.Hessian stateRunStallAside.grad_barrier)
      = some (-1, stateRunStallAside) := by
  show computeStep logStandIn sqrtStandIn 0 0 stateRunStallAside
      (computeSearch2 choleskyStandIn stateRunStallAside
        stateRunStallAside.Hessian stateRunStallAside.grad_barrier)
      = some (-1, stateRunStallAside)
  have hfb : stateRunStallAside.fvalue_barrier = some 2 := by
    simp [stateRunStallAside, optimize_inner_prepare, setAsideCurrentVariables,
      compute_Barrier_Fvalue, forLoop, updateH, stateRunStall, externalsStandIn]
  have hnot : ¬ (18 : ℚ) < 2 + computeStep_initslope stateRunStallAside
      * stateRunStallAside.ftol := by
    have hft : stateRunStallAside.ftol = 1 / 10000 := rfl
    simp only [computeStep_initslope, Dot, Finset.sum_range_one, stateRunStallAside_dim,
      stateRunStallAside_grad0, hft]
    norm_num
  unfold computeStep
  simp only [stateRunStallAside_alpha, stateRunStallAside_fplus, hfb, if_neg hnot]
  simp [scalarNewton, stateRunStallAside_kappa, computeStep_interpolate]

theorem updateBarrierMultiplier_mu_of_feasible (s : OptBaQNewton) (hmu : 0 < s.mu)
    (hf : Feasible s.nlp s.nlp.xc) : (updateBarrierMultiplier s).mu = s.mu / 10 := by
  show s.mu / min (updateBarrierMultiplier_upper s (updateBarrierMultiplier_lower s 10)) 10
    = s.mu / 10
  rw [updateBarrierMultiplier_lower_feasible s hmu hf,
    updateBarrierMultiplier_upper_feasible s hmu hf, min_self]

theorem stateRunStall_inner :
    optimize_inner externalsStandIn 1 0 1
        { stateRunStall with fprev_outer := stateRunStall.nlp.fvalue }
      = (some stateRunStallAside,
          [(ReadSite.computeSearch2, stateRunStallAside),
            (ReadSite.computeStep, stateRunStallAside)]) :=
  optimize_inner_fail externalsStandIn 0 0 1 _ stateRunStallAside
    stateRunStallAside_computeStep

/-- Witness for C12 (amended): for the objective `2 (x - 3)^2` without bounds,
from the point `4`, the line search of the first inner pass fails, the inner
loop ends with the value unchanged (`deltaf = 0`), `mu` becomes `1/100`, and
the outer loop goes on. -/
theorem checkConvg_stall_continues_witness :
    ((optimize_inner externalsStandIn 1 0 1
          { stateRunStall with fprev_outer := stateRunStall.nlp.fvalue }).1
        = some stateRunStallAside ∧
      ¬ (updateBarrierMultiplier stateRunStallAside).mu < 1.0e-12 ∧
      (updateBarrierMultiplier stateRunStallAside).fprev_outer
        - (updateBarrierMultiplier stateRunStallAside).nlp.fvalue = 0) ∧
    (checkConvg sqrtStandIn stateStall = 0 ∧
      checkConvg externalsStandIn.sqrt (updateBarrierMultiplier stateRunStallAside) = 0 ∧
      (optimize_outer externalsStandIn 2 0 stateRunStall).1 =
        (optimize_outer externalsStandIn 1 1
          (updateBarrierMultiplier stateRunStallAside)).1) :=
  have hin : (optimize_inner externalsStandIn 1 0 1
      { stateRunStall with fprev_outer := stateRunStall.nlp.fvalue }).1
      = some stateRunStallAside := by
    rw [stateRunStall_inner]
  have hmu1 : ¬ (updateBarrierMultiplier stateRunStallAside).mu < 1.0e-12 := by
    have hf : Feasible stateRunStallAside.nlp stateRunStallAside.nlp.xc := by
      intro i _
      exact ⟨fun h => absurd rfl h, fun h => absurd rfl h⟩
    have hm : stateRunStallAside.mu = 1 / 10 := rfl
    rw [updateBarrierMultiplier_mu_of_feasible stateRunStallAside
      (by rw [hm]; norm_num) hf, hm]
    norm_num
  have hd1 : (updateBarrierMultiplier stateRunStallAside).fprev_outer
      - (updateBarrierMultiplier stateRunStallAside).nlp.fvalue = 0 := by
    show stateRunStallAside.fprev_outer - stateRunStallAside.nlp.fvalue = 0
    show (2 : ℚ) - 2 = 0
    norm_num
  ⟨⟨hin, hmu1, hd1⟩,
    checkConvg_stall_continues sqrtStandIn stateStall externalsStandIn 1 0 stateRunStall
      stateRunStallAside (by norm_num [stateStall]) (by norm_num [stateStall])
      hin hmu1 hd1⟩

theorem stateRunBoxAside_dim : stateRunBoxAside.nlp.dim = 1 := rfl

theorem stateRunBoxAside_mu : stateRunBoxAside.mu = 1 / 10 := by
  show (1.0e-1 : ℚ) = 1 / 10
  norm_num

theorem stateRunBoxAside_grad0 : stateRunBoxAside.grad_barrier 0 = 1 := by
  norm_num [stateRunBoxAside, optimize_inner_prepare, setAsideCurrentVariables,
    compute_Barrier_Gradient, forLoop, updateH, stateRunBoxInit, initOpt, stateRunBox,
    externalsStandIn, FLT_MAX]

theorem stateRunBoxAside_fb : stateRunBoxAside.fvalue_barrier = some (37 / 10) := by
  norm_num [stateRunBoxAside, optimize_inner_prepare, setAsideCurrentVariables,
    compute_Barrier_Fvalue, forLoop, updateH, stateRunBoxInit, initOpt, stateRunBox,
    externalsStandIn, FLT_MAX, logStandIn]

theorem stateRunBoxAside_H00 : stateRunBoxAside.Hessian 0 0 = 1 / 4 := by
  have hg : compute_Barrier_Gradient
      { stateRunBoxInit with fprev_outer := stateRunBoxInit.nlp.fvalue }
      stateRunBoxInit.nlp.grad stateRunBoxInit.nlp.xc 0 = 1 := by
    norm_num [compute_Barrier_Gradient, forLoop, stateRunBoxInit, initOpt, stateRunBox,
      externalsStandIn, FLT_MAX]
  have hd : stateRunBoxInit.nlp.dim = 1 := rfl
  have hx : stateRunBoxInit.nlp.xc 0 = 4 := rfl
  simp only [stateRunBoxAside, optimize_inner_prepare, setAsideCurrentVariables, updateH,
    if_true, diagonal, updateH_restart_D, externalsStandIn, hd, Norm2_standIn_one, forLoop,
    hg, hx]
  norm_num

theorem sqrtStandIn_quarter : sqrtStandIn (1 / 4) = 1 / 2 := by
  rw [show (1 / 4 : ℚ) = (1 / 2) * (1 / 2) by norm_num]
  exact sqrtStandIn_mul_self _ (by norm_num)

theorem dirRunBox_0 : dirRunBox 0 = -4 := by
  simp only [dirRunBox, computeSearch2, stateRunBoxAside_dim, backSolve, forwardSolve,
    forLoop, choleskyStandIn, stateRunBoxAside_H00, stateRunBoxAside_grad0,
    sqrtStandIn_quarter]
  norm_num [stateRunBoxAside_H00, sqrtStandIn_quarter]

theorem stateRunBoxAside_alpha : computeStep_alpha 0 stateRunBoxAside dirRunBox = 19 / 40 := by
  have hx : stateRunBoxAside.nlp.xc 0 = 4 := rfl
  have hl : stateRunBoxAside.nlp.lower 0 = 2 := rfl
  have hu : stateRunBoxAside.nlp.upper 0 = 5 := rfl
  simp only [computeStep_alpha, computeStep_alpha_b, computeMaxStep, computeMaxStep_body,
    computeStep_inner_gp, Dot, forLoop, stateRunBoxAside_dim, dirRunBox_0,
    stateRunBoxAside_grad0, hx, hl, hu, stateRunBoxAside_mu, Finset.sum_range_one]
  norm_num [FLT_MAX]

theorem stateRunBoxAside_fplus :
    computeStep_fplus logStandIn stateRunBoxAside dirRunBox (19 / 40) = some (379 / 200) := by
  have hl : stateRunBoxAside.nlp.lower 0 = 2 := rfl
  have hu : stateRunBoxAside.nlp.upper 0 = 5 := rfl
  have hx : stateRunBoxAside.nlp.xc 0 = 4 := rfl
  have hf : stateRunBoxAside.nlp.objF = fun x => 19 / 20 * x 0 := rfl
  simp only [computeStep_fplus, compute_Barrier_Fvalue, computeStep_xplus, forLoop,
    stateRunBoxAside_dim, dirRunBox_0, hl, hu, hx, hf, stateRunBoxAside_mu]
  norm_num [FLT_MAX, logStandIn]

theorem stateRunBoxAside_computeStep :
    computeStep externalsStandIn.log externalsStandIn.sqrt externalsStandIn.delta0 0
      stateRunBoxAside
      (computeSearch2 externalsStandIn.MCholesky stateRunBoxAside
        stateRunBoxAside.Hessian stateRunBoxAside.grad_barrier)
      = some (0, stateRunBoxStep) := by
  show computeStep logStandIn sqrtStandIn 0 0 stateRunBoxAside dirRunBox
      = some (0, stateRunBoxStep)
  have hft : stateRunBoxAside.ftol = 1 / 10000 := rfl
  unfold computeStep stateRunBoxStep
  simp only [stateRunBoxAside_alpha, stateRunBoxAside_fplus, stateRunBoxAside_fb]
  rw [if_pos]
  simp only [computeStep_initslope, Dot, Finset.sum_range_one, stateRunBoxAside_dim,
    stateRunBoxAside_grad0, hft]
  norm_num

theorem stateRunBoxAccepted_dim : stateRunBoxAccepted.nlp.dim = 1 := rfl

theorem stateRunBoxAccepted_x0 : stateRunBoxAccepted.nlp.xc 0 = 21 / 10 := by
  show stateRunBoxAside.nlp.xc 0 + dirRunBox 0 * (19 / 40) = 21 / 10
  rw [dirRunBox_0]
  show (4 : ℚ) + -4 * (19 / 40) = 21 / 10
  norm_num

theorem stateRunBoxAccepted_mu : stateRunBoxAccepted.mu = 1 / 10 := stateRunBoxAside_mu

theorem stateRunBoxAccepted_grad0 : stateRunBoxAccepted.grad_barrier 0 = -9 / 580 := by
  have hl : stateRunBoxAccepted.nlp.lower 0 = 2 := rfl
  have hu : stateRunBoxAccepted.nlp.upper 0 = 5 := rfl
  have hg : stateRunBoxAccepted.nlp.grad 0 = 19 / 20 := rfl
  have h : stateRunBoxAccepted.grad_barrier 0 =
      compute_Barrier_Gradient stateRunBoxAccepted stateRunBoxAccepted.nlp.grad
        stateRunBoxAccepted.nlp.xc 0 := rfl
  rw [h]
  simp only [compute_Barrier_Gradient, forLoop, stateRunBoxAccepted_dim, Function.update_same,
    hl, hu, hg, stateRunBoxAccepted_x0, stateRunBoxAccepted_mu]
  norm_num [FLT_MAX]

theorem stateRunBoxAccepted_converged :
    checkInnerConvg sqrtStandIn stateRunBoxAccepted 1 = true := by
  simp only [checkInnerConvg, stateRunBoxAccepted_dim, Norm2_standIn_one,
    stateRunBoxAccepted_x0, stateRunBoxAccepted_grad0]
  norm_num [abs_of_pos, abs_of_neg]

theorem stateRunBox_inner :
    optimize_inner externalsStandIn 1 0 1
        { stateRunBoxInit with fprev_outer := stateRunBoxInit.nlp.fvalue }
      = (some stateRunBoxAccepted,
          [(ReadSite.computeSearch2, stateRunBoxAside),
            (ReadSite.computeStep, stateRunBoxAside),
            (ReadSite.checkInnerConvg, stateRunBoxAccepted)]) :=
  optimize_inner_accept externalsStandIn 0 0 1 _ stateRunBoxStep
    stateRunBoxAside_computeStep stateRunBoxAccepted_converged

theorem stateRunBoxAccepted_feasible :
    Feasible stateRunBoxAccepted.nlp stateRunBoxAccepted.nlp.xc := by
  intro i hi
  have hi0 : i = 0 := by
    have : i < 1 := hi
    omega
  subst hi0
  have hl : stateRunBoxAccepted.nlp.lower 0 = 2 := rfl
  have hu : stateRunBoxAccepted.nlp.upper 0 = 5 := rfl
  rw [hl, hu, stateRunBoxAccepted_x0]
  constructor <;> intro _ <;> norm_num

theorem stateRunBoxUpdated_mu :
    (updateBarrierMultiplier stateRunBoxAccepted).mu = 1 / 100 := by
  rw [updateBarrierMultiplier_mu_of_feasible stateRunBoxAccepted
    (by rw [stateRunBoxAccepted_mu]; norm_num) stateRunBoxAccepted_feasible,
    stateRunBoxAccepted_mu]
  norm_num

theorem stateRunBoxUpdated_reaches :
    checkConvg_reaches_gradient_test (updateBarrierMultiplier stateRunBoxAccepted) := by
  have hfo : (updateBarrierMultiplier stateRunBoxAccepted).fprev_outer = 19 / 5 := rfl
  have hf : (updateBarrierMultiplier stateRunBoxAccepted).nlp.fvalue =
      19 / 20 * stateRunBoxAccepted.nlp.xc 0 := rfl
  have hfp : (updateBarrierMultiplier stateRunBoxAccepted).fprev = 19 / 5 := rfl
  unfold checkConvg_reaches_gradient_test
  rw [stateRunBoxUpdated_mu, hfo, hf, hfp, stateRunBoxAccepted_x0]
  norm_num [abs_of_pos]

theorem stateRunBoxUpdated_checkConvg :
    checkConvg sqrtStandIn (updateBarrierMultiplier stateRunBoxAccepted) = 0 := by
  have hfo : (updateBarrierMultiplier stateRunBoxAccepted).fprev_outer = 19 / 5 := rfl
  have hf : (updateBarrierMultiplier stateRunBoxAccepted).nlp.fvalue =
      19 / 20 * stateRunBoxAccepted.nlp.xc 0 := rfl
  have hfp : (updateBarrierMultiplier stateRunBoxAccepted).fprev = 19 / 5 := rfl
  have hd : (updateBarrierMultiplier stateRunBoxAccepted).nlp.dim = 1 := rfl
  have hx : (updateBarrierMultiplier stateRunBoxAccepted).nlp.xc 0 = 21 / 10 :=
    stateRunBoxAccepted_x0
  have hg : (updateBarrierMultiplier stateRunBoxAccepted).grad_barrier 0 = -9 / 580 :=
    stateRunBoxAccepted_grad0
  have hl : (updateBarrierMultiplier stateRunBoxAccepted).nlp.lower 0 = 2 := rfl
  have hu : (updateBarrierMultiplier stateRunBoxAccepted).nlp.upper 0 = 5 := rfl
  simp only [checkConvg, checkConvg_q2, forLoop, stateRunBoxUpdated_mu, hfo, hf, hfp, hd,
    Norm2_standIn_one, hx, hg, hl, hu, stateRunBoxAccepted_x0]
  norm_num [abs_of_pos, abs_of_neg, FLT_MAX]

theorem stateRunBoxUpdated_not_consistent :
    ¬ BarrierConsistent logStandIn (updateBarrierMultiplier stateRunBoxAccepted) := by
  rintro ⟨_, h⟩
  have h0 := congrFun h 0
  have hg : (updateBarrierMultiplier stateRunBoxAccepted).grad_barrier 0 = -9 / 580 :=
    stateRunBoxAccepted_grad0
  have hd : (updateBarrierMultiplier stateRunBoxAccepted).nlp.dim = 1 := rfl
  have hx : (updateBarrierMultiplier stateRunBoxAccepted).nlp.xc 0 = 21 / 10 :=
    stateRunBoxAccepted_x0
  have hl : (updateBarrierMultiplier stateRunBoxAccepted).nlp.lower 0 = 2 := rfl
  have hu : (updateBarrierMultiplier stateRunBoxAccepted).nlp.upper 0 = 5 := rfl
  have hgr : (updateBarrierMultiplier stateRunBoxAccepted).nlp.grad 0 = 19 / 20 := rfl
  rw [hg] at h0
  simp only [compute_Barrier_Gradient, forLoop, hd, Function.update_same, hl, hu, hgr, hx,
    stateRunBoxUpdated_mu] at h0
  norm_num [FLT_MAX] at h0

theorem stateRunBox_checkConvg_read :
    (ReadSite.checkConvg, updateBarrierMultiplier stateRunBoxAccepted) ∈
      (optimize externalsStandIn 2 stateRunBox).2 := by
  have hopt : optimize externalsStandIn 2 stateRunBox =
      optimize_outer externalsStandIn 2 0 stateRunBoxInit := by
    unfold optimize
    dsimp only
    rw [if_pos (by simp [initOpt, externalsStandIn])]
    rfl
  have hin : (optimize_inner externalsStandIn 1 0 1
      { stateRunBoxInit with fprev_outer := stateRunBoxInit.nlp.fvalue }).1
      = some stateRunBoxAccepted := by
    rw [stateRunBox_inner]
  rw [hopt, optimize_outer_continue externalsStandIn 1 0 stateRunBoxInit stateRunBoxAccepted
    hin stateRunBoxUpdated_checkConvg]
  dsimp only
  rw [if_pos stateRunBoxUpdated_reaches]
  simp

/-- C11, as stated, fails: minimizing `(19/20) x` on `[2, 5]` from `x = 4`,
the first outer iteration accepts the point `21/10` with `mu = 1/10`,
`updateBarrierMultiplier` sets `mu = 1/100`, and `checkConvg` then reads the
stored `grad_barrier = -9/580`, which was computed with `mu = 1/10` and is
not `compute_Barrier_Gradient` of the current gradient and point with the
current `mu`. -/
theorem optimize_checkConvg_reads_stale :
    ¬ (∀ e, e ∈ (optimize externalsStandIn 2 stateRunBox).2 →
        BarrierConsistent externalsStandIn.log e.2) := by
  intro h
  exact stateRunBoxUpdated_not_consistent (h _ stateRunBox_checkConvg_read)

/-- Witness for C11 (amended): the read by `checkConvg` in the run from
`stateRunBox`. -/
theorem optimize_reads_consistent_witness :
    (ReadSite.checkConvg, updateBarrierMultiplier stateRunBoxAccepted) ∈
        (optimize externalsStandIn 2 stateRunBox).2 ∧
      ∃ s1, BarrierConsistent externalsStandIn.log s1 ∧
        updateBarrierMultiplier stateRunBoxAccepted = updateBarrierMultiplier s1 :=
  ⟨stateRunBox_checkConvg_read,
    (optimize_reads_consistent externalsStandIn 2 stateRunBox _
      stateRunBox_checkConvg_read).2 rfl⟩

/-! The first trial step of `computeStep`. -/

/-- The value returned by `computeMaxStep` is never negative, whatever the
local `delta` held before the loop: `gamma` starts at `FLT_MAX` and every
`delta` is clamped at zero before it enters the minimum. -/
theorem computeMaxStep_nonneg (delta0 : ℚ) (s : OptBaQNewton) (sk : ColumnVector) :
    0 ≤ computeMaxStep delta0 s sk := by
  unfold computeMaxStep
  refine forLoop_invariant (fun st : ℚ × ℚ => 0 ≤ st.1) _ _ _ ?_ ?_
  · show (0 : ℚ) ≤ FLT_MAX
    norm_num [FLT_MAX]
  · intro i st _ h
    have key : ∀ d : ℚ, 0 ≤ (if d < 0 then 0 else d) := by
      intro d
      split_ifs with hd
      · exact le_refl _
      · exact not_lt.mp hd
    simp only [computeMaxStep_body]
    exact le_min h (key _)

/-- The value returned by `computeMaxStep` is at most `FLT_MAX`. -/
theorem computeMaxStep_le_FLT_MAX (delta0 : ℚ) (s : OptBaQNewton) (sk : ColumnVector) :
    computeMaxStep delta0 s sk ≤ FLT_MAX := by
  unfold computeMaxStep
  refine forLoop_invariant (fun st : ℚ × ℚ => st.1 ≤ FLT_MAX) _ _ _ (le_refl _) ?_
  intro i st _ h
  simp only [computeMaxStep_body]
  exact min_le_of_left_le h

/-- The value returned by `computeMaxStep` is at most the clamped limit of
every coordinate with a non-zero component, whatever `delta` held before the
loop. -/
theorem computeMaxStep_le_limit (delta0 : ℚ) (s : OptBaQNewton) (sk : ColumnVector)
    (i : Nat) (hi : i < s.nlp.dim) :
    (0 < sk i → computeMaxStep delta0 s sk ≤ max 0 ((s.nlp.upper i - s.nlp.xc i) / sk i)) ∧
    (sk i < 0 → computeMaxStep delta0 s sk ≤ max 0 ((s.nlp.lower i - s.nlp.xc i) / sk i)) := by
  unfold computeMaxStep
  suffices h : ∀ n, i < n →
      (0 < sk i → (forLoop (computeMaxStep_body s sk) n (FLT_MAX, delta0)).1 ≤
        max 0 ((s.nlp.upper i - s.nlp.xc i) / sk i)) ∧
      (sk i < 0 → (forLoop (computeMaxStep_body s sk) n (FLT_MAX, delta0)).1 ≤
        max 0 ((s.nlp.lower i - s.nlp.xc i) / sk i)) from h _ hi
  intro n
  induction n with
  | zero => intro h; exact absurd h (Nat.not_lt_zero i)
  | succ k ih =>
    intro hik
    rcases Nat.lt_succ_iff_lt_or_eq.mp hik with hlt | heq
    · obtain ⟨ih1, ih2⟩ := ih hlt
      simp only [forLoop, computeMaxStep_body]
      exact ⟨fun h => min_le_of_left_le (ih1 h), fun h => min_le_of_left_le (ih2 h)⟩
    · subst heq
      simp only [forLoop, computeMaxStep_body]
      constructor
      · intro hpos
        refine min_le_of_right_le ?_
        rw [if_pos hpos]
        split_ifs with hd
        · exact le_max_left _ _
        · exact le_max_right _ _
      · intro hneg
        refine min_le_of_right_le ?_
        rw [if_neg (not_lt.mpr hneg.le), if_pos hneg]
        split_ifs with hd
        · exact le_max_left _ _
        · exact le_max_right _ _

/-- At a point strictly inside all bounds the value of the spec for
`computeMaxStep` is positive. -/
theorem maxStepSpec_pos (s : OptBaQNewton) (sk : ColumnVector)
    (hin : InsideAllBounds s.nlp s.nlp.xc) :
    ∀ n, n ≤ s.nlp.dim → 0 < maxStepSpec s sk n := by
  intro n
  induction n with
  | zero =>
    intro _
    show (0 : ℚ) < FLT_MAX
    norm_num [FLT_MAX]
  | succ k ih =>
    intro hk
    have ihk := ih (Nat.le_of_succ_le hk)
    obtain ⟨hl, hu⟩ := hin k hk
    simp only [maxStepSpec]
    by_cases hpos : sk k > 0
    · rw [if_pos hpos]
      exact lt_min ihk (lt_max_of_lt_right (div_pos (sub_pos.mpr hu) hpos))
    · rw [if_neg hpos]
      by_cases hneg : sk k < 0
      · rw [if_pos hneg]
        exact lt_min ihk (lt_max_of_lt_right (div_pos_of_neg_of_neg (sub_neg.mpr hl) hneg))
      · rw [if_neg hneg]
        exact ihk

/-- The range of the bound `alpha_b` of `computeStep` for a non-negative
`alpha_bar`: below `FLT_MAX` it is not negative, strictly between `0` and
`alpha_bar` when `alpha_bar` is positive and `0` when `alpha_bar` is `0`;
otherwise it is `FLT_MAX`. -/
theorem computeStep_alpha_b_range (s : OptBaQNewton) (A g : ℚ) (h0 : 0 ≤ A) :
    (A < FLT_MAX →
      0 ≤ computeStep_alpha_b s A g ∧
      (0 < A → 0 < computeStep_alpha_b s A g ∧ computeStep_alpha_b s A g < A) ∧
      (A = 0 → computeStep_alpha_b s A g = 0)) ∧
    (¬ A < FLT_MAX → computeStep_alpha_b s A g = FLT_MAX) := by
  unfold computeStep_alpha_b
  dsimp only
  generalize s.mu / g = m
  constructor
  · intro hA
    by_cases hp : A + m < 0
    · rw [if_pos (⟨hA, hp⟩ : A < FLT_MAX ∧ A + m < 0),
        max_eq_right (by linarith : A + m ≤ 0.5 * A)]
      have e : (0.5 : ℚ) * A = A / 2 := by norm_num; ring
      rw [e]
      refine ⟨by linarith, fun hpos => ⟨by linarith, by linarith⟩, fun hz => ?_⟩
      rw [hz]; norm_num
    · rw [if_neg (fun h : A < FLT_MAX ∧ A + m < 0 => hp h.2),
        if_pos (⟨hA, not_lt.mp hp⟩ : A < FLT_MAX ∧ A + m ≥ 0)]
      have e : (0.95 : ℚ) * A = 19 * A / 20 := by norm_num; ring
      rw [e]
      refine ⟨by linarith, fun hpos => ⟨by linarith, by linarith⟩, fun hz => ?_⟩
      rw [hz]; norm_num
  · intro hA
    rw [if_neg (fun h : A < FLT_MAX ∧ A + m < 0 => hA h.1),
      if_neg (fun h : A < FLT_MAX ∧ A + m ≥ 0 => hA h.1)]

/-- The range of the first trial step `alpha = (alpha_b < alpha_u) ? alpha_b :
alpha_u` of `computeStep` in terms of `alpha_bar = computeMaxStep(pk)`: it is
never negative, it lies strictly between `0` and `alpha_bar` when `alpha_bar`
is positive, it is `0` when `alpha_bar` is `0`, and it is `1` when `alpha_bar`
is `FLT_MAX`. -/
theorem computeStep_alpha_range (delta0 : ℚ) (s : OptBaQNewton) (pk : ColumnVector) :
    0 ≤ computeStep_alpha delta0 s pk ∧
    (0 < computeMaxStep delta0 s pk →
      0 < computeStep_alpha delta0 s pk ∧
        computeStep_alpha delta0 s pk < computeMaxStep delta0 s pk) ∧
    (computeMaxStep delta0 s pk = 0 → computeStep_alpha delta0 s pk = 0) ∧
    (computeMaxStep delta0 s pk = FLT_MAX → computeStep_alpha delta0 s pk = 1) := by
  have h0 := computeMaxStep_nonneg delta0 s pk
  have hF := computeMaxStep_le_FLT_MAX delta0 s pk
  have hF1 : (1 : ℚ) < FLT_MAX := by norm_num [FLT_MAX]
  obtain ⟨hlt, hge⟩ := computeStep_alpha_b_range s (computeMaxStep delta0 s pk)
    (computeStep_inner_gp s pk) h0
  unfold computeStep_alpha
  dsimp only
  generalize computeStep_alpha_b s (computeMaxStep delta0 s pk)
    (computeStep_inner_gp s pk) = B at hlt hge ⊢
  generalize computeMaxStep delta0 s pk = A at h0 hF hlt hge ⊢
  have h1 : ((1.0 : ℚ)) = 1 := by norm_num
  rw [h1]
  by_cases hA : A < FLT_MAX
  · obtain ⟨hB0, hBpos, hBz⟩ := hlt hA
    refine ⟨?_, ?_, ?_, ?_⟩
    · split_ifs <;> linarith
    · intro hpos
      obtain ⟨hb1, hb2⟩ := hBpos hpos
      split_ifs with h2
      · exact ⟨hb1, hb2⟩
      · exact ⟨zero_lt_one, lt_of_le_of_lt (not_lt.mp h2) hb2⟩
    · intro hz
      rw [hBz hz, if_pos zero_lt_one]
    · intro hz
      exact absurd hA (by rw [hz]; exact lt_irrefl _)
  · rw [hge hA, if_neg (not_lt.mpr hF1.le)]
    have hAeq : A = FLT_MAX := le_antisymm hF (not_lt.mp hA)
    refine ⟨zero_le_one, ?_, ?_, ?_⟩
    · intro _
      exact ⟨zero_lt_one, by rw [hAeq]; exact hF1⟩
    · intro hz
      rw [hz] at hAeq
      exact absurd hAeq (by norm_num [FLT_MAX])
    · intro _
      rfl

/-- The first trial point of `computeStep` is strictly inside all bounds
whenever the current point is, for every direction and whatever the local
`delta` of `computeMaxStep` held before its loop. -/
theorem computeStep_first_trial_inside (delta0 : ℚ) (s : OptBaQNewton) (pk : ColumnVector)
    (hin : InsideAllBounds s.nlp s.nlp.xc) :
    InsideAllBounds s.nlp (computeStep_xplus s pk (computeStep_alpha delta0 s pk)) := by
  obtain ⟨ha0, hapos, hazero, _⟩ := computeStep_alpha_range delta0 s pk
  have hA0 := computeMaxStep_nonneg delta0 s pk
  intro i hi
  obtain ⟨hl, hu⟩ := hin i hi
  obtain ⟨hup, hlo⟩ := computeMaxStep_le_limit delta0 s pk i hi
  simp only [computeStep_xplus]
  rcases eq_or_lt_of_le hA0 with hAz | hAp
  · rw [hazero hAz.symm, mul_zero, add_zero]
    exact ⟨hl, hu⟩
  · obtain ⟨hap, haA⟩ := hapos hAp
    rcases lt_trichotomy (pk i) 0 with hneg | hz | hpos
    · have hlim : 0 < (s.nlp.lower i - s.nlp.xc i) / pk i :=
        div_pos_of_neg_of_neg (sub_neg.mpr hl) hneg
      have h1 := lt_of_lt_of_le haA (hlo hneg)
      rw [max_eq_right hlim.le, lt_div_iff_of_neg hneg] at h1
      have h2 : pk i * computeStep_alpha delta0 s pk < 0 := mul_neg_of_neg_of_pos hneg hap
      constructor <;> linarith
    · rw [hz, zero_mul, add_zero]
      exact ⟨hl, hu⟩
    · have hlim : 0 < (s.nlp.upper i - s.nlp.xc i) / pk i :=
        div_pos (sub_pos.mpr hu) hpos
      have h1 := lt_of_lt_of_le haA (hup hpos)
      rw [max_eq_right hlim.le, lt_div_iff₀ hpos] at h1
      have h2 : 0 < pk i * computeStep_alpha delta0 s pk := mul_pos hpos hap
      constructor <;> linarith

/-- When the first component of the direction is not zero and the current
point is strictly inside all bounds, the first trial step of `computeStep`
satisfies `0 < alpha < alpha_bar`, it is `1` when `alpha_bar = FLT_MAX`, and
the first trial point is strictly inside all bounds. -/
theorem computeStep_first_trial_of_first_ne (delta0 : ℚ) (s : OptBaQNewton)
    (pk : ColumnVector) (hn : 0 < s.nlp.dim) (h0 : pk 0 ≠ 0)
    (hin : InsideAllBounds s.nlp s.nlp.xc) :
    0 < computeStep_alpha delta0 s pk ∧
    computeStep_alpha delta0 s pk < computeMaxStep delta0 s pk ∧
    (computeMaxStep delta0 s pk = FLT_MAX → computeStep_alpha delta0 s pk = 1) ∧
    InsideAllBounds s.nlp (computeStep_xplus s pk (computeStep_alpha delta0 s pk)) := by
  have hpos : 0 < computeMaxStep delta0 s pk := by
    rw [computeMaxStep_eq_spec_of_first_ne delta0 s pk hn h0]
    exact maxStepSpec_pos s pk hin _ (le_refl _)
  obtain ⟨_, hapos, _, hmax⟩ := computeStep_alpha_range delta0 s pk
  exact ⟨(hapos hpos).1, (hapos hpos).2, hmax, computeStep_first_trial_inside delta0 s pk hin⟩

theorem stateTwoVarsDescent_inside :
    InsideAllBounds stateTwoVarsDescent.nlp stateTwoVarsDescent.nlp.xc := by
  intro i _
  constructor <;> norm_num [stateTwoVarsDescent]

theorem stateTwoVarsDescent_inner_gp :
    computeStep_inner_gp stateTwoVarsDescent dirSecond = -1 := by
  simp [computeStep_inner_gp, Dot, stateTwoVarsDescent, dirSecond, Finset.sum_range_succ]

theorem stateTwoVarsDescent_maxStep :
    computeMaxStep 0 stateTwoVarsDescent dirSecond = 0 := by
  simp only [computeMaxStep, stateTwoVarsDescent, forLoop, computeMaxStep_body, dirSecond]
  norm_num [FLT_MAX]

/-- C21 at a failing input: at the origin of the box `[-10, 10]^2`, a point
strictly inside all bounds, with `mu = 1/10`, the direction `(0, 1)` and the
barrier gradient `(-1, -1)` (so `Dot(grad_barrier, pk) = -1`), the first pass
of `computeMaxStep` finds `sk(1) == 0` and takes the unassigned local `delta`
into `gamma`; when `delta` holds `0` the call returns `alpha_bar = 0`, so
`alpha_bar + mu/inner_gp = -1/10 < 0`, `alpha_b = max(-1/10, 0) = 0` and the
first trial step is `alpha = 0`: `0 < alpha < alpha_bar` does not hold and
the trial point is the current point. -/
theorem computeStep_alpha_zero_first_component :
    InsideAllBounds stateTwoVarsDescent.nlp stateTwoVarsDescent.nlp.xc ∧
    0 < stateTwoVarsDescent.mu ∧
    dirSecond 1 ≠ 0 ∧
    computeStep_inner_gp stateTwoVarsDescent dirSecond = -1 ∧
    computeMaxStep 0 stateTwoVarsDescent dirSecond = 0 ∧
    computeStep_alpha_b stateTwoVarsDescent (computeMaxStep 0 stateTwoVarsDescent dirSecond)
      (computeStep_inner_gp stateTwoVarsDescent dirSecond) = 0 ∧
    computeStep_alpha 0 stateTwoVarsDescent dirSecond = 0 ∧
    maxStepSpec stateTwoVarsDescent dirSecond stateTwoVarsDescent.nlp.dim = 10 ∧
    (∀ i, computeStep_xplus stateTwoVarsDescent dirSecond
      (computeStep_alpha 0 stateTwoVarsDescent dirSecond) i = stateTwoVarsDescent.nlp.xc i) := by
  have hb : computeStep_alpha_b stateTwoVarsDescent
      (computeMaxStep 0 stateTwoVarsDescent dirSecond)
      (computeStep_inner_gp stateTwoVarsDescent dirSecond) = 0 := by
    rw [stateTwoVarsDescent_maxStep, stateTwoVarsDescent_inner_gp]
    norm_num [computeStep_alpha_b, stateTwoVarsDescent, FLT_MAX]
  have ha : computeStep_alpha 0 stateTwoVarsDescent dirSecond = 0 := by
    unfold computeStep_alpha
    dsimp only
    rw [hb]
    norm_num
  refine ⟨stateTwoVarsDescent_inside, by norm_num [stateTwoVarsDescent], by simp [dirSecond],
    stateTwoVarsDescent_inner_gp, stateTwoVarsDescent_maxStep, hb, ha, ?_, ?_⟩
  · norm_num [maxStepSpec, stateTwoVarsDescent, dirSecond, FLT_MAX]
  · intro i
    rw [ha]
    simp [computeStep_xplus]

/-- C22: whenever `alpha_bar = computeMaxStep(pk)` is below `FLT_MAX`, it is
not negative, and the bound `alpha_b` of `computeStep` is `0.5 * alpha_bar`
when `alpha_bar + mu/inner_gp < 0` and `0.95 * alpha_bar` otherwise; in the
first case the term `alpha_bar + mu/inner_gp` is strictly below the selected
value, so the `max` never selects it. This holds for every object, every
direction and whatever the local `delta` of `computeMaxStep` held before its
loop. -/
theorem computeStep_alpha_b_two_values (delta0 : ℚ) (s : OptBaQNewton) (pk : ColumnVector)
    (hbar : computeMaxStep delta0 s pk < FLT_MAX) :
    0 ≤ computeMaxStep delta0 s pk ∧
    (computeMaxStep delta0 s pk + s.mu / computeStep_inner_gp s pk < 0 →
      computeStep_alpha_b s (computeMaxStep delta0 s pk) (computeStep_inner_gp s pk) =
          0.5 * computeMaxStep delta0 s pk ∧
        computeMaxStep delta0 s pk + s.mu / computeStep_inner_gp s pk <
          computeStep_alpha_b s (computeMaxStep delta0 s pk) (computeStep_inner_gp s pk)) ∧
    (¬ computeMaxStep delta0 s pk + s.mu / computeStep_inner_gp s pk < 0 →
      computeStep_alpha_b s (computeMaxStep delta0 s pk) (computeStep_inner_gp s pk) =
        0.95 * computeMaxStep delta0 s pk) := by
  have h0 := computeMaxStep_nonneg delta0 s pk
  have hhalf : (0 : ℚ) ≤ 0.5 * computeMaxStep delta0 s pk := mul_nonneg (by norm_num) h0
  refine ⟨h0, ?_, ?_⟩
  · intro hneg
    have hb : computeStep_alpha_b s (computeMaxStep delta0 s pk) (computeStep_inner_gp s pk) =
        0.5 * computeMaxStep delta0 s pk := by
      unfold computeStep_alpha_b
      dsimp only
      rw [if_pos ⟨hbar, hneg⟩]
      exact max_eq_right (le_trans hneg.le hhalf)
    exact ⟨hb, by rw [hb]; exact lt_of_lt_of_le hneg hhalf⟩
  · intro hnn
    unfold computeStep_alpha_b
    dsimp only
    rw [if_neg (fun h => hnn h.2), if_pos ⟨hbar, not_lt.mp hnn⟩]

theorem stateFlatDescent_maxStep : computeMaxStep 0 stateFlatDescent dirOnes = 10 := by
  simp only [computeMaxStep, stateFlatDescent, forLoop, computeMaxStep_body, dirOnes]
  norm_num [FLT_MAX]

theorem stateFlatDescent_inner_gp :
    computeStep_inner_gp stateFlatDescent dirOnes = -1 / 1000 := by
  simp [computeStep_inner_gp, Dot, stateFlatDescent, dirOnes]

/-- The statement of C22 at a concrete input where the first branch is taken:
one variable at the origin of `[-10, 10]`, direction `1`, `mu = 1/10` and
`inner_gp = -1/1000`, so that `alpha_bar = 10`, `alpha_bar + mu/inner_gp =
-90` and `alpha_b = max(-90, 5) = 5`. -/
theorem computeStep_alpha_b_two_values_witness :
    computeMaxStep 0 stateFlatDescent dirOnes < FLT_MAX ∧
    computeMaxStep 0 stateFlatDescent dirOnes + stateFlatDescent.mu /
      computeStep_inner_gp stateFlatDescent dirOnes < 0 ∧
    computeStep_alpha_b stateFlatDescent (computeMaxStep 0 stateFlatDescent dirOnes)
      (computeStep_inner_gp stateFlatDescent dirOnes) =
        0.5 * computeMaxStep 0 stateFlatDescent dirOnes :=
  have hbar : computeMaxStep 0 stateFlatDescent dirOnes < FLT_MAX := by
    rw [stateFlatDescent_maxStep]; norm_num [FLT_MAX]
  have hneg : computeMaxStep 0 stateFlatDescent dirOnes + stateFlatDescent.mu /
      computeStep_inner_gp stateFlatDescent dirOnes < 0 := by
    rw [stateFlatDescent_maxStep, stateFlatDescent_inner_gp]
    norm_num [stateFlatDescent]
  ⟨hbar, hneg,
    ((computeStep_alpha_b_two_values 0 stateFlatDescent dirOnes hbar).2.1 hneg).1⟩

end OPTPP
